import Mathlib

/-!
Verification development for the relic-combination optimizer
(`src/relic_optimizer.py`).  The Python data model and the scoring,
candidate-building, enumeration and pairing pipeline are embedded
shallowly: effect keys are abstracted as naturals, machine integers as
`Int`/`Nat`, Python dictionaries as insertion-ordered association lists,
and the stable `list.sort` as `List.insertionSort`.  The two places where
the source multiplies a weight by the literals `0.3` / `0.5` in IEEE
doubles and truncates with `int(...)` are modelled by exact natural
division; the model was validated against CPython for every weight the
program can produce (the priority weights 1, 10 and 100) and all counts
up to 2000, where `int(w * 0.3) = 3*w/10`, `int(w * 0.5) = w/2`,
`int(w * 0.3 * k) = 3*w*k/10` and `int(w * 0.5 * k) = w*k/2` hold
exactly.
-/

namespace RelicOpt

/-- Stacking flag of an effect key: `stackable` (True), `conditional`
("conditional") or `nonStackable` (False / absent), as loaded by
`load_stacking_data`. -/
inductive Stacking where
  | nonStackable : Stacking
  | stackable : Stacking
  | conditional : Stacking
deriving DecidableEq, Repr

/-- Priority tier of a spec entry (`required` / `preferred` /
`nice_to_have`). -/
inductive Priority where
  | required : Priority
  | preferred : Priority
  | nice_to_have : Priority
deriving DecidableEq, Repr

/-- PRIORITY_WEIGHTS table. -/
def priority_weight : Priority → Nat
  | .required => 100
  | .preferred => 10
  | .nice_to_have => 1

/-- CONCENTRATION_BONUS constant. -/
def CONCENTRATION_BONUS : Nat := 5

/-- SUB_RANK_TIER table used for the tiebreaker sub-rank values. -/
def SUB_RANK_TIER : Priority → Nat
  | .required => 10000
  | .preferred => 100
  | .nice_to_have => 1

/-- one effect occurrence on a relic: a stable key (abstracted as a
natural number) plus the two localized names used for name-substring
resolution. -/
structure Effect where
  key : Nat
  name_ja : String
  name_en : String
deriving DecidableEq, Repr

/-- a relic instance: unique id, item color and type (strings as in the
JSON inventory), and the ordered effect groups (each group a list whose
head is the primary effect, the rest tag-along sub-effects). -/
structure Relic where
  id : Nat
  itemColor : String
  itemType : String
  effects : List (List Effect)
deriving DecidableEq, Repr

/-- a user spec entry after loading: optional explicit key, optional
name substrings, priority, rank (Python int, default 0) and the exclude
flag. -/
structure SpecEntry where
  key : Option Nat
  name_ja : Option String
  name_en : Option String
  priority : Priority
  rank : Int
  exclude : Bool
deriving DecidableEq, Repr

/-- the optimizer's construction inputs: the relic inventory, the spec
entry list and the stacking table (a total function, modelling
`stacking_data.get(key, False)`). -/
structure Optimizer where
  all_relics : List Relic
  effect_specs : List SpecEntry
  stacking_data : Nat → Stacking

/-- value stored in the include/exclude lookup Python dicts (the `spec`
back-reference field of the source is never read and is omitted). -/
structure LookupEntry where
  priority : Priority
  weight : Nat
deriving DecidableEq, Repr

/-- model of `int(w * 0.3)`: exact on every weight the program produces
(1, 10, 100 — validated against CPython doubles). -/
def py_int_03 (w : Nat) : Nat := 3 * w / 10

/-- model of `int(w * 0.5)`: exact because `0.5` and integer halves are
exact doubles. -/
def py_int_05 (w : Nat) : Nat := w / 2

/-- model of `int(w * 0.3 * k)` (note the float product is truncated as
a whole): exact for weights 1, 10, 100 and all k ≤ 2000 against
CPython. -/
def py_trunc_03 (w k : Nat) : Nat := 3 * w * k / 10

/-- model of `int(w * 0.5 * k)` (truncation of the whole product):
exact in doubles. -/
def py_trunc_05 (w k : Nat) : Nat := w * k / 2

/-- Python dict assignment `d[k] = v`: update in place when the key
exists (CPython keeps the insertion position), append otherwise. -/
def dict_set {β : Type} (d : List (Nat × β)) (k : Nat) (v : β) : List (Nat × β) :=
  match d with
  | [] => [(k, v)]
  | (k1, v1) :: rest => if k1 = k then (k, v) :: rest else (k1, v1) :: dict_set rest k v

/-- substring test `needle in hay` on Python strings. -/
def py_in (needle hay : String) : Bool := decide (needle.toList <:+: hay.toList)

/-- case-insensitive substring test `needle.lower() in hay.lower()`
(ASCII lowering; Python's `str.lower` is full Unicode but the engine
only compares catalog names). -/
def py_in_lower (needle hay : String) : Bool :=
  decide (needle.toList.map Char.toLower <:+: hay.toList.map Char.toLower)

/-- Python truthiness of an optional string (`None` and `''` are
falsy). -/
def truthy : Option String → Bool
  | none => false
  | some s => !(s = "")

/-- does one effect match the entry's name substrings, as in
`_resolve_name_matches` (`name_ja and name_ja in eff.get('name_ja','')`
or the lowercased English test)? -/
def name_matched (s : SpecEntry) (e : Effect) : Bool :=
  (match s.name_ja with
   | some nj => !(nj = "") && py_in nj e.name_ja
   | none => false) ||
  (match s.name_en with
   | some ne => !(ne = "") && py_in_lower ne e.name_en
   | none => false)

/-- every effect of every group of every relic, in iteration order of
`_resolve_name_matches`. -/
def all_inventory_effects (relics : List Relic) : List Effect :=
  (relics.map (fun r => r.effects.flatten)).flatten

/-- `_resolve_name_matches`: scan the whole inventory; every effect
whose name matches is bound under the entry's priority unless its key is
already present in the target lookup. -/
def resolve_name_matches (relics : List Relic) (s : SpecEntry) (w : Nat)
    (tgt : List (Nat × LookupEntry)) : List (Nat × LookupEntry) :=
  (all_inventory_effects relics).foldl
    (fun t e =>
      if name_matched s e && (List.lookup e.key t).isNone then
        dict_set t e.key ⟨s.priority, w⟩
      else t)
    tgt

/-- processing of one spec entry while building a lookup table: an
explicit key is bound first (overwriting any earlier binding, as the
source's unconditional dict assignment does), then the name substrings
are resolved. -/
def bind_spec (relics : List Relic) (tgt : List (Nat × LookupEntry))
    (s : SpecEntry) : List (Nat × LookupEntry) :=
  let w := priority_weight s.priority
  let tgt1 := match s.key with
    | some k => dict_set tgt k ⟨s.priority, w⟩
    | none => tgt
  if truthy s.name_ja || truthy s.name_en then
    resolve_name_matches relics s w tgt1
  else tgt1

/-- include-side spec entries, in order. -/
def include_specs (o : Optimizer) : List SpecEntry :=
  o.effect_specs.filter (fun s => !s.exclude)

/-- exclude-side spec entries, in order. -/
def exclude_specs (o : Optimizer) : List SpecEntry :=
  o.effect_specs.filter (fun s => s.exclude)

/-- the include lookup `effect_lookup : key -> {priority, weight}`. -/
def effect_lookup (o : Optimizer) : List (Nat × LookupEntry) :=
  (include_specs o).foldl (bind_spec o.all_relics) []

/-- the exclude lookup `exclude_lookup : key -> {priority, weight}`. -/
def exclude_lookup (o : Optimizer) : List (Nat × LookupEntry) :=
  (exclude_specs o).foldl (bind_spec o.all_relics) []

/-- `_spec_key_list`: the include keys, sorted ascending
(`sorted(self.effect_lookup.keys())`). -/
def spec_key_list (o : Optimizer) : List Nat :=
  ((effect_lookup o).map Prod.fst).insertionSort (· ≤ ·)

/-- first index of a key in a list (the
`{k: i for i, k in enumerate(keys)}` dict as a partial function). -/
def find_idx (k : Nat) : List Nat → Option Nat
  | [] => none
  | x :: rest => if x = k then some 0 else (find_idx k rest).map (fun i => i + 1)

/-- `_spec_key_to_idx` as a partial function. -/
def spec_key_to_idx (o : Optimizer) (k : Nat) : Option Nat :=
  find_idx k (spec_key_list o)

/-- `_n_spec`. -/
def n_spec (o : Optimizer) : Nat := (spec_key_list o).length

/-- include-lookup entry of a key known to be in the table (the default
is unreachable for keys of `spec_key_list`). -/
def lookup_entry (o : Optimizer) (k : Nat) : LookupEntry :=
  (List.lookup k (effect_lookup o)).getD ⟨Priority.nice_to_have, 0⟩

/-- `_spec_weights`. -/
def spec_weights (o : Optimizer) : List Nat :=
  (spec_key_list o).map (fun k => (lookup_entry o k).weight)

/-- stacking codes `_spec_stacking_int`: 0 = non-stackable,
1 = stackable, 2 = conditional. -/
def stacking_code : Stacking → Nat
  | .nonStackable => 0
  | .stackable => 1
  | .conditional => 2

/-- `_spec_stacking_int`. -/
def spec_stacking_int (o : Optimizer) : List Nat :=
  (spec_key_list o).map (fun k => stacking_code (o.stacking_data k))

/-- `_spec_penalty30`, precomputed as `int(w * 0.3)`. -/
def spec_penalty30 (o : Optimizer) : List Nat :=
  (spec_key_list o).map (fun k => py_int_03 (lookup_entry o k).weight)

/-- `_spec_penalty50`, precomputed as `int(w * 0.5)`. -/
def spec_penalty50 (o : Optimizer) : List Nat :=
  (spec_key_list o).map (fun k => py_int_05 (lookup_entry o k).weight)

/-- `_is_required` flags per include index. -/
def is_required_arr (o : Optimizer) : List Bool :=
  (spec_key_list o).map (fun k => (lookup_entry o k).priority = Priority.required)

/-- `_required_idx_set` (kept as the ascending list of indices). -/
def required_idx_set (o : Optimizer) : List Nat :=
  (List.range (n_spec o)).filter (fun i => (is_required_arr o).getD i false)

/-- grouping helper for the sub-rank construction: append an entry to
the group of its priority, creating the group at the end on first
sighting (Python `dict.setdefault` ordering). -/
def add_to_group (gs : List (Priority × List (Nat × Int))) (p : Priority)
    (e : Nat × Int) : List (Priority × List (Nat × Int)) :=
  match gs with
  | [] => [(p, [e])]
  | (q, l) :: rest =>
    if q = p then (q, l ++ [e]) :: rest else (q, l) :: add_to_group rest p e

/-- one step of the `priority_groups` construction: an entry carrying an
explicit key that resolves in the index map is appended to its
priority's group, every other entry is skipped. -/
def priority_group_step (key_list : List Nat)
    (gs : List (Priority × List (Nat × Int))) (s : SpecEntry) :
    List (Priority × List (Nat × Int)) :=
  match s.key with
  | some k =>
    match find_idx k key_list with
    | some idx => add_to_group gs s.priority (idx, s.rank)
    | none => gs
  | none => gs

/-- the `priority_groups` dict built from a spec-entry list and a key
table: only entries carrying an explicit key that resolves in the index
map participate. -/
def build_priority_groups (entries : List SpecEntry) (key_list : List Nat) :
    List (Priority × List (Nat × Int)) :=
  entries.foldl (priority_group_step key_list) []

/-- group stored under a priority in the `priority_groups` structure
(empty when the priority was never sighted). -/
def group_get (gs : List (Priority × List (Nat × Int))) (p : Priority) :
    List (Nat × Int) :=
  ((gs.find? (fun g => g.1 = p)).map Prod.snd).getD []

/-- the participating (priority, index, rank) triples of a spec list in
entry order: exactly the entries with an explicit key resolving in the
key table. -/
def keyed_entries (entries : List SpecEntry) (key_list : List Nat) :
    List (Priority × Nat × Int) :=
  entries.filterMap (fun s =>
    match s.key with
    | some k => (find_idx k key_list).map (fun idx => (s.priority, idx, s.rank))
    | none => none)

/-- group size used by the sub-rank assignment for a priority: the
number of include entries with that priority whose explicit key resolves
in the include key table. -/
def explicit_group_size (o : Optimizer) (p : Priority) : Nat :=
  ((keyed_entries (include_specs o) (spec_key_list o)).filter
    (fun t => t.1 = p)).length

/-- the sequence of (index, value) writes performed by the sub-rank
assignment pass, in execution order. -/
def sub_rank_writes (gs : List (Priority × List (Nat × Int))) : List (Nat × Int) :=
  gs.flatMap (fun g =>
    g.2.map (fun e => (e.1, ((g.2.length : Int) - e.2) * (SUB_RANK_TIER g.1 : Int))))

/-- assignment pass of the sub-rank construction: for each group of size
G and entry with rank r, write `(G - r) * TIER` at the entry's index
(later writes win, as in the source's loop). -/
def assign_sub_ranks (n : Nat) (gs : List (Priority × List (Nat × Int))) : List Int :=
  gs.foldl
    (fun vals g =>
      g.2.foldl
        (fun vals e =>
          vals.set e.1 (((g.2.length : Int) - e.2) * (SUB_RANK_TIER g.1 : Int)))
        vals)
    (List.replicate n 0)

/-- `_spec_sub_rank_values`. -/
def spec_sub_rank_values (o : Optimizer) : List Int :=
  assign_sub_ranks (n_spec o) (build_priority_groups (include_specs o) (spec_key_list o))

/-- `_excl_key_list`. -/
def excl_key_list (o : Optimizer) : List Nat :=
  ((exclude_lookup o).map Prod.fst).insertionSort (· ≤ ·)

/-- `_excl_key_to_idx` as a partial function. -/
def excl_key_to_idx (o : Optimizer) (k : Nat) : Option Nat :=
  find_idx k (excl_key_list o)

/-- exclude-lookup entry of a key known to be in the table. -/
def excl_entry (o : Optimizer) (k : Nat) : LookupEntry :=
  (List.lookup k (exclude_lookup o)).getD ⟨Priority.nice_to_have, 0⟩

/-- `_excl_weights`. -/
def excl_weights (o : Optimizer) : List Nat :=
  (excl_key_list o).map (fun k => (excl_entry o k).weight)

/-- `_excl_is_required`. -/
def excl_is_required (o : Optimizer) : List Bool :=
  (excl_key_list o).map (fun k => (excl_entry o k).priority = Priority.required)

/-- `_excl_sub_rank_values`. -/
def excl_sub_rank_values (o : Optimizer) : List Int :=
  assign_sub_ranks (excl_key_list o).length
    (build_priority_groups (exclude_specs o) (excl_key_list o))

/-- all effect keys carried by a relic (all groups, sub-effects
included), in scan order. -/
def relic_keys (r : Relic) : List Nat :=
  (r.effects.flatten).map (fun e => e.key)

/-- `_get_spec_keys`: the relic's effect keys that hit the include
table, with multiplicity. -/
def get_spec_keys (o : Optimizer) (r : Relic) : List Nat :=
  (relic_keys r).filter (fun k => (List.lookup k (effect_lookup o)).isSome)

/-- `_get_exclude_keys`: the relic's effect keys that hit the exclude
table, with multiplicity. -/
def get_exclude_keys (o : Optimizer) (r : Relic) : List Nat :=
  (relic_keys r).filter (fun k => (List.lookup k (exclude_lookup o)).isSome)

/-- concentration bonus for a relic with n include hits:
`C * n * (n-1) / 2` when n ≥ 2, else 0. -/
def conc_bonus_of (n : Nat) : Nat :=
  if 2 ≤ n then CONCENTRATION_BONUS * n * (n - 1) / 2 else 0

/-- `score_relic`: include weights + concentration bonus − exclude
weights (the per-relic memo cache of the source is pure memoization and
is not modelled). -/
def score_relic (o : Optimizer) (r : Relic) : Int :=
  ((get_spec_keys o r).map (fun k => ((lookup_entry o k).weight : Int))).sum
    + (conc_bonus_of (get_spec_keys o r).length : Int)
    - ((get_exclude_keys o r).map (fun k => ((excl_entry o k).weight : Int))).sum

/-- contribution of one key with its duplicate count in
`_stacking_aware_score` (keys outside the include table are skipped;
note the penalty truncates the whole float product `w * 0.3 * (c-1)`). -/
def stacking_contribution (o : Optimizer) (k : Nat) (c : Nat) : Int :=
  match List.lookup k (effect_lookup o) with
  | none => 0
  | some e =>
    match o.stacking_data k with
    | .stackable => (e.weight : Int) * c
    | .conditional =>
      (e.weight : Int) - (if 1 < c then (py_trunc_03 e.weight (c - 1) : Int) else 0)
    | .nonStackable =>
      (e.weight : Int) - (if 1 < c then (py_trunc_05 e.weight (c - 1) : Int) else 0)

/-- `_stacking_aware_score` on an effect-count multiset, given as the
list of occurrences (the Python dict `effect_counts` maps each distinct
key to its occurrence count; iteration order does not affect the
sum). -/
def stacking_aware_score (o : Optimizer) (occ : List Nat) : Int :=
  (occ.dedup.map (fun k => stacking_contribution o k (occ.count k))).sum

/-- per-index contribution of `_fast_stacking_score`, using the
precomputed weight, stacking code and penalty arrays. -/
def fast_contribution (w si p30 p50 c : Nat) : Int :=
  if c = 0 then 0
  else if si = 1 then (w : Int) * c
  else if si = 2 then (w : Int) - (if 1 < c then ((p30 * (c - 1) : Nat) : Int) else 0)
  else (w : Int) - (if 1 < c then ((p50 * (c - 1) : Nat) : Int) else 0)

/-- `_fast_stacking_score` over a counts vector indexed by include
index. -/
def fast_stacking_score (o : Optimizer) (counts : List Nat) : Int :=
  ((List.range (n_spec o)).map
    (fun i => fast_contribution ((spec_weights o).getD i 0)
      ((spec_stacking_int o).getD i 0) ((spec_penalty30 o).getD i 0)
      ((spec_penalty50 o).getD i 0) (counts.getD i 0))).sum

/-- `_fast_sub_score`: sum of include sub-rank values over the indices
present in the counts vector. -/
def fast_sub_score (o : Optimizer) (counts : List Nat) : Int :=
  ((List.range (n_spec o)).map
    (fun i => if 0 < counts.getD i 0 then (spec_sub_rank_values o).getD i 0 else 0)).sum

/-- generic first-occurrence filter: drop every element whose projection
was already seen (the accumulator is the set of seen projections). -/
def first_by {α β : Type} [DecidableEq β] (f : α → β) :
    List α → List β → List α
  | [], _ => []
  | x :: rest, seen =>
    if f x ∈ seen then first_by f rest seen
    else x :: first_by f rest (f x :: seen)

/-- the `seen_ids` dedup of `score_combination`: keep the first
occurrence of every relic id. -/
def dedup_by_id (combo : List Relic) : List Relic :=
  first_by (fun r => r.id) combo []

/-- canonical set-of-naturals representation for values the source keeps
in Python sets: deduplicated and sorted ascending. -/
def py_nat_set (l : List Nat) : List Nat :=
  l.dedup.insertionSort (· ≤ ·)

/-- all include-table hits of a combination (after the id dedup), with
multiplicity: the multiset underlying the `effect_counts` dict. -/
def combo_occ (o : Optimizer) (combo : List Relic) : List Nat :=
  ((dedup_by_id combo).map (get_spec_keys o)).flatten

/-- all exclude-table hits of a combination (after the id dedup), with
multiplicity. -/
def combo_excl_occ (o : Optimizer) (combo : List Relic) : List Nat :=
  ((dedup_by_id combo).map (get_exclude_keys o)).flatten

/-- summed concentration bonus of a combination. -/
def combo_concentration (o : Optimizer) (combo : List Relic) : Nat :=
  ((dedup_by_id combo).map (fun r => conc_bonus_of (get_spec_keys o r).length)).sum

/-- the include keys of priority `required`
(`{k for k, v in self.effect_lookup.items() if v['priority'] == 'required'}`). -/
def required_include_keys (o : Optimizer) : List Nat :=
  ((effect_lookup o).filter (fun kv => kv.2.priority = Priority.required)).map Prod.fst

/-- result record of `score_combination` (sets are represented
canonically, sorted ascending, as the output formatter sorts them). -/
structure ComboResult where
  required_met : Bool
  score : Int
  sub_score : Int
  matched_keys : List Nat
  missing_required : List Nat
  excluded_present : List Nat
deriving DecidableEq, Repr

/-- `score_combination`: stacking-aware score over the deduplicated
combination, plus concentration, minus exclude penalties; the include
sub-rank tiebreaker; required coverage bookkeeping. -/
def score_combination (o : Optimizer) (combo : List Relic) : ComboResult :=
  let occ := combo_occ o combo
  let excl_occ := combo_excl_occ o combo
  let exclude_penalty : Int :=
    (excl_occ.map (fun k => ((excl_entry o k).weight : Int))).sum
  let has_exclude_required :=
    excl_occ.any (fun k => (excl_entry o k).priority = Priority.required)
  let score := stacking_aware_score o occ
    + (combo_concentration o combo : Int) - exclude_penalty
  let sub_score : Int :=
    (occ.dedup.map (fun k =>
      match spec_key_to_idx o k with
      | some idx => (spec_sub_rank_values o).getD idx 0
      | none => 0)).sum
  let matched := py_nat_set occ
  let missing :=
    ((required_include_keys o).filter (fun k => !(k ∈ matched))).insertionSort (· ≤ ·)
  { required_met := (missing = []) && !has_exclude_required
    score := score
    sub_score := sub_score
    matched_keys := matched
    missing_required := missing
    excluded_present := py_nat_set excl_occ }

/-- `filter_relics`: restrict by item type and color (the `character`
parameter is accepted by the source but intentionally unused; Python
treats an empty type list as falsy and skips the filter). -/
def filter_relics (o : Optimizer) (types : Option (List String))
    (color : Option String) : List Relic :=
  let f1 := match types with
    | some ts => if ts = [] then o.all_relics
      else o.all_relics.filter (fun r => r.itemType ∈ ts)
    | none => o.all_relics
  match color with
  | some c => f1.filter (fun r => r.itemColor = c)
  | none => f1

/-- relics of one color (`by_color` grouping preserves inventory
order). -/
def by_color_get (pool : List Relic) (c : String) : List Relic :=
  pool.filter (fun r => r.itemColor = c)

/-- color-matching pool of one slot (`Any` accepts the whole pool). -/
def slot_pool (pool : List Relic) (slot_color : String) : List Relic :=
  if slot_color = "Any" then pool else by_color_get pool slot_color

/-- descending-by-score relation used wherever the source sorts relics
with `key=score, reverse=True` (Python's sort is stable; so is
`insertionSort`). -/
def score_ge (o : Optimizer) (a b : Relic) : Prop :=
  score_relic o b ≤ score_relic o a

instance (o : Optimizer) : DecidableRel (score_ge o) :=
  fun a b => inferInstanceAs (Decidable (score_relic o b ≤ score_relic o a))

instance (o : Optimizer) : IsTotal Relic (score_ge o) :=
  ⟨fun a b => le_total (score_relic o b) (score_relic o a)⟩

instance (o : Optimizer) : IsTrans Relic (score_ge o) :=
  ⟨fun _ _ _ h1 h2 => le_trans h2 h1⟩

/-- stable descending sort of relics by per-relic score. -/
def sort_desc_by_score (o : Optimizer) (l : List Relic) : List Relic :=
  l.insertionSort (score_ge o)

/-- per-slot candidate list of `optimize_for_vessel`: the color pool
sorted by descending score, truncated at `candidates_per_slot` (no
must-include pass on this path). -/
def vessel_slot_candidates (o : Optimizer) (slot_colors : List String)
    (base_filtered : List Relic) (cap : Nat) : List (List Relic) :=
  slot_colors.map (fun c => (sort_desc_by_score o (slot_pool base_filtered c)).take cap)

/-- `itertools.product` over the slot candidate lists (rightmost slot
varies fastest). -/
def list_product {α : Type} : List (List α) → List (List α)
  | [] => [[]]
  | l :: rest => l.flatMap (fun x => (list_product rest).map (fun c => x :: c))

/-- the enumeration filter of `optimize_for_vessel`: drop combinations
with a repeated relic id, then keep only the first combination for each
canonical (sorted) id tuple. -/
def enumerate_vessel_combos (slots : List (List Relic)) : List (List Relic) :=
  first_by (fun combo => (combo.map (fun r => r.id)).insertionSort (· ≤ ·))
    ((list_product slots).filter (fun combo => decide (combo.map (fun r => r.id)).Nodup))
    []

/-- a single-side result entry: the `score_combination` output plus the
relic tuple. -/
structure VesselResult where
  required_met : Bool
  score : Int
  sub_score : Int
  matched_keys : List Nat
  missing_required : List Nat
  excluded_present : List Nat
  relics : List Relic
deriving DecidableEq, Repr

/-- wrap a combination into a result entry. -/
def result_of_combo (o : Optimizer) (combo : List Relic) : VesselResult :=
  let cr := score_combination o combo
  { required_met := cr.required_met, score := cr.score, sub_score := cr.sub_score
    matched_keys := cr.matched_keys, missing_required := cr.missing_required
    excluded_present := cr.excluded_present, relics := combo }

/-- lexicographic order on integer triples (Python tuple
comparison). -/
def lex3_le (a b : Int × Int × Int) : Prop :=
  a.1 < b.1 ∨ (a.1 = b.1 ∧ (a.2.1 < b.2.1 ∨ (a.2.1 = b.2.1 ∧ a.2.2 ≤ b.2.2)))

instance : DecidableRel lex3_le := fun a b => by
  unfold lex3_le
  infer_instance

theorem lex3_le_total (a b : Int × Int × Int) : lex3_le a b ∨ lex3_le b a := by
  unfold lex3_le
  rcases lt_trichotomy a.1 b.1 with h | h | h
  · exact Or.inl (Or.inl h)
  · rcases lt_trichotomy a.2.1 b.2.1 with h2 | h2 | h2
    · exact Or.inl (Or.inr ⟨h, Or.inl h2⟩)
    · rcases le_total a.2.2 b.2.2 with h3 | h3
      · exact Or.inl (Or.inr ⟨h, Or.inr ⟨h2, h3⟩⟩)
      · exact Or.inr (Or.inr ⟨h.symm, Or.inr ⟨h2.symm, h3⟩⟩)
    · exact Or.inr (Or.inr ⟨h.symm, Or.inl h2⟩)
  · exact Or.inr (Or.inl h)

theorem lex3_le_trans (a b c : Int × Int × Int) (h1 : lex3_le a b)
    (h2 : lex3_le b c) : lex3_le a c := by
  unfold lex3_le at h1 h2 ⊢
  rcases h1 with h1 | ⟨e1, h1⟩
  · rcases h2 with h2 | ⟨e2, _⟩
    · exact Or.inl (lt_trans h1 h2)
    · exact Or.inl (e2 ▸ h1)
  · rcases h2 with h2 | ⟨e2, h2⟩
    · exact Or.inl (e1 ▸ h2)
    · refine Or.inr ⟨e1.trans e2, ?_⟩
      rcases h1 with h1 | ⟨f1, h1⟩
      · rcases h2 with h2 | ⟨f2, _⟩
        · exact Or.inl (lt_trans h1 h2)
        · exact Or.inl (f2 ▸ h1)
      · rcases h2 with h2 | ⟨f2, h2⟩
        · exact Or.inl (f1 ▸ h2)
        · exact Or.inr ⟨f1.trans f2, le_trans h1 h2⟩

/-- ranking key of a result entry:
`(required_met, score, sub_score)` with booleans as 1/0. -/
def result_key (r : VesselResult) : Int × Int × Int :=
  (if r.required_met then (1 : Int) else 0, r.score, r.sub_score)

/-- the descending lexicographic order used to rank result entries
(`reverse=True` over the ascending key tuple). -/
def result_ge (a b : VesselResult) : Prop := lex3_le (result_key b) (result_key a)

instance : DecidableRel result_ge := fun a b => by
  unfold result_ge
  infer_instance

instance : IsTotal VesselResult result_ge := ⟨fun a b => by
  unfold result_ge
  exact (lex3_le_total _ _).symm.imp id id⟩

instance : IsTrans VesselResult result_ge := ⟨fun a b c h1 h2 => by
  unfold result_ge at h1 h2 ⊢
  exact lex3_le_trans _ _ _ h2 h1⟩

/-- `optimize_for_vessel`: build per-slot candidates, enumerate distinct
combinations, score, rank and truncate. -/
def optimize_for_vessel (o : Optimizer) (slot_colors : List String)
    (types : Option (List String)) (cap top_n : Nat) : List VesselResult :=
  let base_filtered := filter_relics o types none
  let slots := vessel_slot_candidates o slot_colors base_filtered cap
  if slots.any (fun sc => sc = []) then []
  else
    (((enumerate_vessel_combos slots).map (result_of_combo o)).insertionSort
      result_ge).take top_n

/-- `optimize_legacy`: color filter, top `candidates` relics by score,
then all size-`actual_slots` combinations (`itertools.combinations`
enumerates the same sublists as `sublistsLen`, in a different order; the
results are ranked afterwards). -/
def optimize_legacy (o : Optimizer) (color : Option String)
    (types : Option (List String)) (slots candidates top_n : Nat) :
    List VesselResult :=
  let filtered := filter_relics o types color
  if filtered = [] then []
  else
    let candidate_relics := (sort_desc_by_score o filtered).take candidates
    let actual_slots := min slots candidate_relics.length
    if actual_slots = 0 then []
    else
      (((List.sublistsLen actual_slots candidate_relics).map
        (result_of_combo o)).insertionSort result_ge).take top_n

/-- ids of relics in the filtered pool that carry at least one
include-table effect (`wanted_ids`). -/
def wanted_ids (o : Optimizer) (filtered : List Relic) : List Nat :=
  (filtered.filter (fun r => !(get_spec_keys o r = []))).map (fun r => r.id)

/-- one slot of `_build_slot_candidates`: relics carrying a wanted
effect are always included (capped by score when they overflow), the
remainder is filled with the highest-scoring others, and the list is
re-sorted by descending score. -/
def build_one_slot (o : Optimizer) (filtered : List Relic) (cap : Nat)
    (slot_color : String) : List Relic :=
  let candidates := slot_pool filtered slot_color
  let must0 := candidates.filter (fun r => r.id ∈ wanted_ids o filtered)
  let must_include :=
    if cap < must0.length then (sort_desc_by_score o must0).take cap else must0
  let must_ids := must_include.map (fun r => r.id)
  let others := sort_desc_by_score o (candidates.filter (fun r => !(r.id ∈ must_ids)))
  let top_others := others.take (cap - must_include.length)
  sort_desc_by_score o (must_include ++ top_others)

/-- `_build_slot_candidates` over a slot pattern. -/
def build_slot_candidates (o : Optimizer) (slot_colors : List String)
    (filtered : List Relic) (cap : Nat) : List (List Relic) :=
  slot_colors.map (build_one_slot o filtered cap)

/-- compact relic tuple of `_compact_relic`. -/
structure CompactRelic where
  rid : Nat
  spec_indices : List Nat
  excl_penalty : Nat
  has_excl_req : Bool
  conc_bonus : Nat
  excl_sub_rank : Int
deriving DecidableEq, Repr

/-- `_compact_relic`: resolve the relic's include hits to integer
indices and pre-aggregate its exclude penalty, required-exclude flag,
concentration bonus and exclude sub-rank sum (the index defaults are
unreachable: every hit key is in its table, hence in its key list). -/
def compact_relic (o : Optimizer) (r : Relic) : CompactRelic :=
  let spec_indices := (get_spec_keys o r).map (fun k => (spec_key_to_idx o k).getD 0)
  let excl_idxs := (get_exclude_keys o r).map (fun k => (excl_key_to_idx o k).getD 0)
  { rid := r.id
    spec_indices := spec_indices
    excl_penalty := (excl_idxs.map (fun i => (excl_weights o).getD i 0)).sum
    has_excl_req := excl_idxs.any (fun i => (excl_is_required o).getD i false)
    conc_bonus := conc_bonus_of spec_indices.length
    excl_sub_rank := (excl_idxs.map (fun i => (excl_sub_rank_values o).getD i 0)).sum }

/-- compact three-slot combo record
`(score, counts, conc, excl_pen, has_excl_req, relic_ids, excl_sub_sum)`. -/
structure TripleEntry where
  score : Int
  counts : List Nat
  conc : Nat
  excl_pen : Nat
  has_excl_req : Bool
  rids : List Nat
  excl_sub_sum : Int
deriving DecidableEq, Repr

/-- the aggregate counts vector: position i counts the occurrences of
include-index i over the chosen relics (the source's in-place
increments). -/
def counts_of (n : Nat) (idx_lists : List (List Nat)) : List Nat :=
  (List.range n).map (fun i => idx_lists.flatten.count i)

/-- build the compact combo record of a list of chosen compact relics,
as every enumerator does inline. -/
def mk_entry (o : Optimizer) (cs : List CompactRelic) : TripleEntry :=
  let counts := counts_of (n_spec o) (cs.map (fun c => c.spec_indices))
  let conc : Nat := (cs.map (fun c => c.conc_bonus)).sum
  let ep : Nat := (cs.map (fun c => c.excl_penalty)).sum
  { score := fast_stacking_score o counts + (conc : Int) - (ep : Int)
    counts := counts
    conc := conc
    excl_pen := ep
    has_excl_req := cs.any (fun c => c.has_excl_req)
    rids := cs.map (fun c => c.rid)
    excl_sub_sum := (cs.map (fun c => c.excl_sub_rank)).sum }

/-- ordered pairs at positions i < j of a list (the nested
`for i / for j in range(i+1, n)` loops). -/
def pairs_lt {α : Type} : List α → List (α × α)
  | [] => []
  | x :: rest => rest.map (fun y => (x, y)) ++ pairs_lt rest

/-- ordered triples at positions i < j < k. -/
def triples_lt {α : Type} : List α → List (α × α × α)
  | [] => []
  | x :: rest => (pairs_lt rest).map (fun p => (x, p.1, p.2)) ++ triples_lt rest

/-- `_enum_all_same`: C(n,3) over the single shared pool. -/
def enum_all_same (o : Optimizer) (cands : List CompactRelic) : List TripleEntry :=
  (triples_lt cands).map (fun t => mk_entry o [t.1, t.2.1, t.2.2])

/-- `_enum_all_diff`: plain Cartesian product of the three pools, no id
check. -/
def enum_all_diff (o : Optimizer) (c0 c1 c2 : List CompactRelic) : List TripleEntry :=
  c0.flatMap (fun a => c1.flatMap (fun b => c2.map (fun c => mk_entry o [a, b, c])))

/-- `_enum_two_same`: unordered pairs of the shared pool times the
singleton pool, skipping id collisions with the pair. -/
def enum_two_same (o : Optimizer) (same_cands diff_cands : List CompactRelic) :
    List TripleEntry :=
  (pairs_lt same_cands).flatMap (fun p =>
    (diff_cands.filter (fun c => !(c.rid = p.1.rid) && !(c.rid = p.2.rid))).map
      (fun c => mk_entry o [p.1, p.2, c]))

/-- choice sequences of `_enum_general` in DFS order: one candidate per
slot, skipping any whose id was already chosen (equivalently, the slot
product filtered to distinct ids). -/
def general_choices (slots : List (List CompactRelic)) : List (List CompactRelic) :=
  (list_product slots).filter (fun cs => decide (cs.map (fun c => c.rid)).Nodup)

/-- `_enum_general`: the source walks the choice tree depth-first with a
`seen` set of canonical (sorted) id tuples; that equals filtering the
product to distinct ids and keeping the first choice for each canonical
tuple, in DFS order. -/
def enum_general (o : Optimizer) (slots : List (List CompactRelic)) :
    List TripleEntry :=
  (first_by (fun cs => (cs.map (fun c => c.rid)).insertionSort (· ≤ ·))
    (general_choices slots) []).map (mk_entry o)

/-- the `same_color` of `_enum_two_same` dispatch: the color occupying
two of the three slots (unique maximum of the counter, so the
`Counter`-tie behavior never matters here). -/
def majority_color (slot_colors : List String) : String :=
  match (slot_colors.dedup.filter (fun c => 2 ≤ slot_colors.count c)) with
  | c :: _ => c
  | [] => ""

/-- `_enumerate_combos`: dispatch on the slot-pattern shape. -/
def enumerate_combos (o : Optimizer) (compact_cands : List (List CompactRelic))
    (slot_colors : List String) : List TripleEntry :=
  let has_any := "Any" ∈ slot_colors
  let colors_no_any := slot_colors.filter (fun c => !(c = "Any"))
  let unique_colors := colors_no_any.dedup
  if slot_colors.length = 3 && !has_any && unique_colors.length = 1 then
    enum_all_same o (compact_cands.getD 0 [])
  else if slot_colors.length = 3 && !has_any && unique_colors.length = 3 then
    enum_all_diff o (compact_cands.getD 0 []) (compact_cands.getD 1 [])
      (compact_cands.getD 2 [])
  else if slot_colors.length = 3 && !has_any && unique_colors.length = 2 then
    let same_color := majority_color slot_colors
    let same_idx := (List.range slot_colors.length).filter
      (fun i => slot_colors.getD i "" = same_color)
    let diff_idx := ((List.range slot_colors.length).filter
      (fun i => !(slot_colors.getD i "" = same_color))).getD 0 0
    enum_two_same o (compact_cands.getD (same_idx.getD 0 0) [])
      (compact_cands.getD diff_idx [])
  else
    enum_general o compact_cands

/-- descending-by-score relation on compact combos
(`sort(key=lambda x: x[0], reverse=True)`). -/
def entry_score_ge (a b : TripleEntry) : Prop := b.score ≤ a.score

instance : DecidableRel entry_score_ge :=
  fun a b => inferInstanceAs (Decidable (b.score ≤ a.score))

instance : IsTotal TripleEntry entry_score_ge := ⟨fun a b => le_total b.score a.score⟩

instance : IsTrans TripleEntry entry_score_ge := ⟨fun _ _ _ h1 h2 => le_trans h2 h1⟩

/-- merged six-slot counts vector `n_cts[i] + d_cts[i]`. -/
def merged_counts (o : Optimizer) (n d : TripleEntry) : List Nat :=
  (List.range (n_spec o)).map (fun i => n.counts.getD i 0 + d.counts.getD i 0)

/-- `has_all_required and not has_excl_req` of the Phase-3 inline
scoring. -/
def pair_req_met (o : Optimizer) (n d : TripleEntry) : Bool :=
  ((required_idx_set o).all (fun i => 0 < (merged_counts o n d).getD i 0)) &&
    !(n.has_excl_req || d.has_excl_req)

/-- the Phase-3 merged score: stacking-aware score of the summed counts
plus both concentration sums minus both exclude penalties. -/
def pair_score (o : Optimizer) (n d : TripleEntry) : Int :=
  fast_stacking_score o (merged_counts o n d)
    + (n.conc : Int) + (d.conc : Int) - (n.excl_pen : Int) - (d.excl_pen : Int)

/-- the Phase-3 tiebreaker: include sub-ranks over the merged support
minus both per-occurrence exclude sub-rank sums. -/
def pair_sub_score (o : Optimizer) (n d : TripleEntry) : Int :=
  fast_sub_score o (merged_counts o n d) - (n.excl_sub_sum + d.excl_sub_sum)

/-- strict lexicographic comparison of heap keys
`(-req_met, -score, -sub_score, counter)` (distinct counters make the
order total and tie-free). -/
def hkey_lt (a b : Int × Int × Int × Nat) : Bool :=
  a.1 < b.1 || (a.1 = b.1 && (a.2.1 < b.2.1 || (a.2.1 = b.2.1 &&
    (a.2.2.1 < b.2.2.1 || (a.2.2.1 = b.2.2.1 && a.2.2.2 < b.2.2.2)))))

/-- lexicographic `<=` on the first two key components, for the pruning
comparisons against `(heap[0][0], heap[0][1])`. -/
def lex2_le_b (a b : Int × Int) : Bool :=
  a.1 < b.1 || (a.1 = b.1 && a.2 ≤ b.2)

/-- a heap element: the heapq key plus the payload the source keeps in
the counter-keyed `result_map` (attaching it to the key is observably
identical, since the counter identifies the pair). -/
structure HeapItem where
  key : Int × Int × Int × Nat
  req_met : Bool
  score : Int
  sub_score : Int
  nrm : TripleEntry
  dp : TripleEntry
deriving DecidableEq, Repr

/-- pairing state: the heap kept as a list ascending by key (so the head
is `heap[0]`, the heapq minimum; contents and minimum evolve exactly as
with `heappush`/`heapreplace` because the key order is total and
tie-free) plus the pair counter. -/
structure PState where
  heap : List HeapItem
  counter : Nat
deriving Repr

/-- insertion into the ascending heap list (`heappush`). -/
def heap_insert (x : HeapItem) : List HeapItem → List HeapItem
  | [] => [x]
  | y :: rest => if hkey_lt x.key y.key then x :: y :: rest else y :: heap_insert x rest

/-- one bounded-heap update (`heappush` below capacity, the
`heapreplace`-or-skip comparison at capacity). -/
def heap_step (top_n : Nat) (item : HeapItem) (heap : List HeapItem) : List HeapItem :=
  if heap.length < top_n then heap_insert item heap
  else match heap with
    | h :: rest2 => if hkey_lt item.key h.key then heap_insert item rest2 else heap
    | [] => heap

/-- inner pairing loop over the deep triples, with its pruning break. -/
def inner_loop (o : Optimizer) (top_n : Nat) (bound_req_int : Int)
    (n : TripleEntry) : List TripleEntry → PState → PState
  | [], st => st
  | d :: rest, st =>
    let brk := top_n ≤ st.heap.length &&
      (match st.heap with
       | h :: _ => lex2_le_b (h.key.1, h.key.2.1) (bound_req_int, -(n.score + d.score))
       | [] => false)
    if brk then st
    else
      let req := pair_req_met o n d
      let score := pair_score o n d
      let sub := pair_sub_score o n d
      let hk : Int × Int × Int × Nat :=
        (-(if req then (1 : Int) else 0), -score, -sub, st.counter)
      let item : HeapItem := ⟨hk, req, score, sub, n, d⟩
      inner_loop o top_n bound_req_int n rest ⟨heap_step top_n item st.heap, st.counter + 1⟩

/-- outer pairing loop over the ordinary triples, with its pruning
break against `n_s + best_deep_score`. -/
def outer_loop (o : Optimizer) (top_n : Nat) (bound_req_int : Int)
    (best_deep : Int) (deep_top : List TripleEntry) :
    List TripleEntry → PState → PState
  | [], st => st
  | n :: rest, st =>
    let brk := top_n ≤ st.heap.length &&
      (match st.heap with
       | h :: _ => lex2_le_b (h.key.1, h.key.2.1) (bound_req_int, -(n.score + best_deep))
       | [] => false)
    if brk then st
    else
      outer_loop o top_n bound_req_int best_deep deep_top rest
        (inner_loop o top_n bound_req_int n deep_top st)

/-- the required-coverage feasibility flag `req_met_bound` of Phase 3:
the REQUIRED indices must be reachable from the union of the two top
lists, and each side must offer a triple free of required excludes. -/
def req_met_bound_flag (o : Optimizer) (normal_top deep_top : List TripleEntry) : Bool :=
  ((required_idx_set o).all (fun i =>
      normal_top.any (fun e => 0 < e.counts.getD i 0) ||
      deep_top.any (fun e => 0 < e.counts.getD i 0))) &&
    (normal_top.any (fun e => !e.has_excl_req)) &&
    (deep_top.any (fun e => !e.has_excl_req))

/-- `_relic_by_id` lookup (the Python dict comprehension keeps the last
relic for a duplicated id; the fallback is unreachable for enumerated
ids). -/
def relic_by_id (o : Optimizer) (rid : Nat) : Relic :=
  ((o.all_relics.reverse).find? (fun r => r.id = rid)).getD ⟨0, "", "", []⟩

/-- a combined-mode result entry. -/
structure CResult where
  required_met : Bool
  score : Int
  sub_score : Int
  matched_keys : List Nat
  missing_required : List Nat
  excluded_present : List Nat
  relics : List Relic
  normal_relics : List Relic
  deep_relics : List Relic
deriving DecidableEq, Repr

/-- ranking key of a combined result entry. -/
def cresult_key (r : CResult) : Int × Int × Int :=
  (if r.required_met then (1 : Int) else 0, r.score, r.sub_score)

/-- descending ranking of combined result entries. -/
def cresult_ge (a b : CResult) : Prop := lex3_le (cresult_key b) (cresult_key a)

instance : DecidableRel cresult_ge := fun a b => by
  unfold cresult_ge
  infer_instance

instance : IsTotal CResult cresult_ge := ⟨fun a b => by
  unfold cresult_ge
  exact (lex3_le_total _ _).symm.imp id id⟩

instance : IsTrans CResult cresult_ge := ⟨fun a b c h1 h2 => by
  unfold cresult_ge at h1 h2 ⊢
  exact lex3_le_trans _ _ _ h2 h1⟩

/-- `_combos_to_results_compact`: expand a compact combo list into
single-side result entries. -/
def combos_to_results_compact (o : Optimizer) (combos : List TripleEntry)
    (is_deep_only : Bool) : List CResult :=
  combos.map (fun e =>
    let matched := ((List.range (n_spec o)).filter
        (fun i => 0 < e.counts.getD i 0)).map (fun i => (spec_key_list o).getD i 0)
    let missing := (((required_idx_set o).filter
        (fun i => e.counts.getD i 0 = 0)).map
        (fun i => (spec_key_list o).getD i 0)).insertionSort (· ≤ ·)
    let excl_present := py_nat_set
      ((e.rids.map (fun rid => get_exclude_keys o (relic_by_id o rid))).flatten)
    let relics := e.rids.map (relic_by_id o)
    { required_met := (missing = []) && !e.has_excl_req
      score := e.score
      sub_score := fast_sub_score o e.counts - e.excl_sub_sum
      matched_keys := matched
      missing_required := missing
      excluded_present := excl_present
      relics := relics
      normal_relics := if is_deep_only then [] else relics
      deep_relics := if is_deep_only then relics else [] })

/-- build the full result entry of a surviving heap element (the lazy
reconstruction after the pairing loops). -/
def result_of_pair (o : Optimizer) (h : HeapItem) : CResult :=
  let mc := merged_counts o h.nrm h.dp
  let matched := ((List.range (n_spec o)).filter
      (fun i => 0 < mc.getD i 0)).map (fun i => (spec_key_list o).getD i 0)
  let missing := (((required_idx_set o).filter
      (fun i => mc.getD i 0 = 0)).map
      (fun i => (spec_key_list o).getD i 0)).insertionSort (· ≤ ·)
  let all_rids := h.nrm.rids ++ h.dp.rids
  let n_relics := h.nrm.rids.map (relic_by_id o)
  let d_relics := h.dp.rids.map (relic_by_id o)
  { required_met := h.req_met
    score := h.score
    sub_score := h.sub_score
    matched_keys := matched
    missing_required := missing
    excluded_present := py_nat_set
      ((all_rids.map (fun rid => get_exclude_keys o (relic_by_id o rid))).flatten)
    relics := n_relics ++ d_relics
    normal_relics := n_relics
    deep_relics := d_relics }

/-- `optimize_combined`: candidate building, the two enumeration phases
(the slot-pattern memo cache is pure memoization and is not modelled),
single-side fallbacks, and the heap-pruned cross-pairing phase. -/
def optimize_combined (o : Optimizer) (normal_slot_colors deep_slot_colors : List String)
    (normal_types deep_types : Option (List String)) (cap top_n : Nat) : List CResult :=
  let ntypes := normal_types.getD ["Relic", "UniqueRelic"]
  let dtypes := deep_types.getD ["DeepRelic"]
  let normal_filtered := filter_relics o (some ntypes) none
  let deep_filtered := filter_relics o (some dtypes) none
  let normal_cands := build_slot_candidates o normal_slot_colors normal_filtered cap
  let deep_cands := build_slot_candidates o deep_slot_colors deep_filtered cap
  let normal_combos :=
    if normal_cands.all (fun sc => !(sc = [])) then
      enumerate_combos o (normal_cands.map (List.map (compact_relic o))) normal_slot_colors
    else []
  let deep_combos :=
    if deep_cands.all (fun sc => !(sc = [])) then
      enumerate_combos o (deep_cands.map (List.map (compact_relic o))) deep_slot_colors
    else []
  if normal_combos = [] && deep_combos = [] then []
  else
    let normal_sorted := normal_combos.insertionSort entry_score_ge
    let deep_sorted := deep_combos.insertionSort entry_score_ge
    if normal_sorted = [] then
      combos_to_results_compact o (deep_sorted.take top_n) true
    else if deep_sorted = [] then
      combos_to_results_compact o (normal_sorted.take top_n) false
    else
      let normal_top := normal_sorted.take 500
      let deep_top := deep_sorted.take 500
      let best_deep := match deep_top with
        | e :: _ => e.score
        | [] => 0
      let bri : Int := if req_met_bound_flag o normal_top deep_top then -1 else 0
      let st := outer_loop o top_n bri best_deep deep_top normal_top ⟨[], 0⟩
      (st.heap.map (result_of_pair o)).insertionSort cresult_ge

/-- a parsed JSON value, as produced by `json.load` (numbers abstracted
to integers; the engine never reads fractional config values). -/
inductive Json where
  | null : Json
  | bool : Bool → Json
  | num : Int → Json
  | str : String → Json
  | arr : List Json → Json
  | obj : List (String × Json) → Json

/-- Python `dict.get(k, d)` on a JSON object's member list. -/
def json_get (kvs : List (String × Json)) (k : String) (d : Json) : Json :=
  match List.lookup k kvs with
  | some v => v
  | none => d

/-- Python dict assignment on a JSON object's member list. -/
def json_set (kvs : List (String × Json)) (k : String) (v : Json) :
    List (String × Json) :=
  match kvs with
  | [] => [(k, v)]
  | (k1, v1) :: rest =>
    if k1 = k then (k, v) :: rest else (k1, v1) :: json_set rest k v

/-- is a JSON value one of the three known priority labels
(`eff.get('priority') in PRIORITY_WEIGHTS`)? -/
def known_priority : Json → Bool
  | .str s => s = "required" || s = "preferred" || s = "nice_to_have"
  | _ => false

/-- processing of one entry of the `effects` list in
`load_effects_config`: a non-object entry raises (`AttributeError` on
`.get`), an unhashable priority value raises (`TypeError` on `in`), an
unknown priority label is coerced to `nice_to_have` with a warning
(`true` in the returned pair). -/
def process_effect : Json → Except Unit (Json × Bool)
  | .obj kvs =>
    match json_get kvs "priority" .null with
    | .arr _ => .error ()
    | .obj _ => .error ()
    | p =>
      if known_priority p then .ok (.obj kvs, false)
      else .ok (.obj (json_set kvs "priority" (.str "nice_to_have")), true)
  | _ => .error ()

/-- fold of `process_effect` over the effects list, collecting the
transformed entries and the per-entry warning flags. -/
def process_effects : List Json → Except Unit (List (Json × Bool))
  | [] => .ok []
  | e :: rest =>
    match process_effect e with
    | .error u => .error u
    | .ok r =>
      match process_effects rest with
      | .error u => .error u
      | .ok rs => .ok (r :: rs)

/-- `load_effects_config` on an already-parsed JSON document.  A
non-object document raises (`AttributeError` on `data.get`).  An
`effects` member that is a list is processed entry by entry; the empty
string and the empty object iterate to nothing in Python and are
returned unchanged; any other non-list value raises (`TypeError` on
iteration, or `AttributeError` on the elements for a non-empty string).
The result carries the returned `effects` value and the list of warning
flags. -/
def load_effects_config : Json → Except Unit (Json × List Bool)
  | .obj kvs =>
    match json_get kvs "effects" (.arr []) with
    | .arr items =>
      match process_effects items with
      | .error u => .error u
      | .ok rs => .ok (.arr (rs.map Prod.fst), rs.map Prod.snd)
    | .str "" => .ok (.str "", [])
    | .obj [] => .ok (.obj [], [])
    | _ => .error ()
  | _ => .error ()

/-- per-key combination-score contribution exactly as the specification
words it (for comparison against the source's arrays): STACKABLE
`w × c`; CONDITIONAL `w − floor(0.3 × w) × (c − 1)`; NON_STACKABLE
`w − floor(0.5 × w) × (c − 1)`; nothing for `c = 0`. -/
def formula_contribution (st : Stacking) (w : Nat) (c : Nat) : Int :=
  if c = 0 then 0
  else match st with
    | .stackable => (w : Int) * c
    | .conditional => (w : Int) - ⌊(3 / 10 : ℚ) * w⌋ * ((c : Int) - 1)
    | .nonStackable => (w : Int) - ⌊(1 / 2 : ℚ) * w⌋ * ((c : Int) - 1)

/-- the combination-score formula of the specification over a counts
vector: the sum over include indices of the worded per-key
contribution. -/
def spec_stacking_formula (o : Optimizer) (counts : List Nat) : Int :=
  ((List.range (n_spec o)).map
    (fun i => formula_contribution
      (o.stacking_data ((spec_key_list o).getD i 0))
      (lookup_entry o ((spec_key_list o).getD i 0)).weight
      (counts.getD i 0))).sum

/-- the tiebreaker formula as the claim words it: the sum of include
sub-rank values over the include indices present in the combination,
minus the sum of exclude sub-rank values over the exclude indices
present in the combination (both set-based). -/
def claimed_sub_score (o : Optimizer) (combo : List Relic) : Int :=
  (((spec_key_list o).filter (fun k => k ∈ combo_occ o combo)).map
    (fun k =>
      match spec_key_to_idx o k with
      | some idx => (spec_sub_rank_values o).getD idx 0
      | none => 0)).sum
  - (((excl_key_list o).filter (fun k => k ∈ combo_excl_occ o combo)).map
    (fun k =>
      match excl_key_to_idx o k with
      | some idx => (excl_sub_rank_values o).getD idx 0
      | none => 0)).sum

/-- a one-effect-per-group relic for the concrete examples. -/
def plain_relic (i : Nat) (c t : String) (ks : List Nat) : Relic :=
  ⟨i, c, t, ks.map (fun k => [⟨k, "", ""⟩])⟩

/-- example optimizer for the scorer divergence: a single include key
(1) of priority nice_to_have (weight 1) marked non-stackable. -/
def ex1_opt : Optimizer :=
  ⟨[], [⟨some 1, none, none, .nice_to_have, 0, false⟩], fun _ => .nonStackable⟩

/-- three relics each carrying include key 1 once. -/
def ex1_combo : List Relic :=
  [plain_relic 1 "Red" "Relic" [1], plain_relic 2 "Red" "Relic" [1],
   plain_relic 3 "Red" "Relic" [1]]

/-- example optimizer for the candidate-builder divergence: include
key 1 at weight 1, exclude key 9 at weight 100. -/
def ex3_opt : Optimizer :=
  ⟨[plain_relic 1 "Red" "Relic" [1, 9], plain_relic 2 "Red" "Relic" []],
   [⟨some 1, none, none, .nice_to_have, 0, false⟩,
    ⟨some 9, none, none, .required, 0, true⟩],
   fun _ => .stackable⟩

/-- example optimizer for the tiebreaker divergence: include key 1 and
exclude key 2, both preferred. -/
def ex4_opt : Optimizer :=
  ⟨[plain_relic 1 "Red" "Relic" [1, 2]],
   [⟨some 1, none, none, .preferred, 0, false⟩,
    ⟨some 2, none, none, .preferred, 0, true⟩],
   fun _ => .stackable⟩

/-- example optimizer for the rebinding divergence: two include entries
naming the same key 1, required first, nice_to_have second. -/
def ex5_opt : Optimizer :=
  ⟨[], [⟨some 1, none, none, .required, 0, false⟩,
        ⟨some 1, none, none, .nice_to_have, 0, false⟩],
   fun _ => .stackable⟩

/-- example optimizer for the sub-rank divergence: one required include
entry bound only through a Japanese-name substring to effect key 7, and
one preferred include entry bound through its explicit key 2. -/
def ex8_opt : Optimizer :=
  ⟨[⟨1, "Red", "Relic", [[⟨7, "火力上昇", "Power Up"⟩]]⟩],
   [⟨none, some "火力", none, .required, 0, false⟩,
    ⟨some 2, none, none, .preferred, 0, false⟩],
   fun _ => .stackable⟩

/-- small two-sided inventory shared by the witnesses: two include keys
(1 required, 2 preferred), ordinary and deep relics in two colors. -/
def exw_opt : Optimizer :=
  ⟨[plain_relic 1 "Red" "Relic" [1], plain_relic 2 "Red" "Relic" [2],
    plain_relic 3 "Blue" "Relic" [1, 2], plain_relic 4 "Blue" "Relic" [],
    plain_relic 11 "Red" "DeepRelic" [1], plain_relic 12 "Blue" "DeepRelic" [2],
    plain_relic 13 "Red" "DeepRelic" []],
   [⟨some 1, none, none, .required, 0, false⟩,
    ⟨some 2, none, none, .preferred, 0, false⟩],
   fun _ => .stackable⟩


/-- shape condition under which `load_effects_config` cannot raise on
one entry of the effects list: the entry is an object and its
`priority` member (when present) is not an array or object. -/
def effect_shape_ok : Json → Bool
  | .obj kvs =>
    match json_get kvs "priority" .null with
    | .arr _ => false
    | .obj _ => false
    | _ => true
  | _ => false

/-- the entry transformation performed by `load_effects_config`: an
unknown priority label is replaced by `nice_to_have`, anything else is
returned unchanged. -/
def coerce_effect : Json → Json
  | .obj kvs =>
    if known_priority (json_get kvs "priority" .null) then .obj kvs
    else .obj (json_set kvs "priority" (.str "nice_to_have"))
  | e => e

/-- does processing the entry emit a warning? -/
def warn_flag : Json → Bool
  | .obj kvs => !known_priority (json_get kvs "priority" .null)
  | _ => false


/-- compact pool of the ordinary-side witness relics. -/
def exw_pool_n : List CompactRelic :=
  [compact_relic exw_opt (plain_relic 1 "Red" "Relic" [1]),
   compact_relic exw_opt (plain_relic 2 "Red" "Relic" [2]),
   compact_relic exw_opt (plain_relic 3 "Blue" "Relic" [1, 2])]

/-- compact pool of the deep-side witness relics. -/
def exw_pool_d : List CompactRelic :=
  [compact_relic exw_opt (plain_relic 11 "Red" "DeepRelic" [1]),
   compact_relic exw_opt (plain_relic 12 "Blue" "DeepRelic" [2]),
   compact_relic exw_opt (plain_relic 13 "Red" "DeepRelic" [])]

/-- placeholder compact combo record. -/
def null_entry : TripleEntry := ⟨0, [], 0, 0, false, [], 0⟩

/-- first ordinary triple enumerated from the witness pool. -/
def exw_e1 : TripleEntry :=
  (enumerate_combos exw_opt [exw_pool_n] ["Red", "Red", "Red"]).headD null_entry

/-- first deep triple enumerated from the witness pool. -/
def exw_e2 : TripleEntry :=
  (enumerate_combos exw_opt [exw_pool_d] ["Red", "Red", "Red"]).headD null_entry

/-! Infrastructure lemmas about the embedding's building blocks. -/

theorem foldl_preserve {α β : Type} (P : α → Prop) (step : α → β → α)
    (hstep : ∀ a x, P a → P (step a x)) :
    ∀ (l : List β) (acc : α), P acc → P (l.foldl step acc)
  | [], _, h => h
  | x :: rest, acc, h => foldl_preserve P step hstep rest (step acc x) (hstep acc x h)

theorem mem_of_mem_first_by {α β : Type} [DecidableEq β] (f : α → β) :
    ∀ (l : List α) (seen : List β) (x : α), x ∈ first_by f l seen → x ∈ l := by
  intro l
  induction l with
  | nil => intro seen x h; exact absurd h (List.not_mem_nil x)
  | cons y rest ih =>
    intro seen x h
    simp only [first_by] at h
    by_cases hy : f y ∈ seen
    · rw [if_pos hy] at h
      exact List.mem_cons_of_mem y (ih seen x h)
    · rw [if_neg hy] at h
      rcases List.mem_cons.mp h with h1 | h1
      · exact h1 ▸ List.mem_cons_self x rest
      · exact List.mem_cons_of_mem y (ih _ x h1)

theorem first_by_idem {α β : Type} [DecidableEq β] (f : α → β) :
    ∀ (l : List α) (seen : List β),
      first_by f (first_by f l seen) seen = first_by f l seen := by
  intro l
  induction l with
  | nil => intro seen; rfl
  | cons y rest ih =>
    intro seen
    by_cases hy : f y ∈ seen
    · simp only [first_by, if_pos hy]
      exact ih seen
    · simp only [first_by, if_neg hy]
      congr 1
      exact ih (f y :: seen)

theorem dedup_by_id_idem (combo : List Relic) :
    dedup_by_id (dedup_by_id combo) = dedup_by_id combo := by
  unfold dedup_by_id
  exact first_by_idem (fun r => r.id) combo []

theorem first_by_eq_self {α β : Type} [DecidableEq β] (f : α → β) :
    ∀ (l : List α) (seen : List β), (l.map f).Nodup →
      (∀ x ∈ l, f x ∉ seen) → first_by f l seen = l := by
  intro l
  induction l with
  | nil => intro seen _ _; rfl
  | cons y rest ih =>
    intro seen hnd hseen
    simp only [first_by, if_neg (hseen y (List.mem_cons_self y rest))]
    congr 1
    simp only [List.map_cons, List.nodup_cons] at hnd
    refine ih (f y :: seen) hnd.2 ?_
    intro x hx
    simp only [List.mem_cons]
    push_neg
    exact ⟨fun he => hnd.1 (he ▸ List.mem_map_of_mem f hx),
      hseen x (List.mem_cons_of_mem y hx)⟩

theorem dedup_by_id_eq_self {combo : List Relic}
    (h : (combo.map (fun r => r.id)).Nodup) : dedup_by_id combo = combo := by
  unfold dedup_by_id
  exact first_by_eq_self (fun r => r.id) combo [] h
    (fun _ hx hmem => absurd hmem (List.not_mem_nil _))

theorem find_idx_eq_none {k : Nat} : ∀ {l : List Nat}, find_idx k l = none ↔ k ∉ l := by
  intro l
  induction l with
  | nil => simp [find_idx]
  | cons x rest ih =>
    by_cases hx : x = k
    · simp [find_idx, hx]
    · simp only [find_idx, if_neg hx, List.mem_cons]
      cases hfi : find_idx k rest with
      | some j =>
        simp only [Option.map_some']
        constructor
        · intro h; exact absurd h (by simp)
        · intro h
          exact absurd (hfi ▸ ih.mpr (fun hm => h (Or.inr hm)) : (some j : Option Nat) = none)
            (by simp)
      | none =>
        simp only [Option.map_none']
        have hk : k ∉ rest := ih.mp hfi
        constructor
        · intro _ hor
          rcases hor with h1 | h1
          · exact hx h1.symm
          · exact hk h1
        · intro _; trivial

theorem find_idx_some {k : Nat} :
    ∀ {l : List Nat} {i : Nat}, find_idx k l = some i →
      i < l.length ∧ l.getD i 0 = k := by
  intro l
  induction l with
  | nil => intro i h; exact absurd h (by simp [find_idx])
  | cons x rest ih =>
    intro i h
    by_cases hx : x = k
    · simp only [find_idx, if_pos hx] at h
      cases h
      exact ⟨Nat.succ_pos _, hx⟩
    · simp only [find_idx, if_neg hx] at h
      cases hfi : find_idx k rest with
      | some j =>
        rw [hfi] at h
        simp only [Option.map_some', Option.some.injEq] at h
        rcases ih hfi with ⟨h1, h2⟩
        subst h
        exact ⟨Nat.succ_lt_succ h1, h2⟩
      | none =>
        rw [hfi] at h
        exact absurd h (by simp)

theorem find_idx_isSome {k : Nat} :
    ∀ {l : List Nat}, k ∈ l → (find_idx k l).isSome := by
  intro l
  induction l with
  | nil => intro h; exact absurd h (List.not_mem_nil k)
  | cons x rest ih =>
    intro h
    by_cases hx : x = k
    · simp [find_idx, hx]
    · rcases List.mem_cons.mp h with h1 | h1
      · exact absurd h1.symm hx
      · have h2 := ih h1
        simp only [find_idx, if_neg hx]
        cases hfi : find_idx k rest with
        | some j => simp
        | none =>
          rw [hfi] at h2
          exact absurd h2 (by simp)


theorem find_idx_getD {l : List Nat} (hnd : l.Nodup) :
    ∀ {i : Nat}, i < l.length → find_idx (l.getD i 0) l = some i := by
  induction l with
  | nil => intro i h; exact absurd h (by simp)
  | cons x rest ih =>
    intro i h
    rcases hnd with _ | ⟨hx, hrest⟩
    match i with
    | 0 => simp [find_idx]
    | j + 1 =>
      have hj : j < rest.length := Nat.lt_of_succ_lt_succ h
      have hmem : rest.getD j 0 ∈ rest := by
        rw [List.getD_eq_getElem rest 0 hj]
        exact List.getElem_mem hj
      have hne : ¬(x = rest.getD j 0) := fun he => (hx _ hmem) he
      simp only [List.getD_cons_succ, find_idx, if_neg hne, ih hrest hj, Option.map_some']

theorem getD_map_lt {α β : Type} (f : α → β) {l : List α} {i : Nat}
    (h : i < l.length) (d : β) (d2 : α) :
    (l.map f).getD i d = f (l.getD i d2) := by
  rw [List.getD_eq_getElem (l.map f) d (by simpa using h),
    List.getD_eq_getElem l d2 h, List.getElem_map]

theorem getD_range_lt {n i : Nat} (h : i < n) (d : Nat) :
    (List.range n).getD i d = i := by
  rw [List.getD_eq_getElem _ d (by simpa using h), List.getElem_range]

theorem range_sum_map {α : Type} (l : List α) (d : α) (g : Nat → Int) (G : α → Int)
    (h : ∀ i, i < l.length → g i = G (l.getD i d)) :
    ((List.range l.length).map g).sum = (l.map G).sum := by
  induction l generalizing g with
  | nil => rfl
  | cons x rest ih =>
    have h0 : g 0 = G x := h 0 (Nat.succ_pos _)
    rw [List.length_cons, List.range_succ_eq_map, List.map_cons, List.map_cons,
      List.sum_cons, List.sum_cons, h0, List.map_map]
    congr 1
    refine ih (g ∘ Nat.succ) ?_
    intro i hi
    have := h (i + 1) (Nat.succ_lt_succ hi)
    simp only [List.getD_cons_succ] at this
    rw [Function.comp_apply, this]

theorem floor_03 (w : Nat) : ⌊(3 / 10 : ℚ) * w⌋ = ((3 * w / 10 : ℕ) : ℤ) := by
  have h : (3 / 10 : ℚ) * w = ((3 * w : ℕ) : ℚ) / ((10 : ℕ) : ℚ) := by
    push_cast
    ring
  rw [h, ← Int.natCast_floor_eq_floor (by positivity), Nat.floor_div_eq_div]

theorem floor_05 (w : Nat) : ⌊(1 / 2 : ℚ) * w⌋ = ((w / 2 : ℕ) : ℤ) := by
  have h : (1 / 2 : ℚ) * w = ((w : ℕ) : ℚ) / ((2 : ℕ) : ℚ) := by
    push_cast
    ring
  rw [h, ← Int.natCast_floor_eq_floor (by positivity), Nat.floor_div_eq_div]

theorem mem_py_nat_set {k : Nat} {l : List Nat} : k ∈ py_nat_set l ↔ k ∈ l := by
  unfold py_nat_set
  rw [(List.perm_insertionSort _ _).mem_iff, List.mem_dedup]

theorem sum_filter_zero {α : Type} (l : List α) (p : α → Bool) (f : α → Int)
    (h : ∀ a ∈ l, p a = false → f a = 0) :
    (l.map f).sum = ((l.filter p).map f).sum := by
  induction l with
  | nil => rfl
  | cons x rest ih =>
    have ih2 := ih (fun a ha => h a (List.mem_cons_of_mem x ha))
    cases hp : p x with
    | true =>
      rw [List.filter_cons_of_pos hp, List.map_cons, List.map_cons, List.sum_cons,
        List.sum_cons, ih2]
    | false =>
      rw [List.filter_cons_of_neg (by simp [hp]), List.map_cons, List.sum_cons,
        h x (List.mem_cons_self x rest) hp, ih2, zero_add]

theorem sum_over_same_members {l1 l2 : List Nat} (f : Nat → Int)
    (h1 : l1.Nodup) (h2 : l2.Nodup) (h : ∀ a, a ∈ l1 ↔ a ∈ l2) :
    (l1.map f).sum = (l2.map f).sum :=
  (((List.perm_ext_iff_of_nodup h1 h2).mpr h).map f).sum_eq

theorem fast_stacking_score_eq_formula (o : Optimizer) (counts : List Nat) :
    fast_stacking_score o counts = spec_stacking_formula o counts := by
  unfold fast_stacking_score spec_stacking_formula
  congr 1
  refine List.map_congr_left ?_
  intro i hi
  have hlt : i < n_spec o := List.mem_range.mp hi
  have hw := getD_map_lt (fun k => (lookup_entry o k).weight) hlt 0 0
  have hs := getD_map_lt (fun k => stacking_code (o.stacking_data k)) hlt 0 0
  have hp3 := getD_map_lt (fun k => py_int_03 (lookup_entry o k).weight) hlt 0 0
  have hp5 := getD_map_lt (fun k => py_int_05 (lookup_entry o k).weight) hlt 0 0
  unfold spec_weights spec_stacking_int spec_penalty30 spec_penalty50
  rw [hw, hs, hp3, hp5]
  set k := (spec_key_list o).getD i 0
  set w := (lookup_entry o k).weight
  set c := counts.getD i 0
  unfold fast_contribution formula_contribution
  by_cases hc : c = 0
  · simp [hc]
  · rw [if_neg hc, if_neg hc]
    cases hst : o.stacking_data k with
    | stackable => simp [stacking_code]
    | conditional =>
      simp only [stacking_code, OfNat.ofNat_ne_one, if_false, if_true, if_pos rfl]
      norm_num
      rw [floor_03]
      by_cases h1 : 1 < c
      · rw [if_pos h1]
        unfold py_int_03
        have : ((c : Int) - 1) = ((c - 1 : Nat) : Int) := by omega
        rw [this]
        try push_cast
        try ring
      · rw [if_neg h1]
        have hc1 : c = 1 := by omega
        rw [hc1]
        simp
    | nonStackable =>
      simp only [stacking_code]
      norm_num
      rw [floor_05]
      by_cases h1 : 1 < c
      · rw [if_pos h1]
        unfold py_int_05
        have : ((c : Int) - 1) = ((c - 1 : Nat) : Int) := by omega
        rw [this]
        try push_cast
        try ring
      · rw [if_neg h1]
        have hc1 : c = 1 := by omega
        rw [hc1]
        simp

theorem lookup_entry_eq {o : Optimizer} {k : Nat} {e : LookupEntry}
    (he : List.lookup k (effect_lookup o) = some e) : lookup_entry o k = e := by
  unfold lookup_entry
  rw [he]
  rfl

theorem excl_entry_eq {o : Optimizer} {k : Nat} {e : LookupEntry}
    (he : List.lookup k (exclude_lookup o) = some e) : excl_entry o k = e := by
  unfold excl_entry
  rw [he]
  rfl

theorem fast_eq_slow_contribution (o : Optimizer) (k : Nat) (c : Nat)
    (hc : 0 < c) (h2 : c ≤ 2)
    (hk : (List.lookup k (effect_lookup o)).isSome = true) :
    fast_contribution (lookup_entry o k).weight
      (stacking_code (o.stacking_data k))
      (py_int_03 (lookup_entry o k).weight)
      (py_int_05 (lookup_entry o k).weight) c
      = stacking_contribution o k c := by
  obtain ⟨e, he⟩ := Option.isSome_iff_exists.mp hk
  rw [lookup_entry_eq he]
  unfold stacking_contribution
  rw [he]
  unfold fast_contribution
  rw [if_neg (by omega)]
  have hc12 : c = 1 ∨ c = 2 := by omega
  cases hst : o.stacking_data k with
  | stackable => simp [stacking_code]
  | conditional =>
    simp only [stacking_code]
    norm_num
    rcases hc12 with h | h
    · subst h
      norm_num
    · subst h
      norm_num
      unfold py_int_03 py_trunc_03
      norm_num
  | nonStackable =>
    simp only [stacking_code]
    norm_num
    rcases hc12 with h | h
    · subst h
      norm_num
    · subst h
      norm_num
      unfold py_int_05 py_trunc_05
      norm_num

theorem lookup_cons_ne {β : Type} {k k1 : Nat} (v1 : β) (rest : List (Nat × β))
    (hk : ¬(k = k1)) :
    List.lookup k ((k1, v1) :: rest) = List.lookup k rest := by
  rw [List.lookup_cons, show (k == k1) = false from beq_false_of_ne hk]

theorem lookup_dict_set_self {β : Type} (d : List (Nat × β)) (k : Nat) (v : β) :
    List.lookup k (dict_set d k v) = some v := by
  induction d with
  | nil => simp [dict_set]
  | cons p rest ih =>
    rcases p with ⟨k1, v1⟩
    by_cases hk : k1 = k
    · subst hk
      rw [show dict_set ((k1, v1) :: rest) k1 v = (k1, v) :: rest from by simp [dict_set]]
      exact List.lookup_cons_self
    · simp only [dict_set, if_neg hk]
      rw [lookup_cons_ne v1 _ (fun he => hk he.symm)]
      exact ih

theorem lookup_dict_set_ne {β : Type} (d : List (Nat × β)) {k k1 : Nat} (v : β)
    (hne : ¬(k = k1)) : List.lookup k (dict_set d k1 v) = List.lookup k d := by
  induction d with
  | nil =>
    simp only [dict_set]
    rw [lookup_cons_ne v [] hne]
  | cons p rest ih =>
    rcases p with ⟨k2, v2⟩
    by_cases hk : k2 = k1
    · subst hk
      rw [show dict_set ((k2, v2) :: rest) k2 v = (k2, v) :: rest from by simp [dict_set]]
      rw [lookup_cons_ne v rest hne, lookup_cons_ne v2 rest hne]
    · simp only [dict_set, if_neg hk]
      by_cases h2 : k = k2
      · subst h2
        rw [List.lookup_cons_self, List.lookup_cons_self]
      · rw [lookup_cons_ne v2 _ h2, lookup_cons_ne v2 _ h2]
        exact ih

theorem mem_keys_dict_set {β : Type} (d : List (Nat × β)) (k : Nat) (v : β) (a : Nat) :
    a ∈ (dict_set d k v).map Prod.fst ↔ a ∈ d.map Prod.fst ∨ a = k := by
  induction d with
  | nil => simp [dict_set]
  | cons p rest ih =>
    rcases p with ⟨k1, v1⟩
    by_cases hk : k1 = k
    · subst hk
      rw [show dict_set ((k1, v1) :: rest) k1 v = (k1, v) :: rest from by simp [dict_set]]
      simp only [List.map_cons, List.mem_cons]
      tauto
    · simp only [dict_set, if_neg hk, List.map_cons, List.mem_cons]
      rw [ih]
      tauto

theorem nodup_keys_dict_set {β : Type} (d : List (Nat × β)) (k : Nat) (v : β)
    (h : (d.map Prod.fst).Nodup) : ((dict_set d k v).map Prod.fst).Nodup := by
  induction d with
  | nil => simp [dict_set]
  | cons p rest ih =>
    rcases p with ⟨k1, v1⟩
    simp only [List.map_cons, List.nodup_cons] at h
    by_cases hk : k1 = k
    · subst hk
      rw [show dict_set ((k1, v1) :: rest) k1 v = (k1, v) :: rest from by simp [dict_set]]
      simp only [List.map_cons, List.nodup_cons]
      exact h
    · simp only [dict_set, if_neg hk, List.map_cons, List.nodup_cons]
      refine ⟨?_, ih h.2⟩
      intro hmem
      rcases (mem_keys_dict_set rest k v k1).mp hmem with h1 | h1
      · exact h.1 h1
      · exact hk h1

theorem lookup_isSome_iff {β : Type} (d : List (Nat × β)) (k : Nat) :
    (List.lookup k d).isSome ↔ k ∈ d.map Prod.fst := by
  induction d with
  | nil => simp [List.lookup]
  | cons p rest ih =>
    rcases p with ⟨k1, v1⟩
    simp only [List.map_cons, List.mem_cons]
    by_cases hk : k = k1
    · subst hk
      rw [List.lookup_cons_self]
      simp
    · rw [lookup_cons_ne v1 rest hk, ih]
      constructor
      · exact Or.inr
      · intro h
        rcases h with h | h
        · exact absurd h hk
        · exact h

theorem lookup_eq_some_mem {β : Type} {d : List (Nat × β)} {k : Nat} {v : β}
    (h : List.lookup k d = some v) : (k, v) ∈ d := by
  induction d with
  | nil => exact absurd h (by simp [List.lookup])
  | cons p rest ih =>
    rcases p with ⟨k1, v1⟩
    by_cases hk : k = k1
    · subst hk
      rw [List.lookup_cons_self] at h
      cases h
      exact List.mem_cons_self _ _
    · rw [lookup_cons_ne v1 rest hk] at h
      exact List.mem_cons_of_mem _ (ih h)

theorem mem_lookup_eq_some {β : Type} {d : List (Nat × β)} {k : Nat} {v : β}
    (hnd : (d.map Prod.fst).Nodup) (h : (k, v) ∈ d) : List.lookup k d = some v := by
  induction d with
  | nil => exact absurd h (List.not_mem_nil _)
  | cons p rest ih =>
    rcases p with ⟨k1, v1⟩
    simp only [List.map_cons, List.nodup_cons] at hnd
    rcases List.mem_cons.mp h with h1 | h1
    · cases h1
      exact List.lookup_cons_self
    · have hk : ¬(k = k1) := by
        intro he
        subst he
        exact hnd.1 (List.mem_map_of_mem Prod.fst h1)
      rw [lookup_cons_ne v1 rest hk]
      exact ih hnd.2 h1

theorem nodup_keys_resolve (relics : List Relic) (s : SpecEntry) (w : Nat)
    (tgt : List (Nat × LookupEntry)) (h : (tgt.map Prod.fst).Nodup) :
    ((resolve_name_matches relics s w tgt).map Prod.fst).Nodup := by
  unfold resolve_name_matches
  refine foldl_preserve (fun t => (t.map Prod.fst).Nodup) _ ?_ _ tgt h
  intro t e ht
  by_cases hc : name_matched s e && (List.lookup e.key t).isNone
  · rw [if_pos hc]
    exact nodup_keys_dict_set t e.key _ ht
  · rw [if_neg hc]
    exact ht

theorem nodup_keys_bind_spec (relics : List Relic) (tgt : List (Nat × LookupEntry))
    (s : SpecEntry) (h : (tgt.map Prod.fst).Nodup) :
    ((bind_spec relics tgt s).map Prod.fst).Nodup := by
  unfold bind_spec
  have h1 : (((match s.key with
      | some k => dict_set tgt k ⟨s.priority, priority_weight s.priority⟩
      | none => tgt) : List (Nat × LookupEntry)).map Prod.fst).Nodup := by
    cases s.key with
    | some k => exact nodup_keys_dict_set tgt k _ h
    | none => exact h
  by_cases hc : truthy s.name_ja || truthy s.name_en
  · rw [if_pos hc]
    exact nodup_keys_resolve relics s _ _ h1
  · rw [if_neg hc]
    exact h1

theorem nodup_keys_effect_lookup (o : Optimizer) :
    ((effect_lookup o).map Prod.fst).Nodup := by
  unfold effect_lookup
  exact foldl_preserve (fun t => (t.map Prod.fst).Nodup) (bind_spec o.all_relics)
    (fun a x ha => nodup_keys_bind_spec o.all_relics a x ha) (include_specs o) []
    List.nodup_nil

theorem nodup_keys_exclude_lookup (o : Optimizer) :
    ((exclude_lookup o).map Prod.fst).Nodup := by
  unfold exclude_lookup
  exact foldl_preserve (fun t => (t.map Prod.fst).Nodup) (bind_spec o.all_relics)
    (fun a x ha => nodup_keys_bind_spec o.all_relics a x ha) (exclude_specs o) []
    List.nodup_nil

theorem spec_key_list_perm (o : Optimizer) :
    (spec_key_list o).Perm ((effect_lookup o).map Prod.fst) :=
  List.perm_insertionSort _ _

theorem spec_key_list_nodup (o : Optimizer) : (spec_key_list o).Nodup :=
  ((spec_key_list_perm o).nodup_iff).mpr (nodup_keys_effect_lookup o)

theorem mem_spec_key_list (o : Optimizer) (k : Nat) :
    k ∈ spec_key_list o ↔ (List.lookup k (effect_lookup o)).isSome := by
  rw [(spec_key_list_perm o).mem_iff, lookup_isSome_iff]

theorem excl_key_list_perm (o : Optimizer) :
    (excl_key_list o).Perm ((exclude_lookup o).map Prod.fst) :=
  List.perm_insertionSort _ _

theorem excl_key_list_nodup (o : Optimizer) : (excl_key_list o).Nodup :=
  ((excl_key_list_perm o).nodup_iff).mpr (nodup_keys_exclude_lookup o)

theorem mem_excl_key_list (o : Optimizer) (k : Nat) :
    k ∈ excl_key_list o ↔ (List.lookup k (exclude_lookup o)).isSome := by
  rw [(excl_key_list_perm o).mem_iff, lookup_isSome_iff]

theorem stacking_aware_eq_fast (o : Optimizer) (occ : List Nat)
    (h : ∀ k, occ.count k ≤ 2) :
    stacking_aware_score o occ =
      fast_stacking_score o ((spec_key_list o).map (fun k => occ.count k)) := by
  classical
  set F : Nat → Int := fun k => fast_contribution (lookup_entry o k).weight
    (stacking_code (o.stacking_data k)) (py_int_03 (lookup_entry o k).weight)
    (py_int_05 (lookup_entry o k).weight) (occ.count k) with hF
  set C : Nat → Int := fun k => stacking_contribution o k (occ.count k) with hC
  have hstep1 : fast_stacking_score o ((spec_key_list o).map (fun k => occ.count k)) =
      ((spec_key_list o).map F).sum := by
    unfold fast_stacking_score
    show ((List.range (spec_key_list o).length).map _).sum = _
    refine range_sum_map (spec_key_list o) 0 _ F ?_
    intro i hi
    unfold spec_weights spec_stacking_int spec_penalty30 spec_penalty50
    rw [getD_map_lt (fun k => (lookup_entry o k).weight) hi 0 0,
      getD_map_lt (fun k => stacking_code (o.stacking_data k)) hi 0 0,
      getD_map_lt (fun k => py_int_03 (lookup_entry o k).weight) hi 0 0,
      getD_map_lt (fun k => py_int_05 (lookup_entry o k).weight) hi 0 0,
      getD_map_lt (fun k => occ.count k) hi 0 0]
  have hzF : ∀ k ∈ spec_key_list o, (decide (k ∈ occ)) = false → F k = 0 := by
    intro k _ hfalse
    have hno : ¬(k ∈ occ) := by simpa using hfalse
    have hz : occ.count k = 0 := List.count_eq_zero.mpr hno
    rw [hF]
    simp only [hz]
    unfold fast_contribution
    simp
  have hzC : ∀ k ∈ occ.dedup, (decide (k ∈ spec_key_list o)) = false → C k = 0 := by
    intro k _ hfalse
    have hks : ¬(k ∈ spec_key_list o) := by simpa using hfalse
    have hnone : List.lookup k (effect_lookup o) = none := by
      cases hl : List.lookup k (effect_lookup o) with
      | none => rfl
      | some e => exact absurd ((mem_spec_key_list o k).mpr (by rw [hl]; rfl)) hks
    rw [hC]
    simp only []
    unfold stacking_contribution
    rw [hnone]
  have h3 : ∀ k ∈ (spec_key_list o).filter (fun k => decide (k ∈ occ)), F k = C k := by
    intro k hk
    have hk1 : k ∈ spec_key_list o := (List.mem_filter.mp hk).1
    have hk2 : k ∈ occ := by
      have := (List.mem_filter.mp hk).2
      simpa using this
    exact fast_eq_slow_contribution o k (occ.count k)
      (List.count_pos_iff.mpr hk2) (h k) ((mem_spec_key_list o k).mp hk1)
  have h5 : (((occ.dedup).filter (fun k => decide (k ∈ spec_key_list o))).map C).sum =
      (((spec_key_list o).filter (fun k => decide (k ∈ occ))).map C).sum := by
    refine sum_over_same_members C (((List.nodup_dedup occ)).filter _)
      ((spec_key_list_nodup o).filter _) ?_
    intro a
    rw [List.mem_filter, List.mem_filter, List.mem_dedup]
    constructor
    · intro ha
      exact ⟨by simpa using ha.2, by simpa using ha.1⟩
    · intro ha
      exact ⟨by simpa using ha.2, by simpa using ha.1⟩
  calc stacking_aware_score o occ
      = ((occ.dedup).map C).sum := rfl
    _ = (((occ.dedup).filter (fun k => decide (k ∈ spec_key_list o))).map C).sum :=
        sum_filter_zero _ _ C hzC
    _ = (((spec_key_list o).filter (fun k => decide (k ∈ occ))).map C).sum := h5
    _ = (((spec_key_list o).filter (fun k => decide (k ∈ occ))).map F).sum := by
        congr 1
        exact (List.map_congr_left h3).symm
    _ = ((spec_key_list o).map F).sum := (sum_filter_zero _ _ F hzF).symm
    _ = fast_stacking_score o ((spec_key_list o).map (fun k => occ.count k)) :=
        hstep1.symm

theorem resolve_preserves_bound (relics : List Relic) (s : SpecEntry) (w : Nat) :
    ∀ (es : List Effect) (tgt : List (Nat × LookupEntry)) (k : Nat),
      (List.lookup k tgt).isSome →
      List.lookup k (es.foldl (fun t e =>
        if name_matched s e && (List.lookup e.key t).isNone then
          dict_set t e.key ⟨s.priority, w⟩
        else t) tgt) = List.lookup k tgt := by
  intro es
  induction es with
  | nil => intro tgt k _; rfl
  | cons e rest ih =>
    intro tgt k hk
    rw [List.foldl_cons]
    by_cases hc : name_matched s e && (List.lookup e.key tgt).isNone
    · rw [if_pos hc]
      have hnone : List.lookup e.key tgt = none := by
        have := (Bool.and_eq_true _ _).mp hc
        exact Option.isNone_iff_eq_none.mp this.2
      have hne : ¬(k = e.key) := by
        intro he
        rw [he, hnone] at hk
        exact absurd hk (by simp)
      have hpres : List.lookup k (dict_set tgt e.key ⟨s.priority, w⟩) =
          List.lookup k tgt := lookup_dict_set_ne tgt _ hne
      rw [ih _ k (by rw [hpres]; exact hk), hpres]
    · rw [if_neg hc]
      exact ih tgt k hk

theorem getD_eq_default {α : Type} {l : List α} {n : Nat} (h : l.length ≤ n) (d : α) :
    l.getD n d = d := by
  rw [List.getD_eq_getElem?_getD, List.getElem?_eq_none (by omega)]
  rfl

theorem find_idx_getD_eq_iff {L : List Nat} (hnd : L.Nodup) {k : Nat} (hk : k ∈ L)
    {i : Nat} (hi : i < L.length) :
    (find_idx k L).getD 0 = i ↔ k = L.getD i 0 := by
  constructor
  · intro h
    obtain ⟨j, hj⟩ := Option.isSome_iff_exists.mp (find_idx_isSome hk)
    rw [hj] at h
    simp only [Option.getD_some] at h
    subst h
    exact (find_idx_some hj).2.symm
  · intro h
    subst h
    rw [find_idx_getD hnd hi]
    rfl

theorem count_map_find_idx (L : List Nat) (hnd : L.Nodup) {i : Nat}
    (hi : i < L.length) :
    ∀ (ks : List Nat), (∀ k ∈ ks, k ∈ L) →
      (ks.map (fun k => (find_idx k L).getD 0)).count i = ks.count (L.getD i 0) := by
  intro ks
  induction ks with
  | nil => intro _; rfl
  | cons k rest ih =>
    intro hks
    have hkL : k ∈ L := hks k (List.mem_cons_self k rest)
    rw [List.map_cons, List.count_cons, List.count_cons,
      ih (fun a ha => hks a (List.mem_cons_of_mem k ha))]
    simp only [beq_iff_eq]
    by_cases he : (find_idx k L).getD 0 = i
    · rw [if_pos he, if_pos ((find_idx_getD_eq_iff hnd hkL hi).mp he)]
    · rw [if_neg he, if_neg (fun hc => he ((find_idx_getD_eq_iff hnd hkL hi).mpr hc))]

theorem mem_get_spec_keys_mem_list (o : Optimizer) (r : Relic) :
    ∀ k ∈ get_spec_keys o r, k ∈ spec_key_list o := by
  intro k hk
  rw [mem_spec_key_list]
  exact (List.mem_filter.mp hk).2

theorem mem_get_exclude_keys_mem_list (o : Optimizer) (r : Relic) :
    ∀ k ∈ get_exclude_keys o r, k ∈ excl_key_list o := by
  intro k hk
  rw [mem_excl_key_list]
  exact (List.mem_filter.mp hk).2

theorem counts_of_getD {n : Nat} (ls : List (List Nat)) {i : Nat} (hi : i < n) :
    (counts_of n ls).getD i 0 = ls.flatten.count i := by
  unfold counts_of
  rw [getD_map_lt (fun j => ls.flatten.count j) (by simpa using hi) 0 0,
    getD_range_lt hi]

theorem compact_spec_count (o : Optimizer) (r : Relic) {i : Nat}
    (hi : i < n_spec o) :
    ((compact_relic o r).spec_indices).count i =
      (get_spec_keys o r).count ((spec_key_list o).getD i 0) := by
  unfold compact_relic spec_key_to_idx
  exact count_map_find_idx (spec_key_list o) (spec_key_list_nodup o) hi
    (get_spec_keys o r) (mem_get_spec_keys_mem_list o r)

theorem mk_entry_counts_getD (o : Optimizer) (rs : List Relic) {i : Nat}
    (hi : i < n_spec o) :
    ((mk_entry o (rs.map (compact_relic o))).counts).getD i 0 =
      ((rs.map (fun r => (get_spec_keys o r).count ((spec_key_list o).getD i 0))).sum) := by
  unfold mk_entry
  simp only []
  rw [counts_of_getD _ hi, List.count_flatten, List.map_map, List.map_map]
  congr 1
  refine List.map_congr_left ?_
  intro r _
  exact compact_spec_count o r hi

theorem mk_entry_counts_pos (o : Optimizer) (rs : List Relic) {i : Nat}
    (hi : i < n_spec o) :
    (0 < ((mk_entry o (rs.map (compact_relic o))).counts).getD i 0 ↔
      ∃ r ∈ rs, (spec_key_list o).getD i 0 ∈ get_spec_keys o r) := by
  rw [mk_entry_counts_getD o rs hi]
  constructor
  · intro h
    by_contra hno
    push_neg at hno
    have hz : ∀ x ∈ rs.map (fun r =>
        (get_spec_keys o r).count ((spec_key_list o).getD i 0)), x = 0 := by
      intro x hx
      rcases List.mem_map.mp hx with ⟨r, hr, hxr⟩
      rw [← hxr]
      exact List.count_eq_zero.mpr (hno r hr)
    rw [List.sum_eq_zero hz] at h
    exact absurd h (by omega)
  · intro ⟨r, hr, hk⟩
    have hpos : 0 < (get_spec_keys o r).count ((spec_key_list o).getD i 0) :=
      List.count_pos_iff.mpr hk
    have hmem : (get_spec_keys o r).count ((spec_key_list o).getD i 0) ∈
        rs.map (fun r => (get_spec_keys o r).count ((spec_key_list o).getD i 0)) :=
      List.mem_map_of_mem _ hr
    calc 0 < (get_spec_keys o r).count ((spec_key_list o).getD i 0) := hpos
      _ ≤ _ := List.single_le_sum (fun x _ => Nat.zero_le x) _ hmem

theorem excl_weight_getD (o : Optimizer) {k : Nat} (hk : k ∈ excl_key_list o) :
    (excl_weights o).getD ((find_idx k (excl_key_list o)).getD 0) 0 =
      (excl_entry o k).weight := by
  obtain ⟨j, hj⟩ := Option.isSome_iff_exists.mp (find_idx_isSome hk)
  rcases find_idx_some hj with ⟨hjl, hjk⟩
  rw [hj]
  simp only [Option.getD_some]
  unfold excl_weights
  rw [getD_map_lt (fun k => (excl_entry o k).weight) hjl 0 0, hjk]

theorem excl_req_getD (o : Optimizer) {k : Nat} (hk : k ∈ excl_key_list o) :
    (excl_is_required o).getD ((find_idx k (excl_key_list o)).getD 0) false =
      decide ((excl_entry o k).priority = Priority.required) := by
  obtain ⟨j, hj⟩ := Option.isSome_iff_exists.mp (find_idx_isSome hk)
  rcases find_idx_some hj with ⟨hjl, hjk⟩
  rw [hj]
  simp only [Option.getD_some]
  unfold excl_is_required
  rw [getD_map_lt (fun k => decide ((excl_entry o k).priority = Priority.required))
    hjl false 0, hjk]

theorem compact_has_excl_req (o : Optimizer) (r : Relic) :
    (compact_relic o r).has_excl_req = true ↔
      ∃ k ∈ get_exclude_keys o r, (excl_entry o k).priority = Priority.required := by
  unfold compact_relic
  simp only [List.any_map, List.any_eq_true]
  constructor
  · intro ⟨k, hk, hreq⟩
    refine ⟨k, hk, ?_⟩
    have := excl_req_getD o (mem_get_exclude_keys_mem_list o r k hk)
    unfold excl_key_to_idx at hreq
    rw [Function.comp_apply] at hreq
    rw [this] at hreq
    exact of_decide_eq_true hreq
  · intro ⟨k, hk, hreq⟩
    refine ⟨k, hk, ?_⟩
    have := excl_req_getD o (mem_get_exclude_keys_mem_list o r k hk)
    unfold excl_key_to_idx
    rw [Function.comp_apply, this]
    exact decide_eq_true hreq

theorem compact_excl_penalty (o : Optimizer) (r : Relic) :
    (compact_relic o r).excl_penalty =
      ((get_exclude_keys o r).map (fun k => (excl_entry o k).weight)).sum := by
  unfold compact_relic
  simp only [List.map_map]
  congr 1
  refine List.map_congr_left ?_
  intro k hk
  rw [Function.comp_apply]
  unfold excl_key_to_idx
  exact excl_weight_getD o (mem_get_exclude_keys_mem_list o r k hk)

theorem compact_excl_sub_rank (o : Optimizer) (r : Relic) :
    (compact_relic o r).excl_sub_rank =
      ((get_exclude_keys o r).map (fun k =>
        (excl_sub_rank_values o).getD ((excl_key_to_idx o k).getD 0) 0)).sum := by
  unfold compact_relic
  simp only [List.map_map]
  rfl

theorem sum_ite_filter {α : Type} (l : List α) (p : α → Bool) (f : α → Int) :
    (l.map (fun a => if p a then f a else 0)).sum = ((l.filter p).map f).sum := by
  induction l with
  | nil => rfl
  | cons x rest ih =>
    cases hp : p x with
    | true =>
      rw [List.map_cons, List.sum_cons, List.filter_cons_of_pos hp, List.map_cons,
        List.sum_cons, if_pos (by simpa using hp), ih]
    | false =>
      rw [List.map_cons, List.sum_cons, List.filter_cons_of_neg (by simp [hp]),
        if_neg (by simp [hp]), ih, zero_add]

theorem sub_rank_of_key (o : Optimizer) {i : Nat} (hi : i < n_spec o) :
    (match spec_key_to_idx o ((spec_key_list o).getD i 0) with
      | some idx => (spec_sub_rank_values o).getD idx 0
      | none => 0) = (spec_sub_rank_values o).getD i 0 := by
  unfold spec_key_to_idx
  rw [find_idx_getD (spec_key_list_nodup o) hi]

theorem score_combination_sub_eq (o : Optimizer) (combo : List Relic) :
    (score_combination o combo).sub_score =
      (((spec_key_list o).filter (fun k => k ∈ combo_occ o combo)).map
        (fun k =>
          match spec_key_to_idx o k with
          | some idx => (spec_sub_rank_values o).getD idx 0
          | none => 0)).sum := by
  classical
  set g : Nat → Int := fun k =>
    match spec_key_to_idx o k with
    | some idx => (spec_sub_rank_values o).getD idx 0
    | none => 0 with hg
  set occ := combo_occ o combo with hocc
  have hz : ∀ k ∈ occ.dedup, (decide (k ∈ spec_key_list o)) = false → g k = 0 := by
    intro k _ hfalse
    have hks : ¬(k ∈ spec_key_list o) := by simpa using hfalse
    rw [hg]
    simp only []
    unfold spec_key_to_idx
    rw [find_idx_eq_none.mpr hks]
  have hperm : (((occ.dedup).filter (fun k => decide (k ∈ spec_key_list o))).map g).sum =
      (((spec_key_list o).filter (fun k => decide (k ∈ occ))).map g).sum := by
    refine sum_over_same_members g ((List.nodup_dedup occ).filter _)
      ((spec_key_list_nodup o).filter _) ?_
    intro a
    rw [List.mem_filter, List.mem_filter, List.mem_dedup]
    constructor
    · intro ha
      exact ⟨by simpa using ha.2, by simpa using ha.1⟩
    · intro ha
      exact ⟨by simpa using ha.2, by simpa using ha.1⟩
  calc (score_combination o combo).sub_score
      = ((occ.dedup).map g).sum := rfl
    _ = (((occ.dedup).filter (fun k => decide (k ∈ spec_key_list o))).map g).sum :=
        sum_filter_zero _ _ g hz
    _ = (((spec_key_list o).filter (fun k => decide (k ∈ occ))).map g).sum := hperm

theorem fast_sub_score_mk_entry (o : Optimizer) (rs : List Relic) :
    fast_sub_score o (mk_entry o (rs.map (compact_relic o))).counts =
      (((spec_key_list o).filter
        (fun k => k ∈ (rs.map (get_spec_keys o)).flatten)).map
        (fun k =>
          match spec_key_to_idx o k with
          | some idx => (spec_sub_rank_values o).getD idx 0
          | none => 0)).sum := by
  classical
  set g : Nat → Int := fun k =>
    match spec_key_to_idx o k with
    | some idx => (spec_sub_rank_values o).getD idx 0
    | none => 0 with hg
  set occ := (rs.map (get_spec_keys o)).flatten with hocc
  have hstep : fast_sub_score o (mk_entry o (rs.map (compact_relic o))).counts =
      ((spec_key_list o).map (fun k => if decide (k ∈ occ) then g k else 0)).sum := by
    unfold fast_sub_score
    show ((List.range (spec_key_list o).length).map _).sum = _
    refine range_sum_map (spec_key_list o) 0 _ _ ?_
    intro i hi
    have hpos := mk_entry_counts_pos o rs hi
    have hkey := sub_rank_of_key o hi
    by_cases hp : 0 < ((mk_entry o (rs.map (compact_relic o))).counts).getD i 0
    · rw [if_pos hp]
      have hmem : (spec_key_list o).getD i 0 ∈ occ := by
        rw [hocc, List.mem_flatten]
        obtain ⟨r, hr, hk⟩ := hpos.mp hp
        exact ⟨get_spec_keys o r, List.mem_map_of_mem _ hr, hk⟩
      rw [if_pos (by simpa using hmem), hg]
      exact hkey.symm
    · rw [if_neg hp]
      have hno : ¬((spec_key_list o).getD i 0 ∈ occ) := by
        intro hmem
        rw [hocc, List.mem_flatten] at hmem
        obtain ⟨l, hl, hk⟩ := hmem
        obtain ⟨r, hr, hlr⟩ := List.mem_map.mp hl
        exact hp (hpos.mpr ⟨r, hr, hlr ▸ hk⟩)
      rw [if_neg (by simpa using hno)]
  rw [hstep]
  exact sum_ite_filter (spec_key_list o) (fun k => decide (k ∈ occ)) g

theorem mk_entry_excl_sub_sum (o : Optimizer) (rs : List Relic) :
    (mk_entry o (rs.map (compact_relic o))).excl_sub_sum =
      ((rs.map (fun r => ((get_exclude_keys o r).map (fun k =>
        (excl_sub_rank_values o).getD ((excl_key_to_idx o k).getD 0) 0)).sum)).sum) := by
  unfold mk_entry
  simp only [List.map_map]
  congr 1
  refine List.map_congr_left ?_
  intro r _
  rw [Function.comp_apply]
  exact compact_excl_sub_rank o r

theorem merged_counts_eq_append (o : Optimizer) (rs1 rs2 : List Relic) {i : Nat}
    (hi : i < n_spec o) :
    (merged_counts o (mk_entry o (rs1.map (compact_relic o)))
        (mk_entry o (rs2.map (compact_relic o)))).getD i 0 =
      ((mk_entry o ((rs1 ++ rs2).map (compact_relic o))).counts).getD i 0 := by
  unfold merged_counts
  rw [getD_map_lt (fun i =>
      ((mk_entry o (rs1.map (compact_relic o))).counts).getD i 0 +
      ((mk_entry o (rs2.map (compact_relic o))).counts).getD i 0)
    (by simpa using hi) 0 0, getD_range_lt hi]
  rw [mk_entry_counts_getD o rs1 hi, mk_entry_counts_getD o rs2 hi,
    mk_entry_counts_getD o (rs1 ++ rs2) hi, List.map_append, List.sum_append]

theorem fast_sub_score_congr (o : Optimizer) (c1 c2 : List Nat)
    (h : ∀ i, i < n_spec o → c1.getD i 0 = c2.getD i 0) :
    fast_sub_score o c1 = fast_sub_score o c2 := by
  unfold fast_sub_score
  congr 1
  refine List.map_congr_left ?_
  intro i hi
  rw [h i (List.mem_range.mp hi)]

theorem must0_eq_carriers (o : Optimizer) (filtered : List Relic) (c : String)
    (hnd : (filtered.map (fun r => r.id)).Nodup) :
    (slot_pool filtered c).filter (fun r => r.id ∈ wanted_ids o filtered) =
      (slot_pool filtered c).filter (fun r => !(get_spec_keys o r = [])) := by
  refine List.filter_congr ?_
  intro r hr
  have hrf : r ∈ filtered := by
    unfold slot_pool at hr
    by_cases hc : c = "Any"
    · rw [if_pos hc] at hr
      exact hr
    · rw [if_neg hc] at hr
      exact (List.mem_filter.mp hr).1
  have hiff : r.id ∈ wanted_ids o filtered ↔ ¬(get_spec_keys o r = []) := by
    unfold wanted_ids
    constructor
    · intro h
      obtain ⟨x, hx, hxid⟩ := List.mem_map.mp h
      have hxf : x ∈ filtered := (List.mem_filter.mp hx).1
      have hxr : x = r := List.inj_on_of_nodup_map hnd hxf hrf hxid
      have := (List.mem_filter.mp hx).2
      rw [hxr] at this
      simpa using this
    · intro h
      exact List.mem_map_of_mem _ (List.mem_filter.mpr ⟨hrf, by simpa using h⟩)
  by_cases hcar : get_spec_keys o r = []
  · have hno : ¬(r.id ∈ wanted_ids o filtered) := fun h => (hiff.mp h) hcar
    simp [hcar, hno]
  · simp [hcar, hiff.mpr hcar]

theorem sorted_desc_take_drop (o : Optimizer) (l : List Relic) (n : Nat)
    {r x : Relic} (hr : r ∈ (sort_desc_by_score o l).drop n)
    (hx : x ∈ (sort_desc_by_score o l).take n) :
    score_relic o r ≤ score_relic o x := by
  have hsorted : List.Pairwise (score_ge o) (sort_desc_by_score o l) :=
    List.sorted_insertionSort (score_ge o) l
  rw [← List.take_append_drop n (sort_desc_by_score o l)] at hsorted
  exact (List.pairwise_append.mp hsorted).2.2 x hx r hr

theorem build_one_slot_keeps_carrier (o : Optimizer) (filtered : List Relic)
    (cap : Nat) (c : String) (r : Relic)
    (hnd : (filtered.map (fun x => x.id)).Nodup)
    (hr : r ∈ slot_pool filtered c) (hcar : ¬(get_spec_keys o r = []))
    (hcap : ((slot_pool filtered c).filter
      (fun x => !(get_spec_keys o x = []))).length ≤ cap) :
    r ∈ build_one_slot o filtered cap c := by
  simp only [build_one_slot]
  rw [must0_eq_carriers o filtered c hnd]
  set must0 := (slot_pool filtered c).filter (fun x => !(get_spec_keys o x = []))
    with hm0
  have hrm : r ∈ must0 := List.mem_filter.mpr ⟨hr, by simpa using hcar⟩
  rw [if_neg (by omega)]
  refine (List.perm_insertionSort (score_ge o) _).mem_iff.mpr ?_
  exact List.mem_append.mpr (Or.inl hrm)

theorem build_one_slot_dropped_le (o : Optimizer) (filtered : List Relic)
    (cap : Nat) (c : String) (r : Relic)
    (hnd : (filtered.map (fun x => x.id)).Nodup)
    (hr : r ∈ slot_pool filtered c) (hcar : ¬(get_spec_keys o r = []))
    (hdrop : r ∉ build_one_slot o filtered cap c) :
    ∀ x ∈ build_one_slot o filtered cap c, score_relic o r ≤ score_relic o x := by
  intro x hx
  by_cases hcap : ((slot_pool filtered c).filter
      (fun y => !(get_spec_keys o y = []))).length ≤ cap
  · exact absurd (build_one_slot_keeps_carrier o filtered cap c r hnd hr hcar hcap)
      hdrop
  push_neg at hcap
  simp only [build_one_slot] at hx hdrop
  rw [must0_eq_carriers o filtered c hnd] at hx hdrop
  set must0 := (slot_pool filtered c).filter (fun y => !(get_spec_keys o y = []))
    with hm0
  rw [if_pos (by omega)] at hx hdrop
  have hlen : ((sort_desc_by_score o must0).take cap).length = cap := by
    rw [List.length_take]
    have : must0.length = (sort_desc_by_score o must0).length :=
      ((List.perm_insertionSort (score_ge o) must0).length_eq).symm
    omega
  have hrem : cap - ((sort_desc_by_score o must0).take cap).length = 0 := by omega
  rw [hrem] at hx hdrop
  simp only [List.take_zero, List.append_nil] at hx hdrop
  have hx2 : x ∈ (sort_desc_by_score o must0).take cap :=
    (List.perm_insertionSort (score_ge o) _).mem_iff.mp hx
  have hrs : r ∈ sort_desc_by_score o must0 :=
    (List.perm_insertionSort (score_ge o) must0).mem_iff.mpr
      (List.mem_filter.mpr ⟨hr, by simpa using hcar⟩)
  have hrd : r ∈ (sort_desc_by_score o must0).drop cap := by
    rw [← List.take_append_drop cap (sort_desc_by_score o must0)] at hrs
    rcases List.mem_append.mp hrs with h | h
    · exact absurd ((List.perm_insertionSort (score_ge o) _).mem_iff.mpr h) hdrop
    · exact h
  exact sorted_desc_take_drop o must0 cap hrd hx2

theorem process_effect_ok {e : Json} (h : effect_shape_ok e = true) :
    process_effect e = .ok (coerce_effect e, warn_flag e) := by
  cases e with
  | obj kvs =>
    cases hp : json_get kvs "priority" Json.null with
    | arr l => simp [effect_shape_ok, hp] at h
    | obj l => simp [effect_shape_ok, hp] at h
    | null => simp [process_effect, coerce_effect, warn_flag, hp, known_priority]
    | bool b => simp [process_effect, coerce_effect, warn_flag, hp, known_priority]
    | num n => simp [process_effect, coerce_effect, warn_flag, hp, known_priority]
    | str v =>
      by_cases hk : known_priority (Json.str v)
      · simp [process_effect, coerce_effect, warn_flag, hp, hk]
      · simp [process_effect, coerce_effect, warn_flag, hp, hk]
  | null => simp [effect_shape_ok] at h
  | bool b => simp [effect_shape_ok] at h
  | num n => simp [effect_shape_ok] at h
  | str v => simp [effect_shape_ok] at h
  | arr l => simp [effect_shape_ok] at h

theorem process_effects_ok {items : List Json}
    (h : ∀ e ∈ items, effect_shape_ok e = true) :
    process_effects items = .ok (items.map (fun e => (coerce_effect e, warn_flag e))) := by
  induction items with
  | nil => rfl
  | cons e rest ih =>
    unfold process_effects
    rw [process_effect_ok (h e (List.mem_cons_self e rest)),
      ih (fun x hx => h x (List.mem_cons_of_mem e hx))]
    rfl

theorem mem_required_include_keys (o : Optimizer) (k : Nat) :
    k ∈ required_include_keys o ↔
      ∃ e, List.lookup k (effect_lookup o) = some e ∧
        e.priority = Priority.required := by
  unfold required_include_keys
  constructor
  · intro h
    obtain ⟨kv, hkv, hfst⟩ := List.mem_map.mp h
    rcases kv with ⟨k1, e⟩
    cases hfst
    have hmem : (k1, e) ∈ effect_lookup o := (List.mem_filter.mp hkv).1
    have hreq := (List.mem_filter.mp hkv).2
    exact ⟨e, mem_lookup_eq_some (nodup_keys_effect_lookup o) hmem,
      of_decide_eq_true hreq⟩
  · intro ⟨e, he, hreq⟩
    refine List.mem_map_of_mem Prod.fst (List.mem_filter.mpr
      ⟨lookup_eq_some_mem he, decide_eq_true hreq⟩)

theorem sorted_eq_nil_iff {l : List Nat} : l.insertionSort (· ≤ ·) = [] ↔ l = [] := by
  constructor
  · intro h
    have := (List.perm_insertionSort (· ≤ ·) l).length_eq
    rw [h] at this
    exact List.length_eq_zero.mp this.symm
  · intro h
    rw [h]
    rfl

theorem mem_combo_occ (o : Optimizer) (combo : List Relic)
    (hnd : (combo.map (fun r => r.id)).Nodup) (k : Nat) :
    k ∈ combo_occ o combo ↔ ∃ r ∈ combo, k ∈ get_spec_keys o r := by
  unfold combo_occ
  rw [dedup_by_id_eq_self hnd, List.mem_flatten]
  constructor
  · intro ⟨l, hl, hk⟩
    obtain ⟨r, hr, hlr⟩ := List.mem_map.mp hl
    exact ⟨r, hr, hlr ▸ hk⟩
  · intro ⟨r, hr, hk⟩
    exact ⟨get_spec_keys o r, List.mem_map_of_mem _ hr, hk⟩

theorem mem_combo_excl_occ (o : Optimizer) (combo : List Relic)
    (hnd : (combo.map (fun r => r.id)).Nodup) (k : Nat) :
    k ∈ combo_excl_occ o combo ↔ ∃ r ∈ combo, k ∈ get_exclude_keys o r := by
  unfold combo_excl_occ
  rw [dedup_by_id_eq_self hnd, List.mem_flatten]
  constructor
  · intro ⟨l, hl, hk⟩
    obtain ⟨r, hr, hlr⟩ := List.mem_map.mp hl
    exact ⟨r, hr, hlr ▸ hk⟩
  · intro ⟨r, hr, hk⟩
    exact ⟨get_exclude_keys o r, List.mem_map_of_mem _ hr, hk⟩

theorem mem_get_spec_keys_iff (o : Optimizer) (r : Relic) (k : Nat) :
    k ∈ get_spec_keys o r ↔
      k ∈ relic_keys r ∧ (List.lookup k (effect_lookup o)).isSome := by
  unfold get_spec_keys
  rw [List.mem_filter]

theorem mem_get_exclude_keys_iff (o : Optimizer) (r : Relic) (k : Nat) :
    k ∈ get_exclude_keys o r ↔
      k ∈ relic_keys r ∧ (List.lookup k (exclude_lookup o)).isSome := by
  unfold get_exclude_keys
  rw [List.mem_filter]

theorem has_exclude_required_iff (o : Optimizer) (combo : List Relic)
    (hnd : (combo.map (fun r => r.id)).Nodup) :
    ((combo_excl_occ o combo).any
        (fun k => (excl_entry o k).priority = Priority.required)) = true ↔
      ∃ r ∈ combo, ∃ k ∈ relic_keys r, ∃ e,
        List.lookup k (exclude_lookup o) = some e ∧
        e.priority = Priority.required := by
  rw [List.any_eq_true]
  constructor
  · intro ⟨k, hk, hreq⟩
    obtain ⟨r, hr, hkr⟩ := (mem_combo_excl_occ o combo hnd k).mp hk
    rcases (mem_get_exclude_keys_iff o r k).mp hkr with ⟨hrel, hsome⟩
    obtain ⟨e, he⟩ := Option.isSome_iff_exists.mp hsome
    refine ⟨r, hr, k, hrel, e, he, ?_⟩
    have : excl_entry o k = e := excl_entry_eq he
    rw [← this]
    exact of_decide_eq_true hreq
  · intro ⟨r, hr, k, hrel, e, he, hreq⟩
    refine ⟨k, (mem_combo_excl_occ o combo hnd k).mpr
      ⟨r, hr, (mem_get_exclude_keys_iff o r k).mpr ⟨hrel, by rw [he]; rfl⟩⟩, ?_⟩
    rw [excl_entry_eq he]
    exact decide_eq_true hreq

theorem score_combination_required_met (o : Optimizer) (combo : List Relic)
    (hnd : (combo.map (fun r => r.id)).Nodup) :
    (score_combination o combo).required_met = true ↔
      ((∀ k e, List.lookup k (effect_lookup o) = some e →
          e.priority = Priority.required → ∃ r ∈ combo, k ∈ relic_keys r) ∧
        ¬(∃ r ∈ combo, ∃ k ∈ relic_keys r, ∃ e,
          List.lookup k (exclude_lookup o) = some e ∧
          e.priority = Priority.required)) := by
  show ((_ = ([] : List Nat)) && !_) = true ↔ _
  rw [Bool.and_eq_true, decide_eq_true_iff, Bool.not_eq_true']
  constructor
  · intro ⟨hmiss, hexcl⟩
    constructor
    · intro k e he hreq
      have hkreq : k ∈ required_include_keys o :=
        (mem_required_include_keys o k).mpr ⟨e, he, hreq⟩
      have hfil := sorted_eq_nil_iff.mp hmiss
      have hmem : k ∈ py_nat_set (combo_occ o combo) := by
        by_contra hno
        have : k ∈ (required_include_keys o).filter
            (fun k => !(k ∈ py_nat_set (combo_occ o combo))) :=
          List.mem_filter.mpr ⟨hkreq, by simpa using hno⟩
        rw [hfil] at this
        exact absurd this (List.not_mem_nil k)
      obtain ⟨r, hr, hkr⟩ := (mem_combo_occ o combo hnd k).mp
        (mem_py_nat_set.mp hmem)
      exact ⟨r, hr, ((mem_get_spec_keys_iff o r k).mp hkr).1⟩
    · intro hex
      rw [(has_exclude_required_iff o combo hnd).mpr hex] at hexcl
      exact absurd hexcl (by simp)
  · intro ⟨hcov, hexcl⟩
    constructor
    · rw [sorted_eq_nil_iff]
      rw [List.filter_eq_nil]
      intro k hk
      obtain ⟨e, he, hreq⟩ := (mem_required_include_keys o k).mp hk
      obtain ⟨r, hr, hkr⟩ := hcov k e he hreq
      have hmem : k ∈ py_nat_set (combo_occ o combo) :=
        mem_py_nat_set.mpr ((mem_combo_occ o combo hnd k).mpr
          ⟨r, hr, (mem_get_spec_keys_iff o r k).mpr ⟨hkr, by rw [he]; rfl⟩⟩)
      simp [hmem]
    · cases hany : ((combo_excl_occ o combo).any
          (fun k => decide ((excl_entry o k).priority = Priority.required))) with
      | false => rfl
      | true =>
        exact absurd ((has_exclude_required_iff o combo hnd).mp hany) hexcl

theorem getD_mem {l : List Nat} {i : Nat} (h : i < l.length) : l.getD i 0 ∈ l := by
  rw [List.getD_eq_getElem l 0 h]
  exact List.getElem_mem h

theorem mem_required_idx_set (o : Optimizer) (i : Nat) :
    i ∈ required_idx_set o ↔ i < n_spec o ∧
      (lookup_entry o ((spec_key_list o).getD i 0)).priority = Priority.required := by
  unfold required_idx_set
  rw [List.mem_filter, List.mem_range]
  have hlen : n_spec o = (spec_key_list o).length := rfl
  constructor
  · intro ⟨h1, h2⟩
    refine ⟨h1, ?_⟩
    unfold is_required_arr at h2
    rw [getD_map_lt (fun k => decide ((lookup_entry o k).priority = Priority.required))
      (hlen ▸ h1) false 0] at h2
    exact of_decide_eq_true h2
  · intro ⟨h1, h2⟩
    refine ⟨h1, ?_⟩
    unfold is_required_arr
    rw [getD_map_lt (fun k => decide ((lookup_entry o k).priority = Priority.required))
      (hlen ▸ h1) false 0]
    exact decide_eq_true h2

theorem mk_has_excl_req_iff (o : Optimizer) (rs : List Relic) :
    (mk_entry o (rs.map (compact_relic o))).has_excl_req = true ↔
      ∃ r ∈ rs, ∃ k ∈ relic_keys r, ∃ e,
        List.lookup k (exclude_lookup o) = some e ∧
        e.priority = Priority.required := by
  unfold mk_entry
  simp only [List.any_eq_true]
  constructor
  · intro ⟨c, hc, hher⟩
    obtain ⟨r, hr, hcr⟩ := List.mem_map.mp hc
    rw [← hcr] at hher
    obtain ⟨k, hk, hreq⟩ := (compact_has_excl_req o r).mp hher
    rcases (mem_get_exclude_keys_iff o r k).mp hk with ⟨hrel, hsome⟩
    obtain ⟨e, he⟩ := Option.isSome_iff_exists.mp hsome
    exact ⟨r, hr, k, hrel, e, he, by rw [← excl_entry_eq he]; exact hreq⟩
  · intro ⟨r, hr, k, hrel, e, he, hreq⟩
    refine ⟨compact_relic o r, List.mem_map_of_mem _ hr, ?_⟩
    refine (compact_has_excl_req o r).mpr ⟨k, ?_, ?_⟩
    · exact (mem_get_exclude_keys_iff o r k).mpr ⟨hrel, by rw [he]; rfl⟩
    · rw [excl_entry_eq he]
      exact hreq

theorem pair_req_met_iff (o : Optimizer) (rs1 rs2 : List Relic) :
    pair_req_met o (mk_entry o (rs1.map (compact_relic o)))
        (mk_entry o (rs2.map (compact_relic o))) = true ↔
      ((∀ k e, List.lookup k (effect_lookup o) = some e →
          e.priority = Priority.required → ∃ r ∈ rs1 ++ rs2, k ∈ relic_keys r) ∧
        ¬(∃ r ∈ rs1 ++ rs2, ∃ k ∈ relic_keys r, ∃ e,
          List.lookup k (exclude_lookup o) = some e ∧
          e.priority = Priority.required)) := by
  unfold pair_req_met
  rw [Bool.and_eq_true, Bool.not_eq_true', List.all_eq_true]
  have hlen : n_spec o = (spec_key_list o).length := rfl
  constructor
  · intro ⟨hall, hher⟩
    constructor
    · intro k e he hreq
      have hks : k ∈ spec_key_list o :=
        (mem_spec_key_list o k).mpr (by rw [he]; rfl)
      obtain ⟨j, hj⟩ := Option.isSome_iff_exists.mp (find_idx_isSome hks)
      rcases find_idx_some hj with ⟨hjl, hjk⟩
      have hjset : j ∈ required_idx_set o := by
        rw [mem_required_idx_set]
        exact ⟨hlen ▸ hjl, by rw [hjk, lookup_entry_eq he]; exact hreq⟩
      have hpos := hall j hjset
      rw [decide_eq_true_iff] at hpos
      rw [merged_counts_eq_append o rs1 rs2 (hlen ▸ hjl)] at hpos
      obtain ⟨r, hr, hkr⟩ := (mk_entry_counts_pos o (rs1 ++ rs2) (hlen ▸ hjl)).mp hpos
      rw [hjk] at hkr
      exact ⟨r, hr, ((mem_get_spec_keys_iff o r k).mp hkr).1⟩
    · intro hex
      simp only [List.mem_append] at hex
      obtain ⟨r, hr, k, hrel, e, he, hreq⟩ := hex
      rcases hr with hr | hr
      · have : (mk_entry o (rs1.map (compact_relic o))).has_excl_req = true :=
          (mk_has_excl_req_iff o rs1).mpr ⟨r, hr, k, hrel, e, he, hreq⟩
        rw [this] at hher
        exact absurd hher (by simp)
      · have : (mk_entry o (rs2.map (compact_relic o))).has_excl_req = true :=
          (mk_has_excl_req_iff o rs2).mpr ⟨r, hr, k, hrel, e, he, hreq⟩
        rw [this] at hher
        exact absurd hher (by simp)
  · intro ⟨hcov, hexcl⟩
    constructor
    · intro i hi
      rcases (mem_required_idx_set o i).mp hi with ⟨hin, hpri⟩
      have hks : (spec_key_list o).getD i 0 ∈ spec_key_list o :=
        getD_mem (hlen ▸ hin)
      obtain ⟨e, he⟩ := Option.isSome_iff_exists.mp
        ((mem_spec_key_list o _).mp hks)
      have hreq : e.priority = Priority.required := by
        rw [← lookup_entry_eq he]
        exact hpri
      obtain ⟨r, hr, hkr⟩ := hcov _ e he hreq
      rw [decide_eq_true_iff, merged_counts_eq_append o rs1 rs2 hin]
      exact (mk_entry_counts_pos o (rs1 ++ rs2) hin).mpr
        ⟨r, hr, (mem_get_spec_keys_iff o r _).mpr ⟨hkr, by rw [he]; rfl⟩⟩
    · cases h1 : (mk_entry o (rs1.map (compact_relic o))).has_excl_req with
      | true =>
        obtain ⟨r, hr, k, hrel, e, he, hreq⟩ := (mk_has_excl_req_iff o rs1).mp h1
        exact absurd ⟨r, List.mem_append.mpr (Or.inl hr), k, hrel, e, he, hreq⟩ hexcl
      | false =>
        cases h2 : (mk_entry o (rs2.map (compact_relic o))).has_excl_req with
        | true =>
          obtain ⟨r, hr, k, hrel, e, he, hreq⟩ := (mk_has_excl_req_iff o rs2).mp h2
          exact absurd ⟨r, List.mem_append.mpr (Or.inr hr), k, hrel, e, he, hreq⟩ hexcl
        | false => rfl

theorem sum_map_add {α : Type} (l : List α) (f g : α → Int) :
    (l.map (fun a => f a + g a)).sum = (l.map f).sum + (l.map g).sum := by
  induction l with
  | nil => rfl
  | cons x rest ih =>
    simp only [List.map_cons, List.sum_cons, ih]
    ring

theorem penalty_subadd (w p c d : Nat) (hc : 0 < c) (hd : 0 < d) :
    (w : Int) - (if 1 < c + d then ((p * (c + d - 1) : Nat) : Int) else 0) ≤
      ((w : Int) - (if 1 < c then ((p * (c - 1) : Nat) : Int) else 0)) +
      ((w : Int) - (if 1 < d then ((p * (d - 1) : Nat) : Int) else 0)) := by
  have hcd : 1 < c + d := by omega
  rw [if_pos hcd]
  have hp : (0 : Int) ≤ (p : Int) := by positivity
  have hw : (0 : Int) ≤ (w : Int) := by positivity
  by_cases hcc : 1 < c
  · by_cases hdd : 1 < d
    · rw [if_pos hcc, if_pos hdd]
      have e1 : p * (c + d - 1) = p * (c - 1) + p * (d - 1) + p := by
        have e0 : c + d - 1 = (c - 1) + (d - 1) + 1 := by omega
        rw [e0]
        ring
      rw [e1]
      push_cast
      linarith
    · rw [if_pos hcc, if_neg hdd]
      have e1 : p * (c + d - 1) = p * (c - 1) + p := by
        have e0 : c + d - 1 = (c - 1) + 1 := by omega
        rw [e0]
        ring
      rw [e1]
      push_cast
      linarith
  · by_cases hdd : 1 < d
    · rw [if_neg hcc, if_pos hdd]
      have e1 : p * (c + d - 1) = p * (d - 1) + p := by
        have e0 : c + d - 1 = (d - 1) + 1 := by omega
        rw [e0]
        ring
      rw [e1]
      push_cast
      linarith
    · rw [if_neg hcc, if_neg hdd]
      have e1 : p * (c + d - 1) = p := by
        have e0 : c + d - 1 = 1 := by omega
        rw [e0]
        ring
      rw [e1]
      push_cast
      linarith

theorem fast_contribution_subadd (w si p30 p50 c d : Nat) :
    fast_contribution w si p30 p50 (c + d) ≤
      fast_contribution w si p30 p50 c + fast_contribution w si p30 p50 d := by
  unfold fast_contribution
  rcases Nat.eq_zero_or_pos c with hc | hc
  · subst hc
    simp
  rcases Nat.eq_zero_or_pos d with hd | hd
  · subst hd
    simp
  have hc0 : ¬(c = 0) := by omega
  have hd0 : ¬(d = 0) := by omega
  have hcd0 : ¬(c + d = 0) := by omega
  rw [if_neg hcd0, if_neg hc0, if_neg hd0]
  by_cases h1 : si = 1
  · rw [if_pos h1, if_pos h1, if_pos h1]
    refine le_of_eq ?_
    push_cast
    ring
  · rw [if_neg h1, if_neg h1, if_neg h1]
    by_cases h2 : si = 2
    · rw [if_pos h2, if_pos h2, if_pos h2]
      exact penalty_subadd w p30 c d hc hd
    · rw [if_neg h2, if_neg h2, if_neg h2]
      exact penalty_subadd w p50 c d hc hd

theorem merged_counts_getD (o : Optimizer) (n d : TripleEntry) {i : Nat}
    (hi : i < n_spec o) :
    (merged_counts o n d).getD i 0 = n.counts.getD i 0 + d.counts.getD i 0 := by
  unfold merged_counts
  rw [getD_map_lt (fun i => n.counts.getD i 0 + d.counts.getD i 0)
    (by simpa using hi) 0 0, getD_range_lt hi]

theorem fast_stacking_score_merged_le (o : Optimizer) (n d : TripleEntry) :
    fast_stacking_score o (merged_counts o n d) ≤
      fast_stacking_score o n.counts + fast_stacking_score o d.counts := by
  unfold fast_stacking_score
  rw [← sum_map_add]
  refine List.sum_le_sum ?_
  intro i hi
  have hin : i < n_spec o := List.mem_range.mp hi
  rw [merged_counts_getD o n d hin]
  exact fast_contribution_subadd _ _ _ _ _ _

theorem pairs_lt_sublist {α : Type} :
    ∀ {l : List α} {a b : α}, (a, b) ∈ pairs_lt l → [a, b].Sublist l := by
  intro l
  induction l with
  | nil => intro a b h; exact absurd h (List.not_mem_nil _)
  | cons x rest ih =>
    intro a b h
    unfold pairs_lt at h
    rcases List.mem_append.mp h with h1 | h1
    · obtain ⟨y, hy, hxy⟩ := List.mem_map.mp h1
      cases hxy
      exact (List.cons_sublist_cons.mpr (List.singleton_sublist.mpr hy))
    · exact (ih h1).cons x

theorem triples_lt_sublist {α : Type} :
    ∀ {l : List α} {a b c : α}, (a, b, c) ∈ triples_lt l → [a, b, c].Sublist l := by
  intro l
  induction l with
  | nil => intro a b c h; exact absurd h (List.not_mem_nil _)
  | cons x rest ih =>
    intro a b c h
    unfold triples_lt at h
    rcases List.mem_append.mp h with h1 | h1
    · obtain ⟨p, hp, hxp⟩ := List.mem_map.mp h1
      cases hxp
      exact List.cons_sublist_cons.mpr (pairs_lt_sublist hp)
    · exact (ih h1).cons x

theorem list_product_mem {α : Type} :
    ∀ (slots : List (List α)) (cs : List α), cs ∈ list_product slots →
      ∀ c ∈ cs, ∃ p ∈ slots, c ∈ p := by
  intro slots
  induction slots with
  | nil =>
    intro cs hcs c hc
    unfold list_product at hcs
    rw [List.mem_singleton.mp hcs] at hc
    exact absurd hc (List.not_mem_nil c)
  | cons p rest ih =>
    intro cs hcs c hc
    unfold list_product at hcs
    obtain ⟨x, hx, hcs2⟩ := List.mem_flatMap.mp hcs
    obtain ⟨tail, htail, hct⟩ := List.mem_map.mp hcs2
    rw [← hct] at hc
    rcases List.mem_cons.mp hc with h1 | h1
    · exact ⟨p, List.mem_cons_self p rest, h1 ▸ hx⟩
    · obtain ⟨q, hq, hcq⟩ := ih tail htail c h1
      exact ⟨q, List.mem_cons_of_mem p hq, hcq⟩

theorem mem_getD_pool {α : Type} {cc : List (List α)} {j : Nat} {c : α}
    (h : c ∈ cc.getD j []) : ∃ p ∈ cc, c ∈ p := by
  by_cases hj : j < cc.length
  · rw [List.getD_eq_getElem cc [] hj] at h
    exact ⟨cc[j], List.getElem_mem hj, h⟩
  · rw [getD_eq_default (by omega) []] at h
    exact absurd h (List.not_mem_nil c)

theorem enum_all_same_mk (o : Optimizer) (cands : List CompactRelic)
    (e : TripleEntry) (he : e ∈ enum_all_same o cands) :
    ∃ cs, (∀ c ∈ cs, c ∈ cands) ∧ e = mk_entry o cs := by
  unfold enum_all_same at he
  obtain ⟨t, ht, hte⟩ := List.mem_map.mp he
  rcases t with ⟨a, b, c⟩
  refine ⟨[a, b, c], ?_, hte.symm⟩
  intro x hx
  exact (triples_lt_sublist ht).subset hx

theorem enum_all_diff_mk (o : Optimizer) (c0 c1 c2 : List CompactRelic)
    (e : TripleEntry) (he : e ∈ enum_all_diff o c0 c1 c2) :
    ∃ a b c, a ∈ c0 ∧ b ∈ c1 ∧ c ∈ c2 ∧ e = mk_entry o [a, b, c] := by
  unfold enum_all_diff at he
  obtain ⟨a, ha, he2⟩ := List.mem_flatMap.mp he
  obtain ⟨b, hb, he3⟩ := List.mem_flatMap.mp he2
  obtain ⟨c, hc, he4⟩ := List.mem_map.mp he3
  exact ⟨a, b, c, ha, hb, hc, he4.symm⟩

theorem enum_two_same_mk (o : Optimizer) (same_cands diff_cands : List CompactRelic)
    (e : TripleEntry) (he : e ∈ enum_two_same o same_cands diff_cands) :
    ∃ a b c, [a, b].Sublist same_cands ∧ c ∈ diff_cands ∧
      ¬(c.rid = a.rid) ∧ ¬(c.rid = b.rid) ∧ e = mk_entry o [a, b, c] := by
  unfold enum_two_same at he
  obtain ⟨p, hp, he2⟩ := List.mem_flatMap.mp he
  obtain ⟨c, hc, he3⟩ := List.mem_map.mp he2
  rcases p with ⟨a, b⟩
  rcases List.mem_filter.mp hc with ⟨hcd, hcne⟩
  refine ⟨a, b, c, pairs_lt_sublist hp, hcd, ?_, ?_, he3.symm⟩
  · have := (Bool.and_eq_true _ _).mp hcne
    simpa using this.1
  · have := (Bool.and_eq_true _ _).mp hcne
    simpa using this.2

theorem enum_general_mk (o : Optimizer) (slots : List (List CompactRelic))
    (e : TripleEntry) (he : e ∈ enum_general o slots) :
    ∃ cs, (∀ c ∈ cs, ∃ p ∈ slots, c ∈ p) ∧
      (cs.map (fun c => c.rid)).Nodup ∧ e = mk_entry o cs := by
  unfold enum_general at he
  obtain ⟨cs, hcs, hce⟩ := List.mem_map.mp he
  have hcs2 : cs ∈ general_choices slots := mem_of_mem_first_by _ _ _ cs hcs
  unfold general_choices at hcs2
  rcases List.mem_filter.mp hcs2 with ⟨hprod, hnd⟩
  exact ⟨cs, list_product_mem slots cs hprod, by simpa using hnd, hce.symm⟩

theorem enum_mem_mk (o : Optimizer) (cc : List (List CompactRelic))
    (colors : List String) (e : TripleEntry)
    (he : e ∈ enumerate_combos o cc colors) :
    ∃ cs, (∀ c ∈ cs, ∃ p ∈ cc, c ∈ p) ∧ e = mk_entry o cs := by
  simp only [enumerate_combos] at he
  split_ifs at he
  · obtain ⟨cs, hcs, hce⟩ := enum_all_same_mk o _ e he
    exact ⟨cs, fun c hc => mem_getD_pool (hcs c hc), hce⟩
  · obtain ⟨a, b, c, ha, hb, hc, hce⟩ := enum_all_diff_mk o _ _ _ e he
    refine ⟨[a, b, c], ?_, hce⟩
    intro x hx
    rcases List.mem_cons.mp hx with h1 | hx2
    · exact h1 ▸ mem_getD_pool ha
    rcases List.mem_cons.mp hx2 with h1 | hx3
    · exact h1 ▸ mem_getD_pool hb
    rcases List.mem_cons.mp hx3 with h1 | hx4
    · exact h1 ▸ mem_getD_pool hc
    · exact absurd hx4 (List.not_mem_nil x)
  · obtain ⟨a, b, c, hab, hc, _, _, hce⟩ := enum_two_same_mk o _ _ e he
    refine ⟨[a, b, c], ?_, hce⟩
    intro x hx
    rcases List.mem_cons.mp hx with h1 | hx2
    · exact h1 ▸ mem_getD_pool (hab.subset (List.mem_cons_self a [b]))
    rcases List.mem_cons.mp hx2 with h1 | hx3
    · exact h1 ▸ mem_getD_pool (hab.subset (List.mem_cons_of_mem a (List.mem_cons_self b [])))
    rcases List.mem_cons.mp hx3 with h1 | hx4
    · exact h1 ▸ mem_getD_pool hc
    · exact absurd hx4 (List.not_mem_nil x)
  · obtain ⟨cs, hcs, _, hce⟩ := enum_general_mk o cc e he
    exact ⟨cs, hcs, hce⟩


theorem group_get_nil (p : Priority) : group_get [] p = [] := rfl

theorem group_get_add_same (gs : List (Priority × List (Nat × Int))) (p : Priority)
    (e : Nat × Int) : group_get (add_to_group gs p e) p = group_get gs p ++ [e] := by
  induction gs with
  | nil => simp [add_to_group, group_get, List.find?]
  | cons g rest ih =>
    obtain ⟨q, l⟩ := g
    by_cases hq : q = p
    · subst hq
      simp [add_to_group, group_get, List.find?]
    · simp only [add_to_group, if_neg hq]
      simp only [group_get, List.find?_cons, show (decide (q = p)) = false from by simp [hq]]
        at ih ⊢
      exact ih

theorem group_get_add_ne (gs : List (Priority × List (Nat × Int))) (p q : Priority)
    (hpq : q ≠ p) (e : Nat × Int) :
    group_get (add_to_group gs q e) p = group_get gs p := by
  induction gs with
  | nil => simp [add_to_group, group_get, List.find?, hpq]
  | cons g rest ih =>
    obtain ⟨q1, l⟩ := g
    by_cases h1 : q1 = q
    · subst h1
      simp only [add_to_group, if_pos rfl]
      simp [group_get, List.find?_cons, show (decide (q1 = p)) = false from by simp [hpq]]
    · simp only [add_to_group, if_neg h1]
      by_cases h2 : q1 = p
      · subst h2
        simp [group_get, List.find?_cons]
      · simp only [group_get, List.find?_cons,
          show (decide (q1 = p)) = false from by simp [h2]] at ih ⊢
        exact ih

theorem mem_of_group_get {gs : List (Priority × List (Nat × Int))} {p : Priority}
    (h : group_get gs p ≠ []) : ∃ g ∈ gs, g.1 = p ∧ g.2 = group_get gs p := by
  unfold group_get at h ⊢
  cases hf : gs.find? (fun g => g.1 = p) with
  | none => rw [hf] at h; simp at h
  | some g =>
    refine ⟨g, List.mem_of_find?_eq_some hf, ?_, ?_⟩
    · have h2 := List.find?_some hf
      simpa using h2
    · rfl

theorem add_to_group_fsts (gs : List (Priority × List (Nat × Int))) (p : Priority)
    (e : Nat × Int) :
    (add_to_group gs p e).map Prod.fst =
      if p ∈ gs.map Prod.fst then gs.map Prod.fst else gs.map Prod.fst ++ [p] := by
  induction gs with
  | nil => simp [add_to_group]
  | cons g rest ih =>
    obtain ⟨q, l⟩ := g
    by_cases hq : q = p
    · subst hq
      simp [add_to_group]
    · simp only [add_to_group, if_neg hq, List.map_cons, ih]
      by_cases hp : p ∈ rest.map Prod.fst
      · rw [if_pos hp, if_pos (by simp [hp])]
      · rw [if_neg hp, if_neg (by simp [hp, Ne.symm hq]), List.cons_append]

theorem add_to_group_nodup {gs : List (Priority × List (Nat × Int))}
    (h : (gs.map Prod.fst).Nodup) (p : Priority) (e : Nat × Int) :
    ((add_to_group gs p e).map Prod.fst).Nodup := by
  rw [add_to_group_fsts]
  by_cases hp : p ∈ gs.map Prod.fst
  · rwa [if_pos hp]
  · rw [if_neg hp]
    simp [List.nodup_append, h, hp]

theorem group_eq_of_mem {gs : List (Priority × List (Nat × Int))}
    (hnd : (gs.map Prod.fst).Nodup) {g : Priority × List (Nat × Int)} (hg : g ∈ gs) :
    g.2 = group_get gs g.1 := by
  induction gs with
  | nil => exact absurd hg (List.not_mem_nil _)
  | cons g0 rest ih =>
    rcases List.mem_cons.mp hg with h1 | h1
    · subst h1
      unfold group_get
      rw [List.find?_cons_of_pos _ (by simp)]
      rfl
    · have hmem : g.1 ∈ rest.map Prod.fst := List.mem_map_of_mem Prod.fst h1
      have hne : ¬(g0.1 = g.1) := by
        intro he
        rw [List.map_cons, List.nodup_cons] at hnd
        exact hnd.1 (he ▸ hmem)
      unfold group_get
      rw [List.find?_cons_of_neg _ (by simp [hne])]
      have hnd2 : (rest.map Prod.fst).Nodup := by
        rw [List.map_cons, List.nodup_cons] at hnd
        exact hnd.2
      exact ih hnd2 h1

theorem keyed_entries_mem {entries : List SpecEntry} {kl : List Nat}
    {t : Priority × Nat × Int} (h : t ∈ keyed_entries entries kl) :
    ∃ s ∈ entries, ∃ k, s.key = some k ∧ find_idx k kl = some t.2.1 ∧
      t.1 = s.priority ∧ t.2.2 = s.rank := by
  unfold keyed_entries at h
  rcases List.mem_filterMap.mp h with ⟨s, hs, hf⟩
  cases hk : s.key with
  | none =>
    rw [hk] at hf
    have hf2 : (none : Option (Priority × Nat × Int)) = some t := hf
    exact absurd hf2 (by simp)
  | some k =>
    rw [hk] at hf
    have hf2 : (find_idx k kl).map (fun idx => (s.priority, idx, s.rank)) = some t := hf
    cases hfi : find_idx k kl with
    | none =>
      rw [hfi] at hf2
      exact absurd hf2 (by simp)
    | some idx =>
      rw [hfi] at hf2
      simp only [Option.map_some', Option.some.injEq] at hf2
      subst hf2
      exact ⟨s, hs, k, hk, by simpa using hfi, rfl, rfl⟩

theorem keyed_entries_of_mem {entries : List SpecEntry} {kl : List Nat}
    {s : SpecEntry} (hs : s ∈ entries) {k idx : Nat}
    (hk : s.key = some k) (hf : find_idx k kl = some idx) :
    (s.priority, idx, s.rank) ∈ keyed_entries entries kl := by
  unfold keyed_entries
  apply List.mem_filterMap.mpr
  refine ⟨s, hs, ?_⟩
  rw [hk]
  show (find_idx k kl).map (fun i => (s.priority, i, s.rank)) = some (s.priority, idx, s.rank)
  rw [hf]
  rfl

theorem keyed_entries_idx_nodup {kl : List Nat} :
    ∀ {entries : List SpecEntry},
      (entries.filterMap (fun s => s.key)).Nodup →
      ((keyed_entries entries kl).map (fun t => t.2.1)).Nodup := by
  intro entries
  induction entries with
  | nil => intro _; simp [keyed_entries]
  | cons s rest ih =>
    intro h
    cases hk : s.key with
    | none =>
      have h2 : (rest.filterMap (fun s => s.key)).Nodup := by
        rwa [List.filterMap_cons, hk] at h
      simp only [keyed_entries, List.filterMap_cons, hk]
      exact ih h2
    | some k =>
      rw [List.filterMap_cons, hk, List.nodup_cons] at h
      cases hfi : find_idx k kl with
      | none =>
        simp only [keyed_entries, List.filterMap_cons, hk, hfi, Option.map_none']
        exact ih h.2
      | some idx =>
        simp only [keyed_entries, List.filterMap_cons, hk, hfi, Option.map_some',
          List.map_cons]
        rw [List.nodup_cons]
        constructor
        · intro hinm
          rcases List.mem_map.mp hinm with ⟨t, ht, hti⟩
          rcases keyed_entries_mem ht with ⟨s2, hs2, k2, hk2, hf2, _, _⟩
          have hkk : k2 = k := by
            have e1 := (find_idx_some hf2).2
            have e2 := (find_idx_some hfi).2
            rw [hti] at e1
            rw [← e1, ← e2]
          exact h.1 (List.mem_filterMap.mpr ⟨s2, hs2, by rw [hk2, hkk]⟩)
        · exact ih h.2

theorem build_fold_aux (kl : List Nat) (p : Priority) :
    ∀ (es : List SpecEntry) (acc : List (Priority × List (Nat × Int))),
      group_get (es.foldl (priority_group_step kl) acc) p =
        group_get acc p ++
          ((keyed_entries es kl).filter (fun t => t.1 = p)).map (fun t => t.2) := by
  intro es
  induction es with
  | nil => intro acc; simp [keyed_entries]
  | cons s rest ih =>
    intro acc
    rw [List.foldl_cons]
    cases hk : s.key with
    | none =>
      have hstep : priority_group_step kl acc s = acc := by
        simp [priority_group_step, hk]
      rw [hstep, ih acc]
      simp [keyed_entries, List.filterMap_cons, hk]
    | some k =>
      cases hfi : find_idx k kl with
      | none =>
        have hstep : priority_group_step kl acc s = acc := by
          simp [priority_group_step, hk, hfi]
        rw [hstep, ih acc]
        simp [keyed_entries, List.filterMap_cons, hk, hfi]
      | some idx =>
        have hstep : priority_group_step kl acc s =
            add_to_group acc s.priority (idx, s.rank) := by
          simp [priority_group_step, hk, hfi]
        rw [hstep, ih]
        by_cases hp : s.priority = p
        · rw [hp, group_get_add_same]
          simp [keyed_entries, List.filterMap_cons, hk, hfi, hp]
        · rw [group_get_add_ne _ _ _ hp]
          simp [keyed_entries, List.filterMap_cons, hk, hfi, hp]

theorem group_get_build (entries : List SpecEntry) (kl : List Nat) (p : Priority) :
    group_get (build_priority_groups entries kl) p =
      ((keyed_entries entries kl).filter (fun t => t.1 = p)).map (fun t => t.2) := by
  unfold build_priority_groups
  rw [build_fold_aux]
  rw [group_get_nil, List.nil_append]

theorem build_nodup_fsts (entries : List SpecEntry) (kl : List Nat) :
    ((build_priority_groups entries kl).map Prod.fst).Nodup := by
  unfold build_priority_groups
  have haux : ∀ (es : List SpecEntry) (acc : List (Priority × List (Nat × Int))),
      (acc.map Prod.fst).Nodup →
      ((es.foldl (priority_group_step kl) acc).map Prod.fst).Nodup := by
    intro es
    induction es with
    | nil => intro acc h; exact h
    | cons s rest ih =>
      intro acc h
      rw [List.foldl_cons]
      apply ih
      cases hk : s.key with
      | none =>
        rw [show priority_group_step kl acc s = acc from by simp [priority_group_step, hk]]
        exact h
      | some k =>
        cases hfi : find_idx k kl with
        | none =>
          rw [show priority_group_step kl acc s = acc from by
            simp [priority_group_step, hk, hfi]]
          exact h
        | some idx =>
          rw [show priority_group_step kl acc s = add_to_group acc s.priority (idx, s.rank)
            from by simp [priority_group_step, hk, hfi]]
          exact add_to_group_nodup h _ _
  exact haux entries [] (by simp)

theorem mem_sub_rank_writes {gs : List (Priority × List (Nat × Int))} {w : Nat × Int} :
    w ∈ sub_rank_writes gs ↔
      ∃ g ∈ gs, ∃ e ∈ g.2,
        w = (e.1, ((g.2.length : Int) - e.2) * (SUB_RANK_TIER g.1 : Int)) := by
  unfold sub_rank_writes
  rw [List.mem_flatMap]
  constructor
  · rintro ⟨g, hg, hw⟩
    rcases List.mem_map.mp hw with ⟨e, he, hew⟩
    exact ⟨g, hg, e, he, hew.symm⟩
  · rintro ⟨g, hg, e, he, hew⟩
    exact ⟨g, hg, List.mem_map.mpr ⟨e, he, hew.symm⟩⟩

theorem assign_sub_ranks_eq (n : Nat) (gs : List (Priority × List (Nat × Int))) :
    assign_sub_ranks n gs =
      (sub_rank_writes gs).foldl (fun vals w => vals.set w.1 w.2)
        (List.replicate n 0) := by
  unfold assign_sub_ranks sub_rank_writes
  generalize List.replicate n (0 : Int) = v0
  induction gs generalizing v0 with
  | nil => rfl
  | cons g rest ih =>
    rw [List.foldl_cons, List.flatMap_cons, List.foldl_append, List.foldl_map]
    exact ih _

theorem set_getD_ne (v : List Int) (j i : Nat) (x : Int) (h : j ≠ i) :
    (v.set j x).getD i 0 = v.getD i 0 := by
  rw [List.getD_eq_getElem?_getD, List.getD_eq_getElem?_getD, List.getElem?_set_ne h]

theorem set_getD_self (v : List Int) (i : Nat) (x : Int) (h : i < v.length) :
    (v.set i x).getD i 0 = x := by
  rw [List.getD_eq_getElem?_getD, List.getElem?_set_self h]
  rfl

theorem foldl_set_length (ws : List (Nat × Int)) (v : List Int) :
    (ws.foldl (fun vals w => vals.set w.1 w.2) v).length = v.length := by
  induction ws generalizing v with
  | nil => rfl
  | cons w rest ih =>
    rw [List.foldl_cons, ih, List.length_set]

theorem foldl_set_getD_notmem (ws : List (Nat × Int)) (v : List Int) (i : Nat)
    (h : ∀ w ∈ ws, w.1 ≠ i) :
    (ws.foldl (fun vals w => vals.set w.1 w.2) v).getD i 0 = v.getD i 0 := by
  induction ws generalizing v with
  | nil => rfl
  | cons w rest ih =>
    rw [List.foldl_cons, ih _ (fun x hx => h x (List.mem_cons_of_mem _ hx))]
    exact set_getD_ne v _ _ _ (h w (List.mem_cons_self _ _))

theorem foldl_set_getD_mem (ws : List (Nat × Int)) (v : List Int) (i : Nat) (x : Int)
    (hmem : (i, x) ∈ ws) (huniq : ∀ w ∈ ws, w.1 = i → w.2 = x) (hlen : i < v.length) :
    (ws.foldl (fun vals w => vals.set w.1 w.2) v).getD i 0 = x := by
  induction ws generalizing v with
  | nil => exact absurd hmem (List.not_mem_nil _)
  | cons w rest ih =>
    rw [List.foldl_cons]
    by_cases hrest : (i, x) ∈ rest
    · exact ih _ hrest (fun w1 h1 h2 => huniq w1 (List.mem_cons_of_mem _ h1) h2)
        (by rw [List.length_set]; exact hlen)
    · have hw : w = (i, x) := by
        rcases List.mem_cons.mp hmem with h1 | h1
        · exact h1.symm
        · exact absurd h1 hrest
      subst hw
      have hnone : ∀ w1 ∈ rest, w1.1 ≠ i := by
        intro w1 h1 he
        have hv := huniq w1 (List.mem_cons_of_mem _ h1) he
        have hw1 : w1 = (i, x) := Prod.ext_iff.mpr ⟨he, hv⟩
        exact hrest (hw1 ▸ h1)
      rw [foldl_set_getD_notmem rest _ i hnone]
      exact set_getD_self v i x hlen



theorem replicate_getD (n i : Nat) : (List.replicate n (0 : Int)).getD i 0 = 0 := by
  induction n generalizing i with
  | zero => rfl
  | succ m ih =>
    cases i with
    | zero => rfl
    | succ j =>
      rw [List.replicate_succ, List.getD_cons_succ]
      exact ih j




theorem mem_of_mem_insertionSort {α : Type} {r : α → α → Prop} [DecidableRel r]
    {a : α} {l : List α} (h : a ∈ l.insertionSort r) : a ∈ l :=
  (List.perm_insertionSort r l).mem_iff.mp h

theorem mem_insertionSort_of_mem {α : Type} {r : α → α → Prop} [DecidableRel r]
    {a : α} {l : List α} (h : a ∈ l) : a ∈ l.insertionSort r :=
  (List.perm_insertionSort r l).mem_iff.mpr h


theorem nodup_map_sublist {α β : Type} (f : α → β) {l1 l2 : List α}
    (h : l1.Sublist l2) (hnd : (l2.map f).Nodup) : (l1.map f).Nodup :=
  List.Nodup.sublist (List.Sublist.map f h) hnd

theorem nodup_map_perm {α β : Type} (f : α → β) {l1 l2 : List α}
    (h : l1.Perm l2) (hnd : (l2.map f).Nodup) : (l1.map f).Nodup :=
  (List.Perm.nodup_iff (List.Perm.map f h)).mpr hnd

theorem slot_pool_sublist (pool : List Relic) (c : String) :
    (slot_pool pool c).Sublist pool := by
  unfold slot_pool by_color_get
  split_ifs
  · exact List.Sublist.refl pool
  · exact List.filter_sublist pool

theorem slot_pool_color {pool : List Relic} {c : String} (hc : ¬(c = "Any"))
    {r : Relic} (hr : r ∈ slot_pool pool c) : r.itemColor = c := by
  unfold slot_pool by_color_get at hr
  rw [if_neg hc] at hr
  simpa using List.of_mem_filter hr

theorem filter_relics_sublist (o : Optimizer) (types : Option (List String))
    (color : Option String) : (filter_relics o types color).Sublist o.all_relics := by
  simp only [filter_relics]
  have hf1 : (match types with
      | some ts => if ts = [] then o.all_relics
        else o.all_relics.filter (fun r => r.itemType ∈ ts)
      | none => o.all_relics).Sublist o.all_relics := by
    cases types with
    | none => exact List.Sublist.refl _
    | some ts =>
      show (if ts = [] then o.all_relics
        else o.all_relics.filter (fun r => r.itemType ∈ ts)).Sublist o.all_relics
      split_ifs
      · exact List.Sublist.refl _
      · exact List.filter_sublist _
  cases color with
  | none => exact hf1
  | some c => exact List.Sublist.trans (List.filter_sublist _) hf1

theorem build_one_slot_mem {o : Optimizer} {filtered : List Relic} {cap : Nat}
    {c : String} {r : Relic} (hr : r ∈ build_one_slot o filtered cap c) :
    r ∈ slot_pool filtered c := by
  simp only [build_one_slot, sort_desc_by_score] at hr
  have hr2 := mem_of_mem_insertionSort hr
  rcases List.mem_append.mp hr2 with h1 | h1
  · split_ifs at h1
    · have h2 := List.mem_of_mem_take h1
      have h3 := mem_of_mem_insertionSort h2
      exact List.mem_of_mem_filter h3
    · exact List.mem_of_mem_filter h1
  · have h2 := List.mem_of_mem_take h1
    have h3 := mem_of_mem_insertionSort h2
    exact List.mem_of_mem_filter h3

theorem build_one_slot_color {o : Optimizer} {filtered : List Relic} {cap : Nat}
    {c : String} (hc : ¬(c = "Any")) {r : Relic}
    (hr : r ∈ build_one_slot o filtered cap c) : r.itemColor = c :=
  slot_pool_color hc (build_one_slot_mem hr)

theorem slot_assembly_nodup (o : Optimizer) (cands MI : List Relic) (k : Nat)
    (hmi : (MI.map (fun r => r.id)).Nodup) (h : (cands.map (fun r => r.id)).Nodup) :
    ((sort_desc_by_score o
        (MI ++ (sort_desc_by_score o
          (cands.filter (fun r => !(r.id ∈ MI.map (fun r => r.id))))).take k)).map
      (fun r => r.id)).Nodup := by
  simp only [sort_desc_by_score]
  apply nodup_map_perm (fun r : Relic => r.id) (List.perm_insertionSort (score_ge o) _)
  rw [List.map_append, List.nodup_append]
  refine ⟨hmi, ?_, ?_⟩
  · apply nodup_map_sublist (fun r : Relic => r.id) (List.take_sublist _ _)
    apply nodup_map_perm (fun r : Relic => r.id) (List.perm_insertionSort (score_ge o) _)
    exact nodup_map_sublist (fun r : Relic => r.id) (List.filter_sublist _) h
  · intro a ha hb
    rcases List.mem_map.mp hb with ⟨r, hr, hrid⟩
    have hrf : r ∈ cands.filter (fun r => !(r.id ∈ MI.map (fun r => r.id))) :=
      mem_of_mem_insertionSort (List.mem_of_mem_take hr)
    have hnid := List.of_mem_filter hrf
    rw [hrid] at hnid
    simp only [Bool.not_eq_true', decide_eq_false_iff_not] at hnid
    exact hnid ha

theorem build_one_slot_nodup_ids (o : Optimizer) (filtered : List Relic) (cap : Nat)
    (c : String) (h : (filtered.map (fun r => r.id)).Nodup) :
    ((build_one_slot o filtered cap c).map (fun r => r.id)).Nodup := by
  have hcand : ((slot_pool filtered c).map (fun r : Relic => r.id)).Nodup :=
    nodup_map_sublist _ (slot_pool_sublist filtered c) h
  have hm0 : (((slot_pool filtered c).filter
      (fun r => r.id ∈ wanted_ids o filtered)).map (fun r : Relic => r.id)).Nodup :=
    nodup_map_sublist _ (List.filter_sublist _) hcand
  have hmi : (((if cap < ((slot_pool filtered c).filter
        (fun r => r.id ∈ wanted_ids o filtered)).length
      then (sort_desc_by_score o ((slot_pool filtered c).filter
        (fun r => r.id ∈ wanted_ids o filtered))).take cap
      else (slot_pool filtered c).filter
        (fun r => r.id ∈ wanted_ids o filtered))).map (fun r : Relic => r.id)).Nodup := by
    split_ifs
    · refine nodup_map_sublist _ (List.take_sublist _ _) ?_
      simp only [sort_desc_by_score]
      exact nodup_map_perm _ (List.perm_insertionSort (score_ge o) _) hm0
    · exact hm0
  exact slot_assembly_nodup o (slot_pool filtered c) _ _ hmi hcand



theorem getD_pool_nd {cc : List (List CompactRelic)} {j : Nat}
    (h : ∀ pool ∈ cc, (pool.map (fun c => c.rid)).Nodup) :
    ((cc.getD j []).map (fun c => c.rid)).Nodup := by
  by_cases hj : j < cc.length
  · rw [List.getD_eq_getElem cc [] hj]
    exact h _ (List.getElem_mem hj)
  · rw [getD_eq_default (by omega) []]
    simp

theorem mk_entry_rids (o : Optimizer) (cs : List CompactRelic) :
    (mk_entry o cs).rids = cs.map (fun c => c.rid) := rfl

theorem enum_all_same_rids (o : Optimizer) (cands : List CompactRelic)
    (hnd : (cands.map (fun c => c.rid)).Nodup) {e : TripleEntry}
    (he : e ∈ enum_all_same o cands) :
    e.rids.Nodup ∧ ∀ rid ∈ e.rids, ∃ x ∈ cands, x.rid = rid := by
  unfold enum_all_same at he
  obtain ⟨t, ht, hte⟩ := List.mem_map.mp he
  rcases t with ⟨a, b, c⟩
  have hsub := triples_lt_sublist ht
  have hrids : e.rids = [a, b, c].map (fun x => x.rid) := by
    rw [← hte, mk_entry_rids]
  constructor
  · rw [hrids]
    exact nodup_map_sublist (fun c => c.rid) hsub hnd
  · intro rid hr
    rw [hrids] at hr
    rcases List.mem_map.mp hr with ⟨x, hx, hxr⟩
    exact ⟨x, hsub.subset hx, hxr⟩

theorem enum_all_diff_rids (o : Optimizer) (c0 c1 c2 : List CompactRelic)
    (h01 : ∀ x ∈ c0, ∀ y ∈ c1, x.rid ≠ y.rid)
    (h02 : ∀ x ∈ c0, ∀ y ∈ c2, x.rid ≠ y.rid)
    (h12 : ∀ x ∈ c1, ∀ y ∈ c2, x.rid ≠ y.rid) {e : TripleEntry}
    (he : e ∈ enum_all_diff o c0 c1 c2) :
    e.rids.Nodup ∧ ∀ rid ∈ e.rids, ∃ x, (x ∈ c0 ∨ x ∈ c1 ∨ x ∈ c2) ∧ x.rid = rid := by
  obtain ⟨a, b, c, ha, hb, hc, hce⟩ := enum_all_diff_mk o c0 c1 c2 e he
  have hrids : e.rids = [a.rid, b.rid, c.rid] := by rw [hce, mk_entry_rids]; rfl
  constructor
  · rw [hrids]
    simp [h01 a ha b hb, h02 a ha c hc, h12 b hb c hc]
  · intro rid hr
    rw [hrids] at hr
    rcases List.mem_cons.mp hr with h1 | hr2
    · exact ⟨a, Or.inl ha, h1.symm⟩
    rcases List.mem_cons.mp hr2 with h1 | hr3
    · exact ⟨b, Or.inr (Or.inl hb), h1.symm⟩
    rcases List.mem_cons.mp hr3 with h1 | hr4
    · exact ⟨c, Or.inr (Or.inr hc), h1.symm⟩
    · exact absurd hr4 (List.not_mem_nil _)

theorem enum_two_same_rids (o : Optimizer) (same_cands diff_cands : List CompactRelic)
    (hnd : (same_cands.map (fun c => c.rid)).Nodup) {e : TripleEntry}
    (he : e ∈ enum_two_same o same_cands diff_cands) :
    e.rids.Nodup ∧ ∀ rid ∈ e.rids,
      ∃ x, (x ∈ same_cands ∨ x ∈ diff_cands) ∧ x.rid = rid := by
  obtain ⟨a, b, c, hab, hc, hca, hcb, hce⟩ := enum_two_same_mk o same_cands diff_cands e he
  have hrids : e.rids = [a.rid, b.rid, c.rid] := by rw [hce, mk_entry_rids]; rfl
  have habnd : ([a, b].map (fun c => c.rid)).Nodup :=
    nodup_map_sublist (fun c => c.rid) hab hnd
  have habne : a.rid ≠ b.rid := by
    simpa using habnd
  have hac : ¬(a.rid = c.rid) := fun h => hca h.symm
  have hbc : ¬(b.rid = c.rid) := fun h => hcb h.symm
  constructor
  · rw [hrids]
    simp [habne, hac, hbc]
  · intro rid hr
    rw [hrids] at hr
    rcases List.mem_cons.mp hr with h1 | hr2
    · exact ⟨a, Or.inl (hab.subset (by simp)), h1.symm⟩
    rcases List.mem_cons.mp hr2 with h1 | hr3
    · exact ⟨b, Or.inl (hab.subset (by simp)), h1.symm⟩
    rcases List.mem_cons.mp hr3 with h1 | hr4
    · exact ⟨c, Or.inr hc, h1.symm⟩
    · exact absurd hr4 (List.not_mem_nil _)

theorem enum_general_rids (o : Optimizer) (slots : List (List CompactRelic))
    {e : TripleEntry} (he : e ∈ enum_general o slots) :
    e.rids.Nodup ∧ ∀ rid ∈ e.rids, ∃ x, (∃ p ∈ slots, x ∈ p) ∧ x.rid = rid := by
  obtain ⟨cs, hcs, hnd, hce⟩ := enum_general_mk o slots e he
  have hrids : e.rids = cs.map (fun c => c.rid) := by rw [hce, mk_entry_rids]
  constructor
  · rw [hrids]
    exact hnd
  · intro rid hr
    rw [hrids] at hr
    rcases List.mem_map.mp hr with ⟨x, hx, hxr⟩
    exact ⟨x, hcs x hx, hxr⟩

theorem relic_by_id_id (o : Optimizer) {rid : Nat}
    (h : ∃ r ∈ o.all_relics, r.id = rid) : (relic_by_id o rid).id = rid := by
  unfold relic_by_id
  obtain ⟨r, hr, hrid⟩ := h
  have hmem : r ∈ o.all_relics.reverse := List.mem_reverse.mpr hr
  cases hf : (o.all_relics.reverse).find? (fun r => r.id = rid) with
  | none =>
    have h2 := List.find?_eq_none.mp hf r hmem
    simp [hrid] at h2
  | some r2 =>
    have hp := List.find?_some hf
    exact (by simpa using hp : r2.id = rid)

theorem heap_insert_mem {x y : HeapItem} :
    ∀ {l : List HeapItem}, y ∈ heap_insert x l → y = x ∨ y ∈ l := by
  intro l
  induction l with
  | nil =>
    intro h
    unfold heap_insert at h
    exact Or.inl (List.mem_singleton.mp h)
  | cons z rest ih =>
    intro h
    unfold heap_insert at h
    split_ifs at h
    · rcases List.mem_cons.mp h with h1 | h1
      · exact Or.inl h1
      · exact Or.inr h1
    · rcases List.mem_cons.mp h with h1 | h1
      · exact Or.inr (h1 ▸ List.mem_cons_self z rest)
      · rcases ih h1 with h2 | h2
        · exact Or.inl h2
        · exact Or.inr (List.mem_cons_of_mem z h2)

theorem heap_step_mem {top_n : Nat} {item y : HeapItem} {heap : List HeapItem}
    (h : y ∈ heap_step top_n item heap) : y = item ∨ y ∈ heap := by
  unfold heap_step at h
  split_ifs at h
  · rcases heap_insert_mem h with h1 | h1
    · exact Or.inl h1
    · exact Or.inr h1
  · rcases hh : heap with _ | ⟨h0, rest2⟩
    · subst hh
      exact Or.inr h
    · subst hh
      have h2 : y ∈ (if hkey_lt item.key h0.key then heap_insert item rest2
          else h0 :: rest2) := h
      split_ifs at h2
      · rcases heap_insert_mem h2 with h1 | h1
        · exact Or.inl h1
        · exact Or.inr (List.mem_cons_of_mem h0 h1)
      · exact Or.inr h2

theorem inner_loop_mem (o : Optimizer) (top_n : Nat) (bri : Int) (n : TripleEntry) :
    ∀ (ds : List TripleEntry) (st : PState) {y : HeapItem},
      y ∈ (inner_loop o top_n bri n ds st).heap →
      y ∈ st.heap ∨ (y.nrm = n ∧ y.dp ∈ ds) := by
  intro ds
  induction ds with
  | nil => intro st y h; exact Or.inl h
  | cons d rest ih =>
    intro st y h
    simp only [inner_loop] at h
    by_cases hbrk : (decide (top_n ≤ st.heap.length) &&
        (match st.heap with
         | h0 :: _ => lex2_le_b (h0.key.1, h0.key.2.1) (bri, -(n.score + d.score))
         | [] => false)) = true
    · rw [if_pos hbrk] at h
      exact Or.inl h
    · rw [if_neg hbrk] at h
      rcases ih _ h with h1 | h1
      · rcases heap_step_mem h1 with h2 | h2
        · subst h2
          exact Or.inr ⟨rfl, List.mem_cons_self d rest⟩
        · exact Or.inl h2
      · exact Or.inr ⟨h1.1, List.mem_cons_of_mem d h1.2⟩

theorem outer_loop_mem (o : Optimizer) (top_n : Nat) (bri : Int) (best_deep : Int)
    (deep_top : List TripleEntry) :
    ∀ (ns : List TripleEntry) (st : PState) {y : HeapItem},
      y ∈ (outer_loop o top_n bri best_deep deep_top ns st).heap →
      y ∈ st.heap ∨ (y.nrm ∈ ns ∧ y.dp ∈ deep_top) := by
  intro ns
  induction ns with
  | nil => intro st y h; exact Or.inl h
  | cons n rest ih =>
    intro st y h
    simp only [outer_loop] at h
    split_ifs at h
    · exact Or.inl h
    · rcases ih _ h with h1 | h1
      · rcases inner_loop_mem o top_n bri n deep_top _ h1 with h2 | h2
        · exact Or.inl h2
        · exact Or.inr ⟨h2.1 ▸ List.mem_cons_self n rest, h2.2⟩
      · exact Or.inr ⟨List.mem_cons_of_mem n h1.1, h1.2⟩



theorem compact_pools_disjoint (o : Optimizer) (filtered : List Relic) (cap : Nat)
    (hfil : (filtered.map (fun r => r.id)).Nodup) {c1 c2 : String}
    (h1 : ¬(c1 = "Any")) (h2 : ¬(c2 = "Any")) (hne : c1 ≠ c2) :
    ∀ x ∈ (build_one_slot o filtered cap c1).map (compact_relic o),
      ∀ y ∈ (build_one_slot o filtered cap c2).map (compact_relic o),
        x.rid ≠ y.rid := by
  intro x hx y hy he
  rcases List.mem_map.mp hx with ⟨r1, hr1, hx1⟩
  rcases List.mem_map.mp hy with ⟨r2, hr2, hy1⟩
  subst hx1
  subst hy1
  have hid : r1.id = r2.id := he
  have hf1 : r1 ∈ filtered := (slot_pool_sublist filtered c1).subset (build_one_slot_mem hr1)
  have hf2 : r2 ∈ filtered := (slot_pool_sublist filtered c2).subset (build_one_slot_mem hr2)
  have heq : r1 = r2 := List.inj_on_of_nodup_map hfil hf1 hf2 hid
  have hcol1 : r1.itemColor = c1 := build_one_slot_color h1 hr1
  have hcol2 : r2.itemColor = c2 := build_one_slot_color h2 hr2
  exact hne (by rw [← hcol1, heq, hcol2])

theorem enum_combined_rids (o : Optimizer) (filtered : List Relic) (cap : Nat)
    (colors : List String) (hfil : (filtered.map (fun r => r.id)).Nodup)
    {e : TripleEntry}
    (he : e ∈ enumerate_combos o
      ((build_slot_candidates o colors filtered cap).map (List.map (compact_relic o)))
      colors) :
    e.rids.Nodup ∧ ∀ rid ∈ e.rids, ∃ r ∈ filtered, r.id = rid := by
  set cc := (build_slot_candidates o colors filtered cap).map
    (List.map (compact_relic o)) with hcc
  have hpool : ∀ pool ∈ cc, ∃ c, pool = (build_one_slot o filtered cap c).map
      (compact_relic o) := by
    intro pool hp
    rw [hcc] at hp
    rcases List.mem_map.mp hp with ⟨sl, hsl, hpe⟩
    rcases List.mem_map.mp hsl with ⟨c, _, hse⟩
    exact ⟨c, by rw [← hpe, ← hse]⟩
  have hpool_nd : ∀ pool ∈ cc, (pool.map (fun x => x.rid)).Nodup := by
    intro pool hp
    obtain ⟨c, hpe⟩ := hpool pool hp
    rw [hpe, List.map_map]
    have heq : ((fun x : CompactRelic => x.rid) ∘ compact_relic o) =
        (fun r : Relic => r.id) := rfl
    rw [heq]
    exact build_one_slot_nodup_ids o filtered cap c hfil
  have hpool_mem : ∀ pool ∈ cc, ∀ x ∈ pool, ∃ r ∈ filtered, r.id = x.rid := by
    intro pool hp x hx
    obtain ⟨c, hpe⟩ := hpool pool hp
    rw [hpe] at hx
    rcases List.mem_map.mp hx with ⟨r, hr, hre⟩
    refine ⟨r, (slot_pool_sublist filtered c).subset (build_one_slot_mem hr), ?_⟩
    rw [← hre]
    rfl
  simp only [enumerate_combos] at he
  split_ifs at he with hc1 hc2 hc3
  · -- all_same
    have hnd0 : ((cc.getD 0 []).map (fun c => c.rid)).Nodup := getD_pool_nd hpool_nd
    obtain ⟨h1, h2⟩ := enum_all_same_rids o _ hnd0 he
    refine ⟨h1, fun rid hr => ?_⟩
    obtain ⟨x, hx, hxr⟩ := h2 rid hr
    obtain ⟨p, hp, hxp⟩ := mem_getD_pool hx
    obtain ⟨r, hrf, hre⟩ := hpool_mem p hp x hxp
    exact ⟨r, hrf, hre.trans hxr⟩
  · -- all_diff: three pairwise-distinct non-Any colors
    simp only [Bool.and_eq_true, Bool.not_eq_true', decide_eq_true_eq,
      decide_eq_false_iff_not] at hc2
    obtain ⟨⟨hlen3, hAny⟩, hdedup⟩ := hc2
    have hfe : colors.filter (fun c => !(c = "Any")) = colors := by
      apply List.filter_eq_self.mpr
      intro a ha
      simp only [Bool.not_eq_true', decide_eq_false_iff_not]
      exact fun h => hAny (h ▸ ha)
    rw [hfe] at hdedup
    have hnodup : colors.Nodup := by
      have hsub := List.dedup_sublist colors
      have hlen : colors.dedup.length = colors.length := by omega
      have hde : colors.dedup = colors := hsub.eq_of_length hlen
      rw [← hde]
      exact List.nodup_dedup colors
    have hex : ∃ x y z, colors = [x, y, z] := by
      rcases colors with _ | ⟨x, _ | ⟨y, _ | ⟨z, _ | ⟨w, t⟩⟩⟩⟩
      · simp at hlen3
      · simp at hlen3
      · simp at hlen3
      · exact ⟨x, y, z, rfl⟩
      · simp at hlen3
    obtain ⟨x, y, z, rfl⟩ := hex
    have hxy : x ≠ y := by
      simp only [List.nodup_cons, List.mem_cons] at hnodup
      exact fun h => hnodup.1 (Or.inl h)
    have hxz : x ≠ z := by
      simp only [List.nodup_cons, List.mem_cons] at hnodup
      exact fun h => hnodup.1 (Or.inr (Or.inl h))
    have hyz : y ≠ z := by
      simp only [List.nodup_cons, List.mem_cons, List.mem_singleton] at hnodup
      exact fun h => hnodup.2.1 (Or.inl h)
    have hxa : ¬(x = "Any") := fun h => hAny (by rw [h]; exact List.mem_cons_self _ _)
    have hya : ¬(y = "Any") := fun h => hAny (by rw [h]; simp)
    have hza : ¬(z = "Any") := fun h => hAny (by rw [h]; simp)
    rw [hcc] at he
    simp only [build_slot_candidates, List.map_cons, List.map_nil,
      List.getD_cons_zero, List.getD_cons_succ] at he
    obtain ⟨h1, h2⟩ := enum_all_diff_rids o _ _ _
      (compact_pools_disjoint o filtered cap hfil hxa hya hxy)
      (compact_pools_disjoint o filtered cap hfil hxa hza hxz)
      (compact_pools_disjoint o filtered cap hfil hya hza hyz) he
    refine ⟨h1, fun rid hr => ?_⟩
    obtain ⟨w, hw, hwr⟩ := h2 rid hr
    have hwf : ∃ r ∈ filtered, r.id = w.rid := by
      rcases hw with hw | hw | hw <;>
        · rcases List.mem_map.mp hw with ⟨r, hr2, hre⟩
          refine ⟨r, (slot_pool_sublist filtered _).subset (build_one_slot_mem hr2), ?_⟩
          rw [← hre]
          rfl
    obtain ⟨r, hrf, hre⟩ := hwf
    exact ⟨r, hrf, hre.trans hwr⟩
  · -- two_same
    obtain ⟨h1, h2⟩ := enum_two_same_rids o _ _ (getD_pool_nd hpool_nd) he
    refine ⟨h1, fun rid hr => ?_⟩
    obtain ⟨w, hw, hwr⟩ := h2 rid hr
    rcases hw with hw | hw <;>
      · obtain ⟨p, hp, hwp⟩ := mem_getD_pool hw
        obtain ⟨r, hrf, hre⟩ := hpool_mem p hp w hwp
        exact ⟨r, hrf, hre.trans hwr⟩
  · -- general
    obtain ⟨h1, h2⟩ := enum_general_rids o _ he
    refine ⟨h1, fun rid hr => ?_⟩
    obtain ⟨w, ⟨p, hp, hwp⟩, hwr⟩ := h2 rid hr
    obtain ⟨r, hrf, hre⟩ := hpool_mem p hp w hwp
    exact ⟨r, hrf, hre.trans hwr⟩



theorem compact_results_nodup (o : Optimizer) (combos : List TripleEntry) (b : Bool)
    (hc : ∀ e ∈ combos, e.rids.Nodup ∧ ∀ rid ∈ e.rids, ∃ r ∈ o.all_relics, r.id = rid) :
    ∀ res ∈ combos_to_results_compact o combos b,
      (res.relics.map (fun r => r.id)).Nodup := by
  intro res hres
  unfold combos_to_results_compact at hres
  rcases List.mem_map.mp hres with ⟨e, hee, hre⟩
  obtain ⟨hnd, hmem⟩ := hc e hee
  have hrel : res.relics = e.rids.map (relic_by_id o) := by
    rw [← hre]
  rw [hrel, List.map_map]
  have heq : e.rids.map ((fun r : Relic => r.id) ∘ relic_by_id o) = e.rids :=
    (List.map_congr_left
      (fun rid hrid => relic_by_id_id o (hmem rid hrid))).trans (List.map_id _)
  rw [heq]
  exact hnd

theorem fallback_nodup (o : Optimizer) (combos : List TripleEntry) (b : Bool)
    (top_n : Nat)
    (hc : ∀ e ∈ combos, e.rids.Nodup ∧ ∀ rid ∈ e.rids, ∃ r ∈ o.all_relics, r.id = rid)
    {res : CResult}
    (hres : res ∈ combos_to_results_compact o
      ((combos.insertionSort entry_score_ge).take top_n) b) :
    (res.relics.map (fun r => r.id)).Nodup :=
  compact_results_nodup o _ b
    (fun e hee => hc e (mem_of_mem_insertionSort (List.mem_of_mem_take hee))) res hres

theorem heap_path_nodup (o : Optimizer) (top_n : Nat) (bri best_deep : Int)
    (normal_top deep_top : List TripleEntry) (nids dids : List Nat)
    (hn : ∀ e ∈ normal_top, e.rids.Nodup ∧ ∀ rid ∈ e.rids, rid ∈ nids)
    (hd : ∀ e ∈ deep_top, e.rids.Nodup ∧ ∀ rid ∈ e.rids, rid ∈ dids)
    (hnall : ∀ rid ∈ nids, ∃ r ∈ o.all_relics, r.id = rid)
    (hdall : ∀ rid ∈ dids, ∃ r ∈ o.all_relics, r.id = rid)
    (hdisj : ∀ rid ∈ nids, ¬ rid ∈ dids)
    {res : CResult}
    (hres : res ∈ ((outer_loop o top_n bri best_deep deep_top normal_top
        ⟨[], 0⟩).heap.map (result_of_pair o)).insertionSort cresult_ge) :
    (res.relics.map (fun r => r.id)).Nodup := by
  have h2 := mem_of_mem_insertionSort hres
  rcases List.mem_map.mp h2 with ⟨hitem, hh, hre⟩
  rcases outer_loop_mem o top_n bri best_deep deep_top normal_top ⟨[], 0⟩ hh with h3 | h3
  · exact absurd h3 (List.not_mem_nil _)
  · obtain ⟨hnm, hdm⟩ := h3
    obtain ⟨hnnd, hnmem⟩ := hn _ hnm
    obtain ⟨hdnd, hdmem⟩ := hd _ hdm
    have hrel : res.relics = hitem.nrm.rids.map (relic_by_id o) ++
        hitem.dp.rids.map (relic_by_id o) := by
      rw [← hre]
      rfl
    rw [hrel, List.map_append, List.map_map, List.map_map]
    have hne : hitem.nrm.rids.map ((fun r : Relic => r.id) ∘ relic_by_id o) =
        hitem.nrm.rids :=
      (List.map_congr_left
        (fun rid hrid => relic_by_id_id o (hnall rid (hnmem rid hrid)))).trans
        (List.map_id _)
    have hde : hitem.dp.rids.map ((fun r : Relic => r.id) ∘ relic_by_id o) =
        hitem.dp.rids :=
      (List.map_congr_left
        (fun rid hrid => relic_by_id_id o (hdall rid (hdmem rid hrid)))).trans
        (List.map_id _)
    rw [hne, hde, List.nodup_append]
    exact ⟨hnnd, hdnd, fun a ha hb => hdisj a (hnmem a ha) (hdmem a hb)⟩

theorem vessel_results_nodup (o : Optimizer) (slot_colors : List String)
    (types : Option (List String)) (cap top_n : Nat) :
    ∀ res ∈ optimize_for_vessel o slot_colors types cap top_n,
      (res.relics.map (fun r => r.id)).Nodup := by
  intro res hres
  simp only [optimize_for_vessel] at hres
  split_ifs at hres
  · exact absurd hres (List.not_mem_nil res)
  · have h2 := mem_of_mem_insertionSort (List.mem_of_mem_take hres)
    rcases List.mem_map.mp h2 with ⟨combo, hcombo, hre⟩
    have hcf := mem_of_mem_first_by _ _ _ combo hcombo
    have hnd := List.of_mem_filter hcf
    have hrel : res.relics = combo := by
      rw [← hre]
      rfl
    rw [hrel]
    simpa using hnd

theorem legacy_results_nodup (o : Optimizer) (color : Option String)
    (types : Option (List String)) (slots candidates top_n : Nat)
    (hids : (o.all_relics.map (fun r => r.id)).Nodup) :
    ∀ res ∈ optimize_legacy o color types slots candidates top_n,
      (res.relics.map (fun r => r.id)).Nodup := by
  intro res hres
  simp only [optimize_legacy, sort_desc_by_score] at hres
  split_ifs at hres
  · exact absurd hres (List.not_mem_nil res)
  · exact absurd hres (List.not_mem_nil res)
  · have h2 := mem_of_mem_insertionSort (List.mem_of_mem_take hres)
    rcases List.mem_map.mp h2 with ⟨combo, hcombo, hre⟩
    have hsubl := (List.mem_sublistsLen.mp hcombo).1
    have hrel : res.relics = combo := by
      rw [← hre]
      rfl
    rw [hrel]
    apply nodup_map_sublist (fun r : Relic => r.id) hsubl
    apply nodup_map_sublist (fun r : Relic => r.id) (List.take_sublist _ _)
    apply nodup_map_perm (fun r : Relic => r.id) (List.perm_insertionSort (score_ge o) _)
    exact nodup_map_sublist (fun r : Relic => r.id) (filter_relics_sublist o types color)
      hids

set_option maxHeartbeats 2000000 in
theorem combined_results_nodup (o : Optimizer)
    (hids : (o.all_relics.map (fun r => r.id)).Nodup)
    (nsc dsc : List String) (ntypes dtypes : Option (List String)) (cap top_n : Nat)
    (hdisj : ∀ rid ∈ (filter_relics o (some (ntypes.getD ["Relic", "UniqueRelic"]))
        none).map (fun r => r.id),
      ¬ rid ∈ (filter_relics o (some (dtypes.getD ["DeepRelic"])) none).map
        (fun r => r.id)) :
    ∀ res ∈ optimize_combined o nsc dsc ntypes dtypes cap top_n,
      (res.relics.map (fun r => r.id)).Nodup := by
  intro res hres
  have hNFnd : ((filter_relics o (some (ntypes.getD ["Relic", "UniqueRelic"])) none).map
      (fun r => r.id)).Nodup :=
    nodup_map_sublist _ (filter_relics_sublist o _ _) hids
  have hDFnd : ((filter_relics o (some (dtypes.getD ["DeepRelic"])) none).map
      (fun r => r.id)).Nodup :=
    nodup_map_sublist _ (filter_relics_sublist o _ _) hids
  have hNfact : ∀ e ∈ enumerate_combos o
      ((build_slot_candidates o nsc
        (filter_relics o (some (ntypes.getD ["Relic", "UniqueRelic"])) none) cap).map
        (List.map (compact_relic o))) nsc,
      e.rids.Nodup ∧ ∀ rid ∈ e.rids,
        rid ∈ (filter_relics o (some (ntypes.getD ["Relic", "UniqueRelic"])) none).map
          (fun r => r.id) := by
    intro e hee
    obtain ⟨h1, h2⟩ := enum_combined_rids o _ cap nsc hNFnd hee
    refine ⟨h1, fun rid hr => ?_⟩
    obtain ⟨r, hrf, hrr⟩ := h2 rid hr
    exact List.mem_map.mpr ⟨r, hrf, hrr⟩
  have hDfact : ∀ e ∈ enumerate_combos o
      ((build_slot_candidates o dsc
        (filter_relics o (some (dtypes.getD ["DeepRelic"])) none) cap).map
        (List.map (compact_relic o))) dsc,
      e.rids.Nodup ∧ ∀ rid ∈ e.rids,
        rid ∈ (filter_relics o (some (dtypes.getD ["DeepRelic"])) none).map
          (fun r => r.id) := by
    intro e hee
    obtain ⟨h1, h2⟩ := enum_combined_rids o _ cap dsc hDFnd hee
    refine ⟨h1, fun rid hr => ?_⟩
    obtain ⟨r, hrf, hrr⟩ := h2 rid hr
    exact List.mem_map.mpr ⟨r, hrf, hrr⟩
  have hNall : ∀ rid ∈ (filter_relics o (some (ntypes.getD ["Relic", "UniqueRelic"]))
      none).map (fun r => r.id), ∃ r ∈ o.all_relics, r.id = rid := by
    intro rid hr
    rcases List.mem_map.mp hr with ⟨r, hrf, hrr⟩
    exact ⟨r, (filter_relics_sublist o _ _).subset hrf, hrr⟩
  have hDall : ∀ rid ∈ (filter_relics o (some (dtypes.getD ["DeepRelic"])) none).map
      (fun r => r.id), ∃ r ∈ o.all_relics, r.id = rid := by
    intro rid hr
    rcases List.mem_map.mp hr with ⟨r, hrf, hrr⟩
    exact ⟨r, (filter_relics_sublist o _ _).subset hrf, hrr⟩
  simp only [optimize_combined] at hres
  split_ifs at hres <;>
    first
    | exact absurd hres (List.not_mem_nil res)
    | exact fallback_nodup o _ _ top_n
        (fun e hee => ⟨(hDfact e hee).1,
          fun rid hr => hDall rid ((hDfact e hee).2 rid hr)⟩) hres
    | exact fallback_nodup o _ _ top_n
        (fun e hee => ⟨(hNfact e hee).1,
          fun rid hr => hNall rid ((hNfact e hee).2 rid hr)⟩) hres
    | exact fallback_nodup o _ _ top_n
        (fun e hee => absurd hee (List.not_mem_nil e)) hres
    | exact heap_path_nodup o top_n _ _ _ _ _ _
        (fun e he2 => hNfact e (mem_of_mem_insertionSort (List.mem_of_mem_take he2)))
        (fun e he2 => hDfact e (mem_of_mem_insertionSort (List.mem_of_mem_take he2)))
        hNall hDall hdisj hres
    | exact heap_path_nodup o top_n _ _ _ _ _ _
        (fun e he2 => absurd (mem_of_mem_insertionSort (List.mem_of_mem_take he2))
          (List.not_mem_nil e))
        (fun e he2 => hDfact e (mem_of_mem_insertionSort (List.mem_of_mem_take he2)))
        hNall hDall hdisj hres
    | exact heap_path_nodup o top_n _ _ _ _ _ _
        (fun e he2 => hNfact e (mem_of_mem_insertionSort (List.mem_of_mem_take he2)))
        (fun e he2 => absurd (mem_of_mem_insertionSort (List.mem_of_mem_take he2))
          (List.not_mem_nil e))
        hNall hDall hdisj hres
    | exact heap_path_nodup o top_n _ _ _ _ _ _
        (fun e he2 => absurd (mem_of_mem_insertionSort (List.mem_of_mem_take he2))
          (List.not_mem_nil e))
        (fun e he2 => absurd (mem_of_mem_insertionSort (List.mem_of_mem_take he2))
          (List.not_mem_nil e))
        hNall hDall hdisj hres


/-! Settling of the claims. -/

/-- C1: the claim asserts that the single-side scorer
(`_stacking_aware_score`) and the fast integer path
(`_fast_stacking_score`) compute the same formula
`w − floor(0.5·w)·(c−1)` for a non-stackable index.  They do not: on a
weight-1 non-stackable include key carried once by each of three
relics, the single-side scorer truncates the whole product
(`int(1 * 0.5 * 2) = 1`, total 0) while the fast path multiplies the
pre-truncated penalty (`int(1 * 0.5) * 2 = 0`, total 1). -/
theorem C1_counterexample :
    (score_combination ex1_opt ex1_combo).score = 0 ∧
    (mk_entry ex1_opt (ex1_combo.map (compact_relic ex1_opt))).score = 1 := by
  constructor
  · decide
  · decide

/-- C1 (amended): the fast integer path computes exactly the claimed
per-index formula (STACKABLE `w·c`, CONDITIONAL
`w − floor(0.3·w)·(c−1)`, NON_STACKABLE `w − floor(0.5·w)·(c−1)`); the
single-side scorer instead truncates the whole float product and
agrees with the fast path whenever no include key is duplicated more
than twice in the combination. -/
theorem C1_amended :
    (∀ (o : Optimizer) (counts : List Nat),
      fast_stacking_score o counts = spec_stacking_formula o counts) ∧
    (∀ (o : Optimizer) (occ : List Nat), (∀ k, occ.count k ≤ 2) →
      stacking_aware_score o occ =
        fast_stacking_score o ((spec_key_list o).map (fun k => occ.count k))) :=
  ⟨fast_stacking_score_eq_formula, stacking_aware_eq_fast⟩

/-- C1 witness: both parts of the amended claim evaluated at concrete
inputs. -/
theorem C1_witness :
    fast_stacking_score ex1_opt [2] = spec_stacking_formula ex1_opt [2] ∧
    stacking_aware_score ex1_opt [1, 1] =
      fast_stacking_score ex1_opt
        ((spec_key_list ex1_opt).map (fun k => ([1, 1] : List Nat).count k)) := by
  constructor
  · exact C1_amended.1 ex1_opt [2]
  · refine C1_amended.2 ex1_opt [1, 1] ?_
    intro k
    by_cases h : k = 1
    · subst h
      decide
    · have hk : k ∉ ([1, 1] : List Nat) := by simp [h]
      simp [List.count_eq_zero.mpr hk]

/-- C5: the claim asserts first-binding-wins for both explicit keys and
name matches.  A later entry that names the key explicitly does rebind
it: with two include entries for key 1 (required first, nice_to_have
second) the final table holds the second binding. -/
theorem C5_counterexample :
    List.lookup 1 (effect_lookup ex5_opt) = some ⟨Priority.nice_to_have, 1⟩ ∧
    ¬(List.lookup 1 (effect_lookup ex5_opt) = some ⟨Priority.required, 100⟩) := by
  constructor
  · decide
  · decide

/-- C5 (amended): name-substring expansion never rebinds a key that is
already bound (the earlier binding is kept), but an explicit key in a
later entry overwrites any earlier binding of that key (priority and
weight). -/
theorem C5_amended :
    (∀ (relics : List Relic) (s : SpecEntry) (w : Nat)
      (tgt : List (Nat × LookupEntry)) (k : Nat),
      (List.lookup k tgt).isSome →
      List.lookup k (resolve_name_matches relics s w tgt) = List.lookup k tgt) ∧
    (∀ (tgt : List (Nat × LookupEntry)) (k : Nat) (v : LookupEntry),
      List.lookup k (dict_set tgt k v) = some v) := by
  constructor
  · intro relics s w tgt k hk
    unfold resolve_name_matches
    exact resolve_preserves_bound relics s w (all_inventory_effects relics) tgt k hk
  · intro tgt k v
    exact lookup_dict_set_self tgt k v

/-- C5 witness: both parts of the amended claim at concrete inputs. -/
theorem C5_witness :
    List.lookup 1 (resolve_name_matches
        [⟨5, "Red", "Relic", [[⟨1, "x", "x"⟩]]⟩]
        ⟨none, some "x", none, Priority.nice_to_have, 0, false⟩ 1
        [(1, ⟨Priority.required, 100⟩)]) =
      List.lookup 1 [(1, ⟨Priority.required, 100⟩)] ∧
    List.lookup 1 (dict_set [(1, (⟨Priority.required, 100⟩ : LookupEntry))] 1
        ⟨Priority.nice_to_have, 1⟩) = some ⟨Priority.nice_to_have, 1⟩ :=
  ⟨C5_amended.1 _ _ _ _ 1 (by decide), C5_amended.2 _ 1 _⟩

/-- C10: `score_combination` is invariant under duplicated relic
instances: its result on any combination equals its result on the
combination with later duplicate occurrences of an id removed (the
`seen_ids` dedup). -/
theorem C10_theorem (o : Optimizer) (combo : List Relic) :
    score_combination o combo = score_combination o (dedup_by_id combo) := by
  have h := dedup_by_id_idem combo
  unfold score_combination combo_occ combo_excl_occ combo_concentration
  rw [h]

/-- C4: the claim asserts that in every mode sub_score = (sum of
include sub-ranks over present include indices) − (sum of exclude
sub-ranks over present exclude indices).  The single-side scorer never
subtracts the exclude part: with include key 1 and exclude key 2 (both
preferred) on one relic, `score_combination` returns sub_score 100
while the claimed formula gives 100 − 100 = 0. -/
theorem C4_counterexample :
    (score_combination ex4_opt [plain_relic 1 "Red" "Relic" [1, 2]]).sub_score = 100 ∧
    claimed_sub_score ex4_opt [plain_relic 1 "Red" "Relic" [1, 2]] = 0 ∧
    ¬((score_combination ex4_opt [plain_relic 1 "Red" "Relic" [1, 2]]).sub_score =
      claimed_sub_score ex4_opt [plain_relic 1 "Red" "Relic" [1, 2]]) := by
  refine ⟨by decide, by decide, by decide⟩

/-- C4 (amended): the single-side scorer's sub_score is the sum of
include sub-rank values over the include keys present, with no exclude
subtraction; the compact single-side path and the six-slot pairing loop
compute that include sum minus the exclude sub-rank values summed per
occurrence (once per matching effect per relic), not per distinct
present index. -/
theorem C4_amended :
    (∀ (o : Optimizer) (combo : List Relic),
      (score_combination o combo).sub_score =
        (((spec_key_list o).filter (fun k => k ∈ combo_occ o combo)).map
          (fun k =>
            match spec_key_to_idx o k with
            | some idx => (spec_sub_rank_values o).getD idx 0
            | none => 0)).sum) ∧
    (∀ (o : Optimizer) (rs : List Relic),
      fast_sub_score o (mk_entry o (rs.map (compact_relic o))).counts -
          (mk_entry o (rs.map (compact_relic o))).excl_sub_sum =
        (((spec_key_list o).filter
          (fun k => k ∈ (rs.map (get_spec_keys o)).flatten)).map
          (fun k =>
            match spec_key_to_idx o k with
            | some idx => (spec_sub_rank_values o).getD idx 0
            | none => 0)).sum -
        ((rs.map (fun r => ((get_exclude_keys o r).map (fun k =>
          (excl_sub_rank_values o).getD ((excl_key_to_idx o k).getD 0) 0)).sum)).sum)) ∧
    (∀ (o : Optimizer) (rs1 rs2 : List Relic),
      pair_sub_score o (mk_entry o (rs1.map (compact_relic o)))
          (mk_entry o (rs2.map (compact_relic o))) =
        (((spec_key_list o).filter
          (fun k => k ∈ ((rs1 ++ rs2).map (get_spec_keys o)).flatten)).map
          (fun k =>
            match spec_key_to_idx o k with
            | some idx => (spec_sub_rank_values o).getD idx 0
            | none => 0)).sum -
        (((rs1 ++ rs2).map (fun r => ((get_exclude_keys o r).map (fun k =>
          (excl_sub_rank_values o).getD ((excl_key_to_idx o k).getD 0) 0)).sum)).sum)) := by
  refine ⟨score_combination_sub_eq, ?_, ?_⟩
  · intro o rs
    rw [fast_sub_score_mk_entry o rs, mk_entry_excl_sub_sum o rs]
  · intro o rs1 rs2
    unfold pair_sub_score
    have hc : fast_sub_score o (merged_counts o
        (mk_entry o (rs1.map (compact_relic o)))
        (mk_entry o (rs2.map (compact_relic o)))) =
        fast_sub_score o (mk_entry o ((rs1 ++ rs2).map (compact_relic o))).counts := by
      refine fast_sub_score_congr o _ _ ?_
      intro i hi
      exact merged_counts_eq_append o rs1 rs2 hi
    rw [hc, fast_sub_score_mk_entry o (rs1 ++ rs2)]
    have he : (mk_entry o (rs1.map (compact_relic o))).excl_sub_sum +
        (mk_entry o (rs2.map (compact_relic o))).excl_sub_sum =
        ((rs1 ++ rs2).map (fun r => ((get_exclude_keys o r).map (fun k =>
          (excl_sub_rank_values o).getD ((excl_key_to_idx o k).getD 0) 0)).sum)).sum := by
      rw [mk_entry_excl_sub_sum o rs1, mk_entry_excl_sub_sum o rs2,
        List.map_append, List.sum_append]
    rw [← he]

/-- C3: the claim extends the candidate-builder monotonicity to
`optimize_for_vessel`, but that path takes a plain score-sorted prefix
with no must-include pass: relic 1 carries include key 1 (weight 1) but
also exclude key 9 (weight 100), scoring −99; with cap 1 the only other
(effect-free, score 0) Red relic fills the slot and the include carrier
is dropped although only one carrier exists (1 ≤ cap). -/
theorem C3_counterexample :
    ¬(get_spec_keys ex3_opt (plain_relic 1 "Red" "Relic" [1, 9]) = []) ∧
    plain_relic 1 "Red" "Relic" [1, 9] ∈ slot_pool ex3_opt.all_relics "Red" ∧
    ((slot_pool ex3_opt.all_relics "Red").filter
      (fun x => !(get_spec_keys ex3_opt x = []))).length = 1 ∧
    ¬(plain_relic 1 "Red" "Relic" [1, 9] ∈
      (vessel_slot_candidates ex3_opt ["Red"] ex3_opt.all_relics 1).getD 0 []) := by
  refine ⟨by decide, by decide, by decide, by decide⟩

/-- C3 (amended): the monotonicity holds for `_build_slot_candidates`
(combined mode): an include-carrying relic of the slot's color pool is
always in the slot list when the number of carriers does not exceed the
cap, and a dropped carrier scores at most every retained relic.  In
`optimize_for_vessel` (single-side mode) the slot list is just the top
`candidates_per_slot` relics by score and an include carrier can be
dropped even when the carrier count is within the cap. -/
theorem C3_amended (o : Optimizer) (filtered : List Relic) (cap : Nat)
    (c : String) (r : Relic)
    (hnd : (filtered.map (fun x => x.id)).Nodup)
    (hr : r ∈ slot_pool filtered c)
    (hcar : ¬(get_spec_keys o r = [])) :
    (((slot_pool filtered c).filter
        (fun x => !(get_spec_keys o x = []))).length ≤ cap →
      r ∈ build_one_slot o filtered cap c) ∧
    (r ∉ build_one_slot o filtered cap c →
      ∀ x ∈ build_one_slot o filtered cap c, score_relic o r ≤ score_relic o x) :=
  ⟨fun hcap => build_one_slot_keeps_carrier o filtered cap c r hnd hr hcar hcap,
   fun hdrop => build_one_slot_dropped_le o filtered cap c r hnd hr hcar hdrop⟩

/-- C3 witness: the amended claim instantiated on the example pool with
cap 2, where the carrier is retained. -/
theorem C3_witness :
    ((((slot_pool ex3_opt.all_relics "Red").filter
        (fun x => !(get_spec_keys ex3_opt x = []))).length ≤ 2 →
      plain_relic 1 "Red" "Relic" [1, 9] ∈
        build_one_slot ex3_opt ex3_opt.all_relics 2 "Red") ∧
    (plain_relic 1 "Red" "Relic" [1, 9] ∉
        build_one_slot ex3_opt ex3_opt.all_relics 2 "Red" →
      ∀ x ∈ build_one_slot ex3_opt ex3_opt.all_relics 2 "Red",
        score_relic ex3_opt (plain_relic 1 "Red" "Relic" [1, 9]) ≤
          score_relic ex3_opt x)) :=
  C3_amended ex3_opt ex3_opt.all_relics 2 "Red" (plain_relic 1 "Red" "Relic" [1, 9])
    (by decide) (by decide) (by decide)

/-- C9: the claim asserts `load_effects_config` returns normally for
every document whose JSON parses.  A document that parses to a JSON
array raises `AttributeError` on `data.get('effects', [])`. -/
theorem C9_counterexample :
    load_effects_config (Json.arr []) = .error () := rfl

/-- C9 (amended): for every document that parses to a JSON object whose
`effects` member is an array of objects whose `priority` members are
not arrays or objects, `load_effects_config` returns normally; every
entry whose priority label is unknown is returned with priority
replaced by nice_to_have and a warning emitted; all other entries are
returned unchanged.  An `effects` member that is the empty string or
the empty object iterates to nothing and is returned unchanged with no
warnings.  A document that parses to a value that is not a JSON object
raises. -/
theorem C9_amended :
    (∀ (kvs : List (String × Json)) (items : List Json),
      json_get kvs "effects" (.arr []) = .arr items →
      (∀ e ∈ items, effect_shape_ok e = true) →
      load_effects_config (.obj kvs) =
        .ok (.arr (items.map coerce_effect), items.map warn_flag)) ∧
    (∀ kvs : List (String × Json),
      json_get kvs "effects" (.arr []) = .str "" →
      load_effects_config (.obj kvs) = .ok (.str "", [])) ∧
    (∀ kvs : List (String × Json),
      json_get kvs "effects" (.arr []) = .obj [] →
      load_effects_config (.obj kvs) = .ok (.obj [], [])) ∧
    (∀ j : Json, (∀ kvs : List (String × Json), j ≠ .obj kvs) →
      load_effects_config j = .error ()) := by
  refine ⟨?_, ?_, ?_, ?_⟩
  · intro kvs items h1 h2
    simp only [load_effects_config]
    rw [h1]
    show (match process_effects items with
      | Except.error u => Except.error u
      | Except.ok rs => Except.ok (Json.arr (rs.map Prod.fst), rs.map Prod.snd)) = _
    rw [process_effects_ok h2]
    simp [List.map_map, Function.comp]
  · intro kvs h1
    simp only [load_effects_config]
    rw [h1]
    rfl
  · intro kvs h1
    simp only [load_effects_config]
    rw [h1]
  · intro j hj
    cases j with
    | obj kvs => exact absurd rfl (hj kvs)
    | null => rfl
    | bool b => rfl
    | num n => rfl
    | str s => rfl
    | arr items => rfl

/-- C9 witness: a config with one unknown-priority entry loads
normally (coerced, one warning), an empty-string effects member is
returned unchanged, and a top-level string raises. -/
theorem C9_witness :
    (load_effects_config
        (.obj [("effects", .arr [.obj [("priority", .str "weird")]])]) =
      .ok (.arr ([.obj [("priority", .str "weird")]].map coerce_effect),
        [.obj [("priority", .str "weird")]].map warn_flag)) ∧
    (load_effects_config (.obj [("effects", .str "")]) = .ok (.str "", [])) ∧
    (load_effects_config (.str "oops") = .error ()) := by
  refine ⟨?_, ?_, ?_⟩
  · refine C9_amended.1 [("effects", .arr [.obj [("priority", .str "weird")]])]
      [.obj [("priority", .str "weird")]] rfl ?_
    intro e he
    rw [List.mem_singleton.mp he]
    rfl
  · exact C9_amended.2.1 [("effects", .str "")] rfl
  · exact C9_amended.2.2.2 (.str "oops") (fun kvs h => Json.noConfusion h)

/-- C2: `required_met` is true iff every REQUIRED include key is
carried by at least one relic of the combination and no REQUIRED
exclude key appears on any relic — in `score_combination` (used by the
single-side and legacy modes) and in the inline Phase-3 computation of
`optimize_combined` on any pair of enumerated triples. -/
theorem C2_theorem :
    (∀ (o : Optimizer) (combo : List Relic),
      (combo.map (fun r => r.id)).Nodup →
      ((score_combination o combo).required_met = true ↔
        ((∀ k e, List.lookup k (effect_lookup o) = some e →
            e.priority = Priority.required → ∃ r ∈ combo, k ∈ relic_keys r) ∧
          ¬(∃ r ∈ combo, ∃ k ∈ relic_keys r, ∃ e,
            List.lookup k (exclude_lookup o) = some e ∧
            e.priority = Priority.required)))) ∧
    (∀ (o : Optimizer) (rs1 rs2 : List Relic),
      pair_req_met o (mk_entry o (rs1.map (compact_relic o)))
          (mk_entry o (rs2.map (compact_relic o))) = true ↔
        ((∀ k e, List.lookup k (effect_lookup o) = some e →
            e.priority = Priority.required → ∃ r ∈ rs1 ++ rs2, k ∈ relic_keys r) ∧
          ¬(∃ r ∈ rs1 ++ rs2, ∃ k ∈ relic_keys r, ∃ e,
            List.lookup k (exclude_lookup o) = some e ∧
            e.priority = Priority.required))) :=
  ⟨score_combination_required_met, pair_req_met_iff⟩

/-- C2 witness: the single-side characterization on a concrete
two-relic combination that meets its required key. -/
theorem C2_witness :
    (score_combination exw_opt
        [plain_relic 1 "Red" "Relic" [1], plain_relic 2 "Red" "Relic" [2]]).required_met
        = true ↔
      ((∀ k e, List.lookup k (effect_lookup exw_opt) = some e →
          e.priority = Priority.required →
          ∃ r ∈ [plain_relic 1 "Red" "Relic" [1], plain_relic 2 "Red" "Relic" [2]],
            k ∈ relic_keys r) ∧
        ¬(∃ r ∈ [plain_relic 1 "Red" "Relic" [1], plain_relic 2 "Red" "Relic" [2]],
          ∃ k ∈ relic_keys r, ∃ e,
          List.lookup k (exclude_lookup exw_opt) = some e ∧
          e.priority = Priority.required)) :=
  C2_theorem.1 exw_opt
    [plain_relic 1 "Red" "Relic" [1], plain_relic 2 "Red" "Relic" [2]] (by decide)

/-- C7: for any two triples produced by the three-slot enumeration
phases, the merged six-slot score computed in Phase 3 (stacking-aware
score of the summed counts plus both concentration sums minus both
exclude penalties) is at most the sum of their stored scores; hence
neither pruning bound (`n_s + d_s` in the inner loop, `n_s + b` for any
upper bound b of the deep scores in the outer loop) underestimates a
remaining pair. -/
theorem C7_theorem (o : Optimizer) (cc1 cc2 : List (List CompactRelic))
    (colors1 colors2 : List String) (e1 e2 : TripleEntry)
    (h1 : e1 ∈ enumerate_combos o cc1 colors1)
    (h2 : e2 ∈ enumerate_combos o cc2 colors2) :
    pair_score o e1 e2 ≤ e1.score + e2.score ∧
    (∀ b : Int, e2.score ≤ b → pair_score o e1 e2 ≤ e1.score + b) := by
  obtain ⟨cs1, _, he1⟩ := enum_mem_mk o cc1 colors1 e1 h1
  obtain ⟨cs2, _, he2⟩ := enum_mem_mk o cc2 colors2 e2 h2
  subst he1
  subst he2
  have hle := fast_stacking_score_merged_le o (mk_entry o cs1) (mk_entry o cs2)
  have hs1 : (mk_entry o cs1).score =
      fast_stacking_score o (mk_entry o cs1).counts +
        ((mk_entry o cs1).conc : Int) - ((mk_entry o cs1).excl_pen : Int) := rfl
  have hs2 : (mk_entry o cs2).score =
      fast_stacking_score o (mk_entry o cs2).counts +
        ((mk_entry o cs2).conc : Int) - ((mk_entry o cs2).excl_pen : Int) := rfl
  have hmain : pair_score o (mk_entry o cs1) (mk_entry o cs2) ≤
      (mk_entry o cs1).score + (mk_entry o cs2).score := by
    unfold pair_score
    rw [hs1, hs2]
    linarith
  exact ⟨hmain, fun b hb => le_trans hmain (by linarith)⟩

/-- C7 witness: the bound instantiated on the first enumerated
ordinary and deep triples of the example inventory. -/
theorem C7_witness :
    pair_score exw_opt exw_e1 exw_e2 ≤ exw_e1.score + exw_e2.score ∧
    pair_score exw_opt exw_e1 exw_e2 ≤ exw_e1.score + 999 := by
  have h := C7_theorem exw_opt [exw_pool_n] [exw_pool_d]
    ["Red", "Red", "Red"] ["Red", "Red", "Red"] exw_e1 exw_e2
    (by decide) (by decide)
  exact ⟨h.1, h.2 999 (by decide)⟩

/-- C8 counterexample: in the example inventory, the required include
entry is bound to effect key 7 only through its Japanese-name substring,
so its sub-rank value stays 0 (not (1 - 0) x 10000 = 10000 as claimed),
and it is strictly dominated by the explicitly keyed preferred entry,
whose value is 100. -/
theorem C8_counterexample :
    (lookup_entry ex8_opt 7).priority = Priority.required ∧
    (lookup_entry ex8_opt 2).priority = Priority.preferred ∧
    spec_key_to_idx ex8_opt 7 = some 1 ∧
    spec_key_to_idx ex8_opt 2 = some 0 ∧
    spec_sub_rank_values ex8_opt = [100, 0] := by
  decide

/-- C8 (amended): when the include entries' explicit keys are pairwise
distinct, (1) an include key reached by no entry's explicit key keeps
sub-rank value 0 - in particular every key bound only through name
substrings; (2) the value at an explicitly keyed entry's index is
(G - rank) x SUB_RANK_TIER[priority], where G counts only the include
entries of that priority whose explicit key resolves in the key table;
(3) tier dominance (required over preferred) therefore holds only among
explicitly keyed entries, under the rank bounds rank < G_required and
G_preferred - rank <= 99. -/
theorem C8_amended (o : Optimizer)
    (hks : ((include_specs o).filterMap (fun s => s.key)).Nodup) :
    (∀ i : Nat,
        (∀ s ∈ include_specs o, ∀ k : Nat, s.key = some k →
          find_idx k (spec_key_list o) ≠ some i) →
        (spec_sub_rank_values o).getD i 0 = 0) ∧
    (∀ s ∈ include_specs o, ∀ k i : Nat, s.key = some k →
        find_idx k (spec_key_list o) = some i →
        (spec_sub_rank_values o).getD i 0 =
          ((explicit_group_size o s.priority : Int) - s.rank) *
            (SUB_RANK_TIER s.priority : Int)) ∧
    (∀ s ∈ include_specs o, ∀ t ∈ include_specs o, ∀ k i k2 j : Nat,
        s.key = some k → find_idx k (spec_key_list o) = some i →
        t.key = some k2 → find_idx k2 (spec_key_list o) = some j →
        s.priority = Priority.required → t.priority = Priority.preferred →
        s.rank < (explicit_group_size o Priority.required : Int) →
        (explicit_group_size o Priority.preferred : Int) - t.rank ≤ 99 →
        (spec_sub_rank_values o).getD j 0 < (spec_sub_rank_values o).getD i 0) := by
  have hgs := build_nodup_fsts (include_specs o) (spec_key_list o)
  have hwrite : ∀ w ∈ sub_rank_writes
      (build_priority_groups (include_specs o) (spec_key_list o)),
      ∃ tr ∈ keyed_entries (include_specs o) (spec_key_list o),
        w.1 = tr.2.1 ∧
        w.2 = ((((keyed_entries (include_specs o) (spec_key_list o)).filter
            (fun u => u.1 = tr.1)).length : Int) - tr.2.2) * (SUB_RANK_TIER tr.1 : Int) := by
    intro w hw
    rcases mem_sub_rank_writes.mp hw with ⟨g, hg, e, he, hwe⟩
    have hg2 : g.2 = group_get
        (build_priority_groups (include_specs o) (spec_key_list o)) g.1 :=
      group_eq_of_mem hgs hg
    rw [group_get_build] at hg2
    have he2 : e ∈ ((keyed_entries (include_specs o) (spec_key_list o)).filter
        (fun u => u.1 = g.1)).map (fun u => u.2) := hg2 ▸ he
    rcases List.mem_map.mp he2 with ⟨tr, htr, htre⟩
    have htr2 : tr ∈ keyed_entries (include_specs o) (spec_key_list o) :=
      List.mem_of_mem_filter htr
    have htrp : tr.1 = g.1 := by simpa using List.of_mem_filter htr
    refine ⟨tr, htr2, ?_, ?_⟩
    · rw [hwe, ← htre]
    · rw [hwe]
      show ((g.2.length : Int) - e.2) * (SUB_RANK_TIER g.1 : Int) = _
      rw [hg2, List.length_map, ← htre, htrp]
  have hpart1 : ∀ i : Nat,
      (∀ s ∈ include_specs o, ∀ k : Nat, s.key = some k →
        find_idx k (spec_key_list o) ≠ some i) →
      (spec_sub_rank_values o).getD i 0 = 0 := by
    intro i hnone
    unfold spec_sub_rank_values
    rw [assign_sub_ranks_eq, foldl_set_getD_notmem]
    · exact replicate_getD _ i
    · intro w hw he
      rcases hwrite w hw with ⟨tr, htr, hw1, _⟩
      rcases keyed_entries_mem htr with ⟨s, hs, k, hk, hfi, _, _⟩
      rw [← hw1, he] at hfi
      exact hnone s hs k hk hfi
  have hpart2 : ∀ s ∈ include_specs o, ∀ k i : Nat, s.key = some k →
      find_idx k (spec_key_list o) = some i →
      (spec_sub_rank_values o).getD i 0 =
        ((explicit_group_size o s.priority : Int) - s.rank) *
          (SUB_RANK_TIER s.priority : Int) := by
    intro s hs k i hk hfi
    have htr0 : (s.priority, i, s.rank) ∈
        keyed_entries (include_specs o) (spec_key_list o) :=
      keyed_entries_of_mem hs hk hfi
    have hidxnd : ((keyed_entries (include_specs o) (spec_key_list o)).map
        (fun t => t.2.1)).Nodup := keyed_entries_idx_nodup hks
    have huniqtr : ∀ tr ∈ keyed_entries (include_specs o) (spec_key_list o),
        tr.2.1 = i → tr = (s.priority, i, s.rank) := by
      intro tr htr hti
      exact List.inj_on_of_nodup_map hidxnd htr htr0 (by simpa using hti)
    unfold spec_sub_rank_values
    rw [assign_sub_ranks_eq]
    apply foldl_set_getD_mem
    · apply mem_sub_rank_writes.mpr
      have hne : group_get (build_priority_groups (include_specs o) (spec_key_list o))
          s.priority ≠ [] := by
        rw [group_get_build]
        intro hempty
        have hin : (i, s.rank) ∈ ((keyed_entries (include_specs o)
            (spec_key_list o)).filter (fun u => u.1 = s.priority)).map (fun u => u.2) :=
          List.mem_map.mpr ⟨(s.priority, i, s.rank),
            List.mem_filter.mpr ⟨htr0, by simp⟩, rfl⟩
        rw [hempty] at hin
        exact List.not_mem_nil _ hin
      rcases mem_of_group_get hne with ⟨g, hg, hgp, hg2⟩
      have hlen : g.2.length = explicit_group_size o s.priority := by
        rw [hg2, group_get_build, List.length_map]
        rfl
      refine ⟨g, hg, (i, s.rank), ?_, ?_⟩
      · rw [hg2, group_get_build]
        exact List.mem_map.mpr ⟨(s.priority, i, s.rank),
          List.mem_filter.mpr ⟨htr0, by simp⟩, rfl⟩
      · rw [hlen, hgp]
    · intro w hw he
      rcases hwrite w hw with ⟨tr, htr, hw1, hw2⟩
      have htri : tr = (s.priority, i, s.rank) := huniqtr tr htr (by rw [← hw1, he])
      rw [htri] at hw2
      rw [hw2]
      simp [explicit_group_size]
    · rw [List.length_replicate]
      exact (find_idx_some hfi).1
  have hpart3 : ∀ s ∈ include_specs o, ∀ t ∈ include_specs o, ∀ k i k2 j : Nat,
      s.key = some k → find_idx k (spec_key_list o) = some i →
      t.key = some k2 → find_idx k2 (spec_key_list o) = some j →
      s.priority = Priority.required → t.priority = Priority.preferred →
      s.rank < (explicit_group_size o Priority.required : Int) →
      (explicit_group_size o Priority.preferred : Int) - t.rank ≤ 99 →
      (spec_sub_rank_values o).getD j 0 < (spec_sub_rank_values o).getD i 0 := by
    intro s hs t ht k i k2 j hk hfi hk2 hfj hsp htp hrank hrank2
    rw [hpart2 s hs k i hk hfi, hpart2 t ht k2 j hk2 hfj, hsp, htp]
    have hone : (1 : Int) ≤ (explicit_group_size o Priority.required : Int) - s.rank := by
      omega
    have hsub : (explicit_group_size o Priority.preferred : Int) - t.rank ≤ 99 := hrank2
    show ((explicit_group_size o Priority.preferred : Int) - t.rank) *
        (SUB_RANK_TIER Priority.preferred : Int) <
      ((explicit_group_size o Priority.required : Int) - s.rank) *
        (SUB_RANK_TIER Priority.required : Int)
    have ht100 : (SUB_RANK_TIER Priority.preferred : Int) = 100 := by decide
    have ht10000 : (SUB_RANK_TIER Priority.required : Int) = 10000 := by decide
    rw [ht100, ht10000]
    nlinarith [hone, hsub]
  exact ⟨hpart1, hpart2, hpart3⟩

/-- C8 witness: in the two-entry inventory both explicit keys are
distinct, and the required entry with key 1 (index 0 of the key table)
receives the tier formula value. -/
theorem C8_witness :
    ((include_specs exw_opt).filterMap (fun s => s.key)).Nodup ∧
    (spec_sub_rank_values exw_opt).getD 0 0 =
      ((explicit_group_size exw_opt Priority.required : Int) - (0 : Int)) *
        (SUB_RANK_TIER Priority.required : Int) := by
  refine ⟨by decide, ?_⟩
  exact (C8_amended exw_opt (by decide)).2.1
    ⟨some 1, none, none, Priority.required, 0, false⟩ (by decide) 1 0 rfl (by decide)

/-- C6: in every result entry of the three optimizers the relic
instance ids are pairwise distinct - across the three slots of a
single-side entry and across the six slots of a combined entry -
provided the inventory ids are unique and (for combined mode) the
normal-side and deep-side filtered pools share no relic id, as the
disjoint default type sets guarantee. -/
theorem C6_theorem (o : Optimizer)
    (hids : (o.all_relics.map (fun r => r.id)).Nodup)
    (nsc dsc : List String) (ntypes dtypes : Option (List String))
    (slot_colors : List String) (vtypes : Option (List String))
    (color : Option String) (ltypes : Option (List String))
    (cap top_n slots candidates : Nat)
    (hdisj : ∀ rid ∈ (filter_relics o (some (ntypes.getD ["Relic", "UniqueRelic"]))
        none).map (fun r => r.id),
      ¬ rid ∈ (filter_relics o (some (dtypes.getD ["DeepRelic"])) none).map
        (fun r => r.id)) :
    (∀ res ∈ optimize_for_vessel o slot_colors vtypes cap top_n,
      (res.relics.map (fun r => r.id)).Nodup) ∧
    (∀ res ∈ optimize_legacy o color ltypes slots candidates top_n,
      (res.relics.map (fun r => r.id)).Nodup) ∧
    (∀ res ∈ optimize_combined o nsc dsc ntypes dtypes cap top_n,
      (res.relics.map (fun r => r.id)).Nodup) :=
  ⟨vessel_results_nodup o slot_colors vtypes cap top_n,
   legacy_results_nodup o color ltypes slots candidates top_n hids,
   combined_results_nodup o hids nsc dsc ntypes dtypes cap top_n hdisj⟩

/-- C6 witness: the id-distinctness of all three optimizers' outputs on
the example inventory. -/
theorem C6_witness :
    ((exw_opt.all_relics.map (fun r => r.id)).Nodup) ∧
    ((∀ res ∈ optimize_for_vessel exw_opt ["Red", "Red", "Red"] none 2 5,
        (res.relics.map (fun r => r.id)).Nodup) ∧
      (∀ res ∈ optimize_legacy exw_opt none none 3 10 5,
        (res.relics.map (fun r => r.id)).Nodup) ∧
      (∀ res ∈ optimize_combined exw_opt ["Red", "Red", "Red"] ["Red", "Red", "Red"]
          none none 2 5,
        (res.relics.map (fun r => r.id)).Nodup)) :=
  ⟨by decide,
   C6_theorem exw_opt (by decide) ["Red", "Red", "Red"] ["Red", "Red", "Red"]
     none none ["Red", "Red", "Red"] none none none 2 5 3 10 (by decide)⟩

end RelicOpt
